import Mathlib

/-! raycloudtools: the chunked PLY codec and the decimator

A shallow embedding of `raylib/rayply.cpp` (chunked ray-cloud / point-cloud
writer, chunked reader `readPly`) and of the two decimation callbacks of
`raycloudtools/raydecimate/raydecimate.cpp`, followed by theorems about them.

Conventions of the embedding

* A file is the list of its bytes (`List Nat`, every entry a value below 256).
* `float` and `double` values are IEEE-754 bit patterns held in `Nat`
  (`F32`, `F64`).  Reinterpreting casts of the source (`(float &)`, unions)
  become byte (de)composition, value conversions (`(float)d`, `(double)f`,
  `+`, `-`, `/`, ...) are computed exactly and rounded to nearest-even.
* `std::ofstream` is a record of contents, put position and state; what the
  stream buffer absorbs and what it passes on to the device is a parameter, so
  that a failure of the device may show at a write or only at a later flush.
* The callback of `readPly` is modelled by the list of the argument tuples
  it is invoked with, in order.
* Console output (warnings, progress) is not modelled.
-/

namespace ray

/-! ## IEEE-754 scalars as bit patterns -/

/-- Bit pattern of a `double`. -/
abbrev F64 := Nat

/-- Bit pattern of a `float`. -/
abbrev F32 := Nat

/-- A binary interchange format: `P` significand bits (hidden bit included),
`E` exponent bits, least positive subnormal `2^(-V)`. -/
structure Fmt where
  P : Nat
  E : Nat
  V : Nat
deriving DecidableEq

def binary32 : Fmt := ⟨24, 8, 149⟩

def binary64 : Fmt := ⟨53, 11, 1074⟩

/-- A decoded scalar.  `fin s m` is `(-1)^s * m * 2^(-U)` for a unit exponent
`U` fixed by the context (`Fmt.V` for a decoded bit pattern). -/
inductive Num where
  | nan : Num
  | inf : Bool → Num
  | fin : Bool → Nat → Num
deriving DecidableEq

def Fmt.signBit (f : Fmt) : Nat := 1 <<< (f.P + f.E - 1)

def Fmt.infBits (f : Fmt) : Nat := ((1 <<< f.E) - 1) <<< (f.P - 1)

/-- The quiet NaN every arithmetic operation of the model returns (which NaN
the hardware returns is not fixed by the language). -/
def Fmt.nanBits (f : Fmt) : Nat := f.infBits + (1 <<< (f.P - 2))

def decode (f : Fmt) (x : Nat) : Num :=
  let s := decide ((x >>> (f.P + f.E - 1)) % 2 = 1)
  let e := (x >>> (f.P - 1)) % (1 <<< f.E)
  let m := x % (1 <<< (f.P - 1))
  if e = (1 <<< f.E) - 1 then (if m = 0 then Num.inf s else Num.nan)
  else if e = 0 then Num.fin s m
  else Num.fin s (((1 <<< (f.P - 1)) + m) <<< (e - 1))

/-- One step of the binary search for the leading bit: `p.1` is what is left of
the number, `p.2` the shift applied so far. -/
def ilog2Step (p : Nat × Nat) (s : Nat) : Nat × Nat :=
  if p.1 < 1 <<< s then p else (p.1 >>> s, p.2 + s)

/-- Position of the leading one bit (0 for 0), for arguments below `2^8192`. -/
def ilog2 (n : Nat) : Nat :=
  ([4096, 2048, 1024, 512, 256, 128, 64, 32, 16, 8, 4, 2, 1].foldl ilog2Step (n, 0)).2

/-- Round `mag * 2^(-U)` (`U ≥ f.V`) to nearest, ties to even; the result is
the exponent and significand field of the format, not yet capped at
infinity. -/
def roundMag (f : Fmt) (U mag : Nat) : Nat :=
  let shift := max (ilog2 mag + 1 - f.P) (U - f.V)
  let q := mag >>> shift
  let r := mag % (1 <<< shift)
  let half := 1 <<< (shift - 1)
  let up := decide (half < r) || (decide (r = half) && decide (q % 2 = 1))
  ((shift - (U - f.V)) <<< (f.P - 1)) + q + (if up then 1 else 0)

/-- Bit pattern of the value `n` (unit `2^(-U)`) in format `f`. -/
def encode (f : Fmt) (U : Nat) : Num → Nat
  | Num.nan => f.nanBits
  | Num.inf s => (if s then f.signBit else 0) + f.infBits
  | Num.fin s mag =>
    (if s then f.signBit else 0) + min (roundMag f (max U f.V) (mag <<< (f.V - U))) f.infBits

/-- Signed value of a sign and a magnitude. -/
def sint (s : Bool) (m : Nat) : Int := if s then -(m : Int) else (m : Int)

def Num.neg : Num → Num
  | Num.nan => Num.nan
  | Num.inf s => Num.inf (!s)
  | Num.fin s m => Num.fin (!s) m

/-- Exact sum of two scalars of the same unit. -/
def Num.add : Num → Num → Num
  | Num.nan, _ => Num.nan
  | _, Num.nan => Num.nan
  | Num.inf s, Num.inf t => if s = t then Num.inf s else Num.nan
  | Num.inf s, Num.fin _ _ => Num.inf s
  | Num.fin _ _, Num.inf t => Num.inf t
  | Num.fin s a, Num.fin t b =>
    let v := sint s a + sint t b
    if v = 0 then Num.fin (s && t) 0 else Num.fin (decide (v < 0)) v.natAbs

/-- Exact product; the unit exponents add. -/
def Num.mul : Num → Num → Num
  | Num.nan, _ => Num.nan
  | _, Num.nan => Num.nan
  | Num.inf s, Num.inf t => Num.inf (xor s t)
  | Num.inf s, Num.fin t b => if b = 0 then Num.nan else Num.inf (xor s t)
  | Num.fin s a, Num.inf t => if a = 0 then Num.nan else Num.inf (xor s t)
  | Num.fin s a, Num.fin t b => Num.fin (xor s t) (a * b)

/-- Quotient of two scalars of the same unit, in unit `2^(-1077)`, the last
bit being sticky. -/
def Num.div : Num → Num → Num
  | Num.nan, _ => Num.nan
  | _, Num.nan => Num.nan
  | Num.inf _, Num.inf _ => Num.nan
  | Num.inf s, Num.fin t _ => Num.inf (xor s t)
  | Num.fin s _, Num.inf t => Num.fin (xor s t) 0
  | Num.fin s a, Num.fin t b =>
    if b = 0 then (if a = 0 then Num.nan else Num.inf (xor s t))
    else Num.fin (xor s t) (2 * ((a <<< 1076) / b) + (if (a <<< 1076) % b = 0 then 0 else 1))

/-- `std::ceil` on a scalar of unit `2^(-1074)`. -/
def Num.ceil : Num → Num
  | Num.nan => Num.nan
  | Num.inf s => Num.inf s
  | Num.fin true m => Num.fin true ((m >>> 1074) <<< 1074)
  | Num.fin false m =>
    Num.fin false (((m >>> 1074) + (if m % (1 <<< 1074) = 0 then 0 else 1)) <<< 1074)

/-- `std::floor` on a scalar of unit `2^(-1074)`. -/
def Num.floor : Num → Num
  | Num.nan => Num.nan
  | Num.inf s => Num.inf s
  | Num.fin false m => Num.fin false ((m >>> 1074) <<< 1074)
  | Num.fin true m =>
    Num.fin true (((m >>> 1074) + (if m % (1 <<< 1074) = 0 then 0 else 1)) <<< 1074)

/-- The comparison `a < b` of two scalars of the same unit. -/
def Num.lt : Num → Num → Bool
  | Num.nan, _ => false
  | _, Num.nan => false
  | Num.inf s, Num.inf t => s && !t
  | Num.inf s, Num.fin _ _ => s
  | Num.fin _ _, Num.inf t => !t
  | Num.fin s a, Num.fin t b => decide (sint s a < sint t b)

/-- The comparison `a == b` of two scalars of the same unit. -/
def Num.eq : Num → Num → Bool
  | Num.nan, _ => false
  | _, Num.nan => false
  | Num.inf s, Num.inf t => s == t
  | Num.inf _, Num.fin _ _ => false
  | Num.fin _ _, Num.inf _ => false
  | Num.fin s a, Num.fin t b => decide (sint s a = sint t b)

/-- Integer part (truncation toward zero) of a scalar of unit `2^(-1074)`;
0 for NaN and the infinities. -/
def Num.trunc : Num → Int
  | Num.fin s m => sint s (m >>> 1074)
  | _ => 0

/-- The conversion `(double)f`. -/
def f32ToF64 (x : F32) : F64 := encode binary64 149 (decode binary32 x)

/-- The conversion `(float)d`. -/
def f64ToF32 (x : F64) : F32 := encode binary32 1074 (decode binary64 x)

/-- The conversion `(double)n` of an unsigned integer. -/
def natToF64 (n : Nat) : F64 := encode binary64 0 (Num.fin false n)

def add64 (a b : F64) : F64 := encode binary64 1074 ((decode binary64 a).add (decode binary64 b))

def sub64 (a b : F64) : F64 :=
  encode binary64 1074 ((decode binary64 a).add (decode binary64 b).neg)

def mul64 (a b : F64) : F64 := encode binary64 2148 ((decode binary64 a).mul (decode binary64 b))

def div64 (a b : F64) : F64 := encode binary64 1077 ((decode binary64 a).div (decode binary64 b))

def ceil64 (a : F64) : F64 := encode binary64 1074 (decode binary64 a).ceil

def floor64 (a : F64) : F64 := encode binary64 1074 (decode binary64 a).floor

def lt64 (a b : F64) : Bool := (decode binary64 a).lt (decode binary64 b)

def eq64 (a b : F64) : Bool := (decode binary64 a).eq (decode binary64 b)

/-- The comparison `a >= b`. -/
def ge64 (a b : F64) : Bool := lt64 b a || eq64 a b

def isNaN64 (a : F64) : Bool := decode binary64 a == Num.nan

/-- A `double` that is neither NaN nor infinite. -/
def isFinite64 (a : F64) : Bool :=
  match decode binary64 a with
  | Num.fin _ _ => true
  | _ => false

/-- `std::max(a, b)`, that is `(a < b) ? b : a`. -/
def max64 (a b : F64) : F64 := if lt64 a b then b else a

/-- `std::min(a, b)`, that is `(b < a) ? b : a`. -/
def min64 (a b : F64) : F64 := if lt64 b a then b else a

/-- The conversion `static_cast<uint8_t>(d)`: truncation toward zero.  Outside
`(-1, 256)` the source has undefined behaviour; the model wraps modulo 256. -/
def f64ToU8 (a : F64) : Nat := ((decode binary64 a).trunc % 256).toNat

/-- The conversion `int(d)`: truncation toward zero (undefined in the source
outside the range of `int`, not wrapped here). -/
def f64ToInt (a : F64) : Int := (decode binary64 a).trunc

/-! ## Data model -/

/-- `Eigen::Vector3d`. -/
structure Vector3d where
  x : F64
  y : F64
  z : F64
deriving DecidableEq

/-- The Eigen comparison `a == b`: every coefficient compares equal. -/
def Vector3d.eq (a b : Vector3d) : Bool := eq64 a.x b.x && eq64 a.y b.y && eq64 a.z b.z

def Vector3d.add (a b : Vector3d) : Vector3d := ⟨add64 a.x b.x, add64 a.y b.y, add64 a.z b.z⟩

def Vector3d.sub (a b : Vector3d) : Vector3d := ⟨sub64 a.x b.x, sub64 a.y b.y, sub64 a.z b.z⟩

def Vector3d.zero : Vector3d := ⟨0, 0, 0⟩

/-- The colour type `ray::RGBA` of `rayutils.h`: four bytes, in this order. -/
structure RGBA where
  red : Nat
  green : Nat
  blue : Nat
  alpha : Nat
deriving DecidableEq

def RGBA.zero : RGBA := ⟨0, 0, 0, 0⟩

/-- The four columns handed around by reader, writer and decimator
(`ray::Cloud`, and the argument tuple of the `readPly` callback). -/
structure Cloud where
  starts : List Vector3d
  ends : List Vector3d
  times : List F64
  colours : List RGBA
deriving DecidableEq

def Cloud.empty : Cloud := ⟨[], [], [], []⟩

/-! ## Bytes and text -/

/-- The bytes of a string literal. -/
def str (s : String) : List Nat := s.toList.map Char.toNat

/-- What `out << s << std::endl` appends. -/
def textLine (s : String) : List Nat := str s ++ [10]

/-- Little-endian bytes of a 32-bit pattern. -/
def le32 (x : Nat) : List Nat := [x % 256, x / 256 % 256, x / 65536 % 256, x / 16777216 % 256]

/-- Little-endian bytes of a 64-bit pattern: the two `float` halves
`u.f[0]`, `u.f[1]` of the union with a `double`. -/
def le64 (x : Nat) : List Nat := le32 (x % 4294967296) ++ le32 (x / 4294967296)

/-- The memory image of an `RGBA`, as written through `(float &)colours[i]`. -/
def rgbaBytes (c : RGBA) : List Nat := [c.red % 256, c.green % 256, c.blue % 256, c.alpha % 256]

/-- Decimal rendering of an unsigned number (`stream << n`), most significant
digit first. -/
def decimalAux : Nat → Nat → List Nat → List Nat
  | 0, _, acc => acc
  | fuel + 1, n, acc =>
    if n < 10 then (48 + n) :: acc else decimalAux fuel (n / 10) ((48 + n % 10) :: acc)

def decimal (n : Nat) : List Nat := decimalAux (n + 1) n []

/-! ## Output stream -/

/-- A `std::ofstream` opened on a file.  `data` is the file as written through
the stream (the bytes on the device and, behind them, those the stream buffer
still holds), `pos` the put position, `good` whether the stream is still
`good()`, `limit` the size the device accepts.  The buffering is left to the
implementation: `buffers pos n` tells whether the stream buffer absorbs a write
of `n` bytes at the put position `pos`, or passes it on to the device together
with what it holds.  A transfer to the device fails, and sets the error state,
when the file as written is larger than `limit`; the device keeps the bytes
below its limit. -/
structure OFStream where
  data : List Nat
  pos : Nat
  good : Bool
  limit : Nat
  buffers : Nat → Nat → Bool

/-- The method `tellp()`: -1 once the stream has failed. -/
def OFStream.tellp (o : OFStream) : Int := if o.good then (o.pos : Int) else -1

/-- The file as written once `bytes` are put at the put position. -/
def OFStream.image (o : OFStream) (bytes : List Nat) : List Nat :=
  o.data.take o.pos ++ List.replicate (o.pos - o.data.length) 0 ++ bytes
    ++ o.data.drop (o.pos + bytes.length)

/-- The members `write` and `operator<<`: overwrite / append at the put
position.  A write the buffer absorbs cannot fail; one passed on to the device
fails when the device has no room for the file as written. -/
def OFStream.write (o : OFStream) (bytes : List Nat) : OFStream :=
  if !o.good then o
  else if o.buffers o.pos bytes.length then
    { o with data := o.image bytes, pos := o.pos + bytes.length }
  else if o.limit < (o.image bytes).length then
    { o with data := (o.image bytes).take o.limit, good := false }
  else { o with data := o.image bytes, pos := o.pos + bytes.length }

/-- The member `flush`, which `std::endl`, `seekp` and the destructor also run:
what the buffer holds goes to the device. -/
def OFStream.flush (o : OFStream) : OFStream :=
  if !o.good then o
  else if o.limit < o.data.length then { o with data := o.data.take o.limit, good := false }
  else o

/-- The member `seekp`: the buffer is emptied, then the put position moves. -/
def OFStream.seekp (o : OFStream) (p : Nat) : OFStream :=
  if (o.flush).good then { o.flush with pos := p } else o.flush

/-- The manipulator `std::endl`: a newline, then `flush`. -/
def OFStream.endl (o : OFStream) : OFStream := (o.write [10]).flush

/-- The statement `out << s << std::endl`. -/
def OFStream.line (o : OFStream) (s : String) : OFStream := (o.write (str s)).endl

/-- A stream without a buffer: every write goes to the device. -/
def unbuffered : Nat → Nat → Bool := fun _ _ => false

/-- A stream buffer that absorbs every write below 1024 bytes and passes the
larger ones on to the device. -/
def absorbsSmall : Nat → Nat → Bool := fun _ n => decide (n < 1024)

/-- One operation on the stream: a write, or a flush. -/
inductive StreamOp where
  | put : List Nat → StreamOp
  | flush : StreamOp

def OFStream.step (o : OFStream) : StreamOp → OFStream
  | StreamOp.put b => o.write b
  | StreamOp.flush => o.flush

/-- The bytes a list of operations writes. -/
def bytesOf : List StreamOp → List Nat
  | [] => []
  | StreamOp.put b :: ops => b ++ bytesOf ops
  | StreamOp.flush :: ops => bytesOf ops

/-- The operations of `out << s << std::endl`. -/
def lineOps (s : String) : List StreamOp :=
  [StreamOp.put (str s), StreamOp.put [10], StreamOp.flush]

/-- The file-static variables of `rayply.cpp` (`unsigned long`, 64 bits). -/
structure Globals where
  chunk_header_length : Nat
  point_cloud_chunk_header_length : Nat
  vertex_size_pos : Nat
  point_cloud_vertex_size_pos : Nat
deriving DecidableEq

def Globals.init : Globals := ⟨0, 0, 0, 0⟩

/-- Conversion of a stream position to `unsigned long`. -/
def toULong (p : Int) : Nat := (p % 18446744073709551616).toNat

/-- The value `std::numeric_limits<unsigned long>::digits10`. -/
def num_zeros : Nat := 19

/-! ## Chunked writer (`rayply.cpp`, lines 34-301) -/

/-- Size of `RayPlyEntry` (declared in `rayply.h`): the comma initialiser of
`writeRayCloudChunk` fills it with 9 floats, 12 with `RAYLIB_DOUBLE_RAYS`. -/
def sizeofRayPlyEntry (double_rays : Bool) : Nat := if double_rays then 48 else 36

/-- Size of `PointPlyEntry`: 6 floats, 9 with `RAYLIB_DOUBLE_RAYS`. -/
def sizeofPointPlyEntry (double_rays : Bool) : Nat := if double_rays then 36 else 24

/-- The three position property lines, by `RAYLIB_DOUBLE_RAYS`. -/
def positionLines (double_rays : Bool) : List Nat :=
  if double_rays then
    textLine "property double x" ++ textLine "property double y" ++ textLine "property double z"
  else
    textLine "property float x" ++ textLine "property float y" ++ textLine "property float z"

/-- The same three lines as the strings sent to the stream. -/
def positionProperties (double_rays : Bool) : List String :=
  if double_rays then ["property double x", "property double y", "property double z"]
  else ["property float x", "property float y", "property float z"]

/-- `writeRayCloudChunkStart`.  `double_rays` is the build option
`RAYLIB_DOUBLE_RAYS`; `open_ok` and `limit` say whether the file can be opened
and how many bytes it can take, `buffers` how the stream buffers (see
`OFStream`). -/
def writeRayCloudChunkStart (double_rays open_ok : Bool) (buffers : Nat → Nat → Bool)
    (limit : Nat) (g : Globals) : Bool × Globals × OFStream :=
  let out : OFStream := ⟨[], 0, open_ok, limit, buffers⟩
  if !out.good then (false, g, out)
  else
    let out := out.line "ply"
    let out := out.line "format binary_little_endian 1.0"
    let out := out.line "comment generated by raycloudtools library"
    let out := out.write (str "element vertex ")
    let out := (List.replicate num_zeros [48]).foldl OFStream.write out
    let g := { g with vertex_size_pos := toULong out.tellp }
    let out := out.endl
    let out := (positionProperties double_rays).foldl OFStream.line out
    let out := out.line "property double time"
    let out := out.line "property float nx"
    let out := out.line "property float ny"
    let out := out.line "property float nz"
    let out := out.line "property uchar red"
    let out := out.line "property uchar green"
    let out := out.line "property uchar blue"
    let out := out.line "property uchar alpha"
    let out := out.line "end_header"
    let g := { g with chunk_header_length := toULong out.tellp }
    (true, g, out)

/-- The operations `writeRayCloudChunkStart` performs on the stream, in order. -/
def rayHeaderOps (double_rays : Bool) : List StreamOp :=
  lineOps "ply" ++ lineOps "format binary_little_endian 1.0"
    ++ lineOps "comment generated by raycloudtools library"
    ++ [StreamOp.put (str "element vertex ")]
    ++ List.replicate num_zeros (StreamOp.put [48])
    ++ [StreamOp.put [10], StreamOp.flush]
    ++ ((positionProperties double_rays).map lineOps).flatten
    ++ lineOps "property double time" ++ lineOps "property float nx"
    ++ lineOps "property float ny" ++ lineOps "property float nz"
    ++ lineOps "property uchar red" ++ lineOps "property uchar green"
    ++ lineOps "property uchar blue" ++ lineOps "property uchar alpha"
    ++ lineOps "end_header"

/-- The position part of a row: narrowed to `float`, or the two halves of each
`double` with `RAYLIB_DOUBLE_RAYS`. -/
def positionBytes (double_rays : Bool) (p : Vector3d) : List Nat :=
  if double_rays then le64 p.x ++ le64 p.y ++ le64 p.z
  else le32 (f64ToF32 p.x) ++ le32 (f64ToF32 p.y) ++ le32 (f64ToF32 p.z)

/-- One `RayPlyEntry` as filled by the loop body of `writeRayCloudChunk`. -/
def rayPlyEntry (double_rays : Bool) (start end_ : Vector3d) (time : F64) (colour : RGBA) :
    List Nat :=
  let n := start.sub end_
  positionBytes double_rays end_ ++ le64 time
    ++ le32 (f64ToF32 n.x) ++ le32 (f64ToF32 n.y) ++ le32 (f64ToF32 n.z) ++ rgbaBytes colour

/-- The buffer `vertices` after the loop of `writeRayCloudChunk`: entry `i` is
built from `starts[i]`, `ends[i]`, `times[i]`, `colours[i]` for `i < ends.size()`
(an index past the end of a shorter column is undefined in the source and
reads a zero value here). -/
def rayPlyBuffer (double_rays : Bool) (c : Cloud) : List Nat :=
  ((List.range c.ends.length).map fun i =>
    rayPlyEntry double_rays (c.starts.getD i Vector3d.zero) (c.ends.getD i Vector3d.zero)
      (c.times.getD i 0) (c.colours.getD i RGBA.zero)).flatten

/-- `writeRayCloudChunk`: the returned flag and the stream afterwards. -/
def writeRayCloudChunk (double_rays : Bool) (g : Globals) (out : OFStream) (c : Cloud) :
    Bool × OFStream :=
  if c.ends.length = 0 then (true, out)
  else if out.tellp < (g.chunk_header_length : Int) then (false, out)
  else
    let out := out.write (rayPlyBuffer double_rays c)
    if !out.good then (false, out) else (true, out)

/-- `writeRayCloudChunkEnd`: the returned count and the stream afterwards. -/
def writeRayCloudChunkEnd (double_rays : Bool) (g : Globals) (out : OFStream) : Nat × OFStream :=
  let size := (toULong out.tellp + 18446744073709551616 - g.chunk_header_length)
    % 18446744073709551616
  let number_of_rays := size / sizeofRayPlyEntry double_rays
  let s := decimal number_of_rays
  let out := out.seekp (g.vertex_size_pos - s.length)
  let out := out.write s
  (number_of_rays, out)

/-- `writePointCloudChunkStart`. -/
def writePointCloudChunkStart (double_rays open_ok : Bool) (buffers : Nat → Nat → Bool)
    (limit : Nat) (g : Globals) : Bool × Globals × OFStream :=
  let out : OFStream := ⟨[], 0, open_ok, limit, buffers⟩
  if !out.good then (false, g, out)
  else
    let out := out.line "ply"
    let out := out.line "format binary_little_endian 1.0"
    let out := out.line "comment generated by raycloudtools library"
    let out := out.write (str "element vertex ")
    let out := (List.replicate num_zeros [48]).foldl OFStream.write out
    let g := { g with point_cloud_vertex_size_pos := toULong out.tellp }
    let out := out.endl
    let out := (positionProperties double_rays).foldl OFStream.line out
    let out := out.line "property double time"
    let out := out.line "property uchar red"
    let out := out.line "property uchar green"
    let out := out.line "property uchar blue"
    let out := out.line "property uchar alpha"
    let out := out.line "end_header"
    let g := { g with point_cloud_chunk_header_length := toULong out.tellp }
    (true, g, out)

/-- One `PointPlyEntry` as filled by the loop body of `writePointCloudChunk`. -/
def pointPlyEntry (double_rays : Bool) (point : Vector3d) (time : F64) (colour : RGBA) :
    List Nat :=
  positionBytes double_rays point ++ le64 time ++ rgbaBytes colour

def pointPlyBuffer (double_rays : Bool) (points : List Vector3d) (times : List F64)
    (colours : List RGBA) : List Nat :=
  ((List.range points.length).map fun i =>
    pointPlyEntry double_rays (points.getD i Vector3d.zero) (times.getD i 0)
      (colours.getD i RGBA.zero)).flatten

/-- `writePointCloudChunk`: the returned flag and the stream afterwards. -/
def writePointCloudChunk (double_rays : Bool) (g : Globals) (out : OFStream)
    (points : List Vector3d) (times : List F64) (colours : List RGBA) : Bool × OFStream :=
  if points.length = 0 then (false, out)
  else if out.tellp < (g.point_cloud_chunk_header_length : Int) then (false, out)
  else
    let out := out.write (pointPlyBuffer double_rays points times colours)
    if !out.good then (false, out) else (true, out)

/-- `writePointCloudChunkEnd`: the stream afterwards. -/
def writePointCloudChunkEnd (double_rays : Bool) (g : Globals) (out : OFStream) : OFStream :=
  let size := (toULong out.tellp + 18446744073709551616 - g.point_cloud_chunk_header_length)
    % 18446744073709551616
  let number_of_points := size / sizeofPointPlyEntry double_rays
  let s := decimal number_of_points
  let out := out.seekp (g.point_cloud_vertex_size_pos - s.length)
  out.write s

/-! ## Header scan of `readPly` (`rayply.cpp`, lines 314-375) -/

inductive DataType where
  | kDTfloat : DataType
  | kDTdouble : DataType
  | kDTushort : DataType
  | kDTuchar : DataType
  | kDTnone : DataType
deriving DecidableEq

open DataType

/-- The table `rowsteps`: `sizeof` of each `DataType`, 0 for `kDTnone`. -/
def rowsteps : DataType → Nat
  | kDTfloat => 4
  | kDTdouble => 8
  | kDTushort => 2
  | kDTuchar => 1
  | kDTnone => 0

/-- Whether `pat` occurs in `line` as a contiguous run. -/
def containsBytes : List Nat → List Nat → Bool
  | [], pat => pat.isEmpty
  | c :: cs, pat => pat.isPrefixOf (c :: cs) || containsBytes cs pat

/-- The test `line.find(pat) != std::string::npos`. -/
def found (line : List Nat) (pat : String) : Bool := containsBytes line (str pat)

/-- The local variables of `readPly` that the header scan sets. -/
structure Layout where
  row_size : Nat
  offset : Int
  normal_offset : Int
  time_offset : Int
  colour_offset : Int
  intensity_offset : Int
  time_is_float : Bool
  pos_is_float : Bool
  normal_is_float : Bool
  intensity_type : DataType
deriving DecidableEq

/-- Their initial values. -/
def Layout.init : Layout := ⟨0, -1, -1, -1, -1, -1, false, false, false, kDTnone⟩

/-- The `DataType` the scan assigns to a header line. -/
def lineDataType (line : List Nat) : DataType :=
  if found line "property float" then kDTfloat
  else if found line "property double" then kDTdouble
  else if found line "property uchar" then kDTuchar
  else if found line "property ushort" then kDTushort
  else kDTnone

/-- A line that sets the position offset. -/
def isPositionLine (line : List Nat) : Bool :=
  found line "property float x" || found line "property double x"

/-- A line that sets the normal offset. -/
def isNormalLine (line : List Nat) : Bool :=
  found line "property float nx" || found line "property double nx"

/-- The body of the header loop after `getline`, for one line. -/
def scanLine (h : Layout) (line : List Nat) : Layout :=
  let data_type := lineDataType line
  let h := if isPositionLine line then
      { h with offset := (h.row_size : Int), pos_is_float := found line "float" || h.pos_is_float }
    else h
  let h := if isNormalLine line then
      { h with
        normal_offset := (h.row_size : Int)
        normal_is_float := found line "float" || h.normal_is_float }
    else h
  let h := if found line "time" then
      { h with time_offset := (h.row_size : Int), time_is_float := found line "float" || h.time_is_float }
    else h
  let h := if found line "intensity" then
      { h with intensity_offset := (h.row_size : Int), intensity_type := data_type }
    else h
  let h := if found line "property uchar red" then { h with colour_offset := (h.row_size : Int) }
    else h
  { h with row_size := h.row_size + rowsteps data_type }

/-- The function `getline(input, line)` on the unread part of the stream: the
line without its newline, and what is left to read. -/
def getline : List Nat → List Nat × List Nat
  | [] => ([], [])
  | c :: cs => if c = 10 then ([], cs) else ((c :: (getline cs).1), (getline cs).2)

/-- The loop condition `line != "end_header\r" && line != "end_header"`, negated. -/
def isEndHeader (line : List Nat) : Bool :=
  decide (line = str "end_header\r") || decide (line = str "end_header")

/-- The header loop.  The source does not test the stream state: once the
input is exhausted without an `end_header` line, `getline` fails on every
iteration and the loop never ends; that is the result `none`.  The first
argument bounds the number of lines (a line takes at least one byte). -/
def scanHeader : Nat → List Nat → Layout → Option (Layout × List Nat)
  | 0, _, _ => none
  | _ + 1, [], _ => none
  | fuel + 1, c :: cs, h =>
    let line := (getline (c :: cs)).1
    let rest := (getline (c :: cs)).2
    if isEndHeader line then some (scanLine h line, rest)
    else scanHeader fuel rest (scanLine h line)

/-- The header loop on a whole file, from the initial values: the layout and
the bytes after the header. -/
def parseHeader (file : List Nat) : Option (Layout × List Nat) :=
  scanHeader (file.length + 1) file Layout.init

/-- The header check of lines 365-375: position is mandatory, the normal is
mandatory for a ray cloud. -/
def mandatoryFieldsPresent (is_ray_cloud : Bool) (h : Layout) : Bool :=
  !(decide (h.offset = -1)) && !(is_ray_cloud && decide (h.normal_offset = -1))

/-! ## Row decoding (`rayply.cpp`, lines 428-537) -/

/-- A byte of the row buffer `vertices` (a read past the buffer is undefined
in the source and yields 0 here). -/
def byteAt (v : List Nat) (i : Nat) : Nat := v.getD i 0

def getLE16 (v : List Nat) (off : Nat) : Nat := byteAt v off + 256 * byteAt v (off + 1)

def getLE32 (v : List Nat) (off : Nat) : Nat :=
  byteAt v off + 256 * byteAt v (off + 1) + 65536 * byteAt v (off + 2)
    + 16777216 * byteAt v (off + 3)

def getLE64 (v : List Nat) (off : Nat) : Nat := getLE32 v off + 4294967296 * getLE32 v (off + 4)

/-- The read `(Eigen::Vector3f &)vertices[off]`, widened to `Vector3d`. -/
def vector3fAt (v : List Nat) (off : Nat) : Vector3d :=
  ⟨f32ToF64 (getLE32 v off), f32ToF64 (getLE32 v (off + 4)), f32ToF64 (getLE32 v (off + 8))⟩

/-- The read `(Eigen::Vector3d &)vertices[off]`. -/
def vector3dAt (v : List Nat) (off : Nat) : Vector3d :=
  ⟨getLE64 v off, getLE64 v (off + 8), getLE64 v (off + 16)⟩

/-- The read `(RGBA &)vertices[off]`. -/
def rgbaAt (v : List Nat) (off : Nat) : RGBA :=
  ⟨byteAt v off, byteAt v (off + 1), byteAt v (off + 2), byteAt v (off + 3)⟩

/-- Modelled from the spec: `clamped` of `rayutils.h` (not among the sources),
"clamped to [0,1]": `std::max(min_value, std::min(value, max_value))`. -/
def clamped (value min_value max_value : F64) : F64 := max64 min_value (min64 value max_value)

/-- The intensity as read from the row, by the stored type (lines 509-515):
`float`, `double`, and in every other case a 16-bit unsigned read. -/
def rawIntensity (h : Layout) (v : List Nat) : F64 :=
  if h.intensity_type = kDTfloat then f32ToF64 (getLE32 v h.intensity_offset.toNat)
  else if h.intensity_type = kDTdouble then getLE64 v h.intensity_offset.toNat
  else natToF64 (getLE16 v h.intensity_offset.toNat)

/-- The byte pushed to `intensities` for a raw intensity (lines 516-535). -/
def remapIntensity (max_intensity intensity : F64) : Nat :=
  let intensity :=
    if ge64 intensity 0 then
      max64 0x4000000000000000
        (ceil64 (mul64 0x406FE00000000000
          (clamped (div64 intensity max_intensity) 0 0x3FF0000000000000)))
    else if eq64 intensity 0xBFF0000000000000 then 0
    else if eq64 intensity 0xC000000000000000 then 0x3FF0000000000000
    else if eq64 intensity 0xC008000000000000 then 0x3FF0000000000000
    else intensity
  f64ToU8 intensity

/-- The vectors `ends`, `starts`, `times`, `colours`, `intensities` of `readPly`. -/
structure Cols where
  ends : List Vector3d
  starts : List Vector3d
  times : List F64
  colours : List RGBA
  intensities : List Nat
deriving DecidableEq

def Cols.empty : Cols := ⟨[], [], [], [], []⟩

/-- The function `colourByTime` of `rayutils` is not among the sources; the
reader takes it as a parameter: from the times and the colour vector passed in,
the colour vector afterwards. -/
abbrev ColourByTime := List F64 → List RGBA → List RGBA

/-- The position of a row (lines 431-438). -/
def decodeEnd (h : Layout) (vertices : List Nat) : Vector3d :=
  if h.pos_is_float then vector3fAt vertices h.offset.toNat else vector3dAt vertices h.offset.toNat

/-- The normal of a row (lines 456-465). -/
def decodeNormal (h : Layout) (is_ray_cloud : Bool) (vertices : List Nat) : Vector3d :=
  if is_ray_cloud then
    (if h.normal_is_float then vector3fAt vertices h.normal_offset.toNat
     else vector3dAt vertices h.normal_offset.toNat)
  else Vector3d.zero

/-- The time of a row (lines 487-491). -/
def decodeTime (h : Layout) (vertices : List Nat) : F64 :=
  if h.time_is_float then f32ToF64 (getLE32 vertices h.time_offset.toNat)
  else getLE64 vertices h.time_offset.toNat

/-- Whether the row survives the two `continue` statements (lines 439-482). -/
def rowValid (h : Layout) (is_ray_cloud : Bool) (vertices : List Nat) : Bool :=
  let end_ := decodeEnd h vertices
  let normal := decodeNormal h is_ray_cloud vertices
  end_.eq end_ && (!is_ray_cloud || normal.eq normal)

/-- The pushes of lines 484-537 for a row that is kept. -/
def pushRow (h : Layout) (is_ray_cloud : Bool) (max_intensity : F64) (vertices : List Nat)
    (c : Cols) : Cols :=
  let end_ := decodeEnd h vertices
  let normal := decodeNormal h is_ray_cloud vertices
  let c := { c with ends := c.ends ++ [end_] }
  let c := if h.time_offset ≠ -1 then { c with times := c.times ++ [decodeTime h vertices] } else c
  let c := { c with starts := c.starts ++ [end_.add normal] }
  let c := if h.colour_offset ≠ -1 then
      { c with colours := c.colours ++ [rgbaAt vertices h.colour_offset.toNat] }
    else c
  if !is_ray_cloud && decide (h.intensity_offset ≠ -1) then
    { c with intensities := c.intensities ++ [remapIntensity max_intensity (rawIntensity h vertices)] }
  else c

/-- The body of the loop of lines 553-563: the alpha channel becomes the
intensity byte `a`; 0 blanks the colour, 1 makes it pale magenta. -/
def withIntensity (c : RGBA) (a : Nat) : RGBA :=
  if a = 0 then ⟨0, 0, 0, a⟩
  else if a = 1 then ⟨255, 200, 255, a⟩
  else { c with alpha := a }

/-- The loop of lines 553-563 over `j < intensities.size()` (an index past the
end of `colours` is undefined in the source; the model stops there). -/
def applyIntensities : List RGBA → List Nat → List RGBA
  | cs, [] => cs
  | [], _ :: _ => []
  | c :: cs, a :: as => withIntensity c a :: applyIntensities cs as

/-- Lines 540-565: the tuple handed to `apply` when the chunk is flushed at
row index `i`. -/
def finishChunk (colourByTime : ColourByTime) (h : Layout) (is_ray_cloud : Bool) (i : Nat)
    (c : Cols) : Cloud :=
  let times := if h.time_offset = -1 then
      (List.range c.ends.length).map fun j => natToF64 (i + j)
    else c.times
  let colours := if h.colour_offset = -1 then colourByTime times c.colours else c.colours
  let colours := if !is_ray_cloud && decide (h.intensity_offset ≠ -1) then
      applyIntensities colours c.intensities
    else colours
  ⟨c.starts, c.ends, times, colours⟩

/-- The row loop of lines 428-573: `n` rows are still to be read, the next has
index `i`; the result lists the calls of `apply`, in order. -/
def readRows (colourByTime : ColourByTime) (h : Layout) (is_ray_cloud : Bool)
    (max_intensity : F64) (chunk_size size : Nat) : Nat → Nat → List Nat → Cols → List Cloud
  | 0, _, _, _ => []
  | n + 1, i, input, c =>
    let vertices := input.take h.row_size
    let input := input.drop h.row_size
    if !rowValid h is_ray_cloud vertices then
      readRows colourByTime h is_ray_cloud max_intensity chunk_size size n (i + 1) input c
    else
      let c := pushRow h is_ray_cloud max_intensity vertices c
      if c.ends.length = chunk_size || i = size - 1 then
        finishChunk colourByTime h is_ray_cloud i c ::
          readRows colourByTime h is_ray_cloud max_intensity chunk_size size n (i + 1) input
            Cols.empty
      else readRows colourByTime h is_ray_cloud max_intensity chunk_size size n (i + 1) input c

/-- What a call of `readPly` does when it returns: the returned flag and the
calls of `apply` made, in order. -/
structure ReadResult where
  ok : Bool
  calls : List Cloud
deriving DecidableEq

/-- The chunked `readPly` on a file that can be opened.  `none` stands for a
call that does not return: the endless header loop (see `scanHeader`) and the
division by a zero `chunk_size` in line 385. -/
def readPly (colourByTime : ColourByTime) (file : List Nat) (is_ray_cloud : Bool)
    (max_intensity : F64) (chunk_size : Nat) : Option ReadResult :=
  match parseHeader file with
  | none => none
  | some (h, body) =>
    if h.offset = -1 then some ⟨false, []⟩
    else if is_ray_cloud && decide (h.normal_offset = -1) then some ⟨false, []⟩
    else
      let size := body.length / h.row_size
      if chunk_size = 0 then none
      else if size = 0 then some ⟨false, []⟩
      else
        some ⟨true, readRows colourByTime h is_ray_cloud max_intensity chunk_size size size 0
          body Cols.empty⟩

/-! ## Decimation callbacks (`raydecimate.cpp`, lines 38-77) -/

/-- The method `std::vector::resize`: truncate, or pad with a zero value. -/
def resizeList {α : Type} (d : α) (l : List α) (n : Nat) : List α :=
  l.take n ++ List.replicate (n - l.length) d

/-- Modelled from the spec: `ray::Cloud::resize` of `raycloud.h` (not among the
sources) resizes the four same-length columns of the chunk. -/
def Cloud.resize (c : Cloud) (n : Nat) : Cloud :=
  ⟨resizeList Vector3d.zero c.starts n, resizeList Vector3d.zero c.ends n,
    resizeList 0 c.times n, resizeList RGBA.zero c.colours n⟩

/-- The assignments `chunk.starts[c] = starts[i]; ...` of both callbacks: row
`i` of the argument columns is stored at row `c` of the buffer `chunk`. -/
def Cloud.assign (chunk : Cloud) (c : Nat) (arg : Cloud) (i : Nat) : Cloud :=
  ⟨chunk.starts.set c (arg.starts.getD i Vector3d.zero),
    chunk.ends.set c (arg.ends.getD i Vector3d.zero),
    chunk.times.set c (arg.times.getD i 0),
    chunk.colours.set c (arg.colours.getD i RGBA.zero)⟩

/-- The loop of `decimate_rays` (lines 69-75), `i` advancing by `decimation`;
the first argument bounds the number of iterations. -/
def decimateRaysLoop (decimation : Nat) (arg : Cloud) : Nat → Nat → Nat → Cloud → Cloud
  | 0, _, _, chunk => chunk
  | fuel + 1, i, c, chunk =>
    if i < arg.ends.length then
      decimateRaysLoop decimation arg fuel (i + decimation) (c + 1) (chunk.assign c arg i)
    else chunk

/-- The callback `decimate_rays` for a stride `decimation ≥ 1` (the argument
parser admits 1..100): from the buffer `chunk` left by the previous call and
the columns received, the buffer afterwards, which is what the callback hands
to the chunk writer. -/
def decimate_rays (decimation : Nat) (chunk : Cloud) (arg : Cloud) : Cloud :=
  let count := (arg.ends.length + decimation - 1) / decimation
  decimateRaysLoop decimation arg arg.ends.length 0 0 (chunk.resize count)

/-- A run of `readPly` with `decimate_rays` as callback: the chunks handed to
the writer, in order, for the calls `calls` of the callback. -/
def decimateRaysRun (decimation : Nat) : Cloud → List Cloud → List Cloud
  | _, [] => []
  | chunk, arg :: rest =>
    decimate_rays decimation chunk arg :: decimateRaysRun decimation (decimate_rays decimation chunk arg) rest

/-- A voxel index (`Eigen::Vector3i`). -/
abbrev VoxelKey := Int × Int × Int

/-- Modelled from the spec: the VoxelKey, "integer triple =
floor(coordinate / voxel_width) per axis". -/
def voxelKey (width : F64) (p : Vector3d) : VoxelKey :=
  (f64ToInt (floor64 (div64 p.x width)), f64ToInt (floor64 (div64 p.y width)),
    f64ToInt (floor64 (div64 p.z width)))

/-- Modelled from the spec: `voxelSubsample` of `rayutils` (not among the
sources): "for each record in the chunk, compute its VoxelKey at the configured
voxel width; if the key is already present in the run's VoxelSet, discard the
record; otherwise insert the key and keep the record".  The point list is
walked from index `i`; the indices kept are appended to `indices`, and the set
is the list of its keys. -/
def voxelSubsample (width : F64) :
    List Vector3d → Nat → List Nat → List VoxelKey → List Nat × List VoxelKey
  | [], _, indices, vox_set => (indices, vox_set)
  | p :: ps, i, indices, vox_set =>
    if voxelKey width p ∈ vox_set then voxelSubsample width ps (i + 1) indices vox_set
    else voxelSubsample width ps (i + 1) (indices ++ [i]) (voxelKey width p :: vox_set)

/-- The copy loop of `decimate_cm` (lines 54-61) from position `i` on. -/
def gatherLoop (arg : Cloud) : List Nat → Nat → Cloud → Cloud
  | [], _, chunk => chunk
  | id :: ids, i, chunk => gatherLoop arg ids (i + 1) (chunk.assign i arg id)

/-- The callback `decimate_cm` for the command-line value `vox_width`: from the
buffer `chunk` and the set `voxel_set` left by the previous call and the
columns received, the buffer afterwards (what is handed to the chunk writer)
and the set afterwards. -/
def decimate_cm (vox_width : F64) (chunk : Cloud) (voxel_set : List VoxelKey) (arg : Cloud) :
    Cloud × List VoxelKey :=
  let width := mul64 0x3F847AE147AE147B vox_width
  let r := voxelSubsample width arg.ends 0 [] voxel_set
  (gatherLoop arg r.1 0 (chunk.resize r.1.length), r.2)

/-- A run of `readPly` with `decimate_cm` as callback: the chunks handed to the
writer, in order. -/
def decimateCmRun (vox_width : F64) : Cloud → List VoxelKey → List Cloud → List Cloud
  | _, _, [] => []
  | chunk, voxel_set, arg :: rest =>
    (decimate_cm vox_width chunk voxel_set arg).1 ::
      decimateCmRun vox_width (decimate_cm vox_width chunk voxel_set arg).1
        (decimate_cm vox_width chunk voxel_set arg).2 rest

/-! ## Whole-file writes -/

/-- A sequence of `writeRayCloudChunk` calls on one stream: the flags returned,
in order, and the stream afterwards. -/
def writeRayCloudChunks (double_rays : Bool) (g : Globals) :
    OFStream → List Cloud → List Bool × OFStream
  | out, [] => ([], out)
  | out, c :: cs =>
    ((writeRayCloudChunk double_rays g out c).1 ::
        (writeRayCloudChunks double_rays g (writeRayCloudChunk double_rays g out c).2 cs).1,
      (writeRayCloudChunks double_rays g (writeRayCloudChunk double_rays g out c).2 cs).2)

/-- The file produced by `writeRayCloudChunkStart`, one `writeRayCloudChunk` per
chunk, `writeRayCloudChunkEnd` and the closing of the stream, on a device that
takes `limit` bytes; with it the value returned by `writeRayCloudChunkEnd`. -/
def writeRayCloudFile (double_rays : Bool) (buffers : Nat → Nat → Bool) (limit : Nat)
    (chunks : List Cloud) : Nat × List Nat :=
  let s := writeRayCloudChunkStart double_rays true buffers limit Globals.init
  let w := writeRayCloudChunks double_rays s.2.1 s.2.2 chunks
  let e := writeRayCloudChunkEnd double_rays s.2.1 w.2
  (e.1, e.2.flush.data)

/-- A file with a header: the lines `lines`, each ended by a newline, the line
`end_header`, and the data section `body`. -/
def headerFile (lines : List (List Nat)) (body : List Nat) : List Nat :=
  (lines.map fun l => l ++ [10]).flatten ++ textLine "end_header" ++ body

/-- The layout after the header loop has gone through `lines` and the line
`end_header`. -/
def layoutOf (lines : List (List Nat)) : Layout :=
  (lines ++ [str "end_header"]).foldl scanLine Layout.init

/-- The layout `readPly` derives from the header `writeRayCloudChunkStart`
writes. -/
def rayCloudLayout (double_rays : Bool) : Layout :=
  if double_rays then ⟨48, 0, 32, 24, 44, -1, false, false, true, kDTnone⟩
  else ⟨36, 0, 20, 12, 32, -1, false, true, true, kDTnone⟩

/-- The header `writeRayCloudChunkStart` writes, in pieces. -/
def rayHeaderPieces (double_rays : Bool) : List (List Nat) :=
  [textLine "ply", textLine "format binary_little_endian 1.0",
    textLine "comment generated by raycloudtools library", str "element vertex ",
    List.replicate num_zeros 48, [10], positionLines double_rays,
    textLine "property double time", textLine "property float nx", textLine "property float ny",
    textLine "property float nz", textLine "property uchar red", textLine "property uchar green",
    textLine "property uchar blue", textLine "property uchar alpha", textLine "end_header"]

/-- The header lines of a ray-cloud file whose count field holds `field`. -/
def rayFileLines (double_rays : Bool) (field : List Nat) : List (List Nat) :=
  [str "ply", str "format binary_little_endian 1.0",
    str "comment generated by raycloudtools library", str "element vertex " ++ field]
    ++ (if double_rays then
        [str "property double x", str "property double y", str "property double z"]
      else [str "property float x", str "property float y", str "property float z"])
    ++ [str "property double time", str "property float nx", str "property float ny",
      str "property float nz", str "property uchar red", str "property uchar green",
      str "property uchar blue", str "property uchar alpha"]

/-- Length of the header `writeRayCloudChunkStart` writes. -/
def rayHeaderLength (double_rays : Bool) : Nat := if double_rays then 335 else 332

/-- The number of records of a sequence of chunks (one per entry of `ends`). -/
def totalRecords (chunks : List Cloud) : Nat := (chunks.map fun c => c.ends.length).sum

/-- The number a decimal digit string denotes. -/
def readDecimal (digits : List Nat) : Nat := digits.foldl (fun a d => 10 * a + (d - 48)) 0

/-- The count field of a ray-cloud file: the `num_zeros` bytes after
`element vertex `. -/
def vertexCountField (file : List Nat) : List Nat := (file.drop 94).take num_zeros

/-! ## Records and specification functions -/

/-- One record: start, end, time, colour. -/
abbrev Record := Vector3d × Vector3d × F64 × RGBA

/-- Row `i` of the four columns. -/
def Cloud.row (c : Cloud) (i : Nat) : Record :=
  (c.starts.getD i Vector3d.zero, c.ends.getD i Vector3d.zero, c.times.getD i 0,
    c.colours.getD i RGBA.zero)

/-- The records of a chunk: one per entry of `ends`. -/
def Cloud.records (c : Cloud) : List Record := (List.range c.ends.length).map c.row

/-- All records of a sequence of chunks, in order. -/
def recordsOf (cs : List Cloud) : List Record := (cs.map Cloud.records).flatten

/-- Narrowing to `float` and widening back, coordinate by coordinate. -/
def Vector3d.viaFloat (p : Vector3d) : Vector3d :=
  ⟨f32ToF64 (f64ToF32 p.x), f32ToF64 (f64ToF32 p.y), f32ToF64 (f64ToF32 p.z)⟩

/-- The position read back for a position written: itself with
`RAYLIB_DOUBLE_RAYS`, else its `float` narrowing. -/
def storedPosition (double_rays : Bool) (p : Vector3d) : Vector3d :=
  if double_rays then p else p.viaFloat

/-- All three coordinates are finite 64-bit patterns. -/
def Vector3d.finite (p : Vector3d) : Bool :=
  isFinite64 p.x && isFinite64 p.y && isFinite64 p.z
    && decide (p.x < 18446744073709551616) && decide (p.y < 18446744073709551616)
    && decide (p.z < 18446744073709551616)

/-- Four bytes. -/
def RGBA.inRange (c : RGBA) : Bool :=
  decide (c.red < 256) && decide (c.green < 256) && decide (c.blue < 256)
    && decide (c.alpha < 256)

/-- A chunk fit for the writer: four columns of one length, finite starts and
ends, times that are 64-bit patterns, colours of four bytes. -/
def Cloud.valid (c : Cloud) : Bool :=
  decide (c.starts.length = c.ends.length) && decide (c.times.length = c.ends.length)
    && decide (c.colours.length = c.ends.length)
    && c.starts.all Vector3d.finite && c.ends.all Vector3d.finite
    && c.times.all (fun t => decide (t < 18446744073709551616)) && c.colours.all RGBA.inRange

/-- The record read back for a record written. -/
def storedRecord (double_rays : Bool) (r : Record) : Record :=
  ((storedPosition double_rays r.2.1).add (r.1.sub r.2.1).viaFloat,
    storedPosition double_rays r.2.1, r.2.2.1, r.2.2.2)

/-- The four columns of a list of records. -/
def cloudOf (rs : List Record) : Cloud :=
  ⟨rs.map fun r => r.1, rs.map fun r => r.2.1, rs.map fun r => r.2.2.1, rs.map fun r => r.2.2.2⟩

/-- The row the writer produces for a record. -/
def recordEntry (double_rays : Bool) (r : Record) : List Nat :=
  rayPlyEntry double_rays r.1 r.2.1 r.2.2.1 r.2.2.2

/-- The entries of `l` at the indices `0, N, 2N, ...`: `ceil(length / N)` of them. -/
def everyNth {α : Type} (N : Nat) (l : List α) : List α :=
  (List.range ((l.length + N - 1) / N)).filterMap fun k => l.get? (k * N)

/-- Overwrite the `m` entries from index `c` on with `f c, f (c+1), ...`, one
assignment after the other. -/
def setRun {α : Type} (f : Nat → α) : Nat → Nat → List α → List α
  | 0, _, l => l
  | m + 1, c, l => setRun f m (c + 1) (l.set c (f c))

/-- The first `n` rows of `row_size` bytes of the data section, as the
successive `input.read` calls deliver them. -/
def splitRows (row_size : Nat) : Nat → List Nat → List (List Nat)
  | 0, _ => []
  | n + 1, input => input.take row_size :: splitRows row_size n (input.drop row_size)

/-- The rows of the data section: `length / row_size` of them. -/
def fileRows (h : Layout) (body : List Nat) : List (List Nat) :=
  splitRows h.row_size (body.length / h.row_size) body

/-- The columns built by pushing the rows `rows`, in order, onto empty columns. -/
def colsOf (h : Layout) (is_ray_cloud : Bool) (max_intensity : F64) (rows : List (List Nat)) :
    Cols :=
  rows.foldl (fun c v => pushRow h is_ray_cloud max_intensity v c) Cols.empty

/-- The row loop, on rows: the chunks it flushes, each with the index of the
row at which it is flushed.  `pend` holds the rows pushed since the last flush,
`i` is the index of the first row of the list. -/
def groupRows (h : Layout) (is_ray_cloud : Bool) (chunk_size size : Nat) :
    Nat → List (List Nat) → List (List Nat) → List (Nat × List (List Nat))
  | _, [], _ => []
  | i, v :: vs, pend =>
    if !rowValid h is_ray_cloud v then groupRows h is_ray_cloud chunk_size size (i + 1) vs pend
    else if (pend ++ [v]).length = chunk_size || i = size - 1 then
      (i, pend ++ [v]) :: groupRows h is_ray_cloud chunk_size size (i + 1) vs []
    else groupRows h is_ray_cloud chunk_size size (i + 1) vs (pend ++ [v])

/-- The rows behind each call of the callback, call by call: the chunks the
row loop flushes for the rows `rows` of a file. -/
def deliveredRows (h : Layout) (is_ray_cloud : Bool) (chunk_size : Nat)
    (rows : List (List Nat)) : List (List (List Nat)) :=
  (groupRows h is_ray_cloud chunk_size rows.length 0 rows []).map Prod.snd

/-- Column-wise concatenation of the tuples handed to the callback. -/
def concatClouds (cs : List Cloud) : Cloud :=
  ⟨(cs.map Cloud.starts).flatten, (cs.map Cloud.ends).flatten, (cs.map Cloud.times).flatten,
    (cs.map Cloud.colours).flatten⟩

/-- No coordinate is a NaN. -/
def Vector3d.noNaN (p : Vector3d) : Bool := !isNaN64 p.x && !isNaN64 p.y && !isNaN64 p.z

/-- A valid row as the spec words it: no NaN in the position of the row, nor,
for a ray cloud, in its normal. -/
def rowHasNoNaN (h : Layout) (is_ray_cloud : Bool) (v : List Nat) : Bool :=
  (decodeEnd h v).noNaN && (!is_ray_cloud || (decodeNormal h is_ray_cloud v).noNaN)

/-- The colour delivered for a row that stores a colour: the stored bytes, with
the intensity remapping applied for a point cloud with an intensity field. -/
def rowColour (h : Layout) (is_ray_cloud : Bool) (max_intensity : F64) (v : List Nat) : RGBA :=
  if !is_ray_cloud && decide (h.intensity_offset ≠ -1) then
    withIntensity (rgbaAt v h.colour_offset.toNat) (remapIntensity max_intensity (rawIntensity h v))
  else rgbaAt v h.colour_offset.toNat

/-- The four columns decoded from a list of rows of a file that stores time
and colour. -/
def decodeRows (h : Layout) (is_ray_cloud : Bool) (max_intensity : F64)
    (rows : List (List Nat)) : Cloud :=
  ⟨rows.map fun v => (decodeEnd h v).add (decodeNormal h is_ray_cloud v),
    rows.map (decodeEnd h), rows.map (decodeTime h),
    rows.map (rowColour h is_ray_cloud max_intensity)⟩

/-- The records of `rs` that are the first of their voxel: a record is kept
exactly when its key `voxelKey width end` is not in `seen`, the keys present
when the record is reached. -/
def firstInVoxel (width : F64) : List VoxelKey → List Record → List Record
  | _, [] => []
  | seen, r :: rs =>
    if voxelKey width r.2.1 ∈ seen then firstInVoxel width seen rs
    else r :: firstInVoxel width (voxelKey width r.2.1 :: seen) rs

/-- The key set after the records `rs` have been walked from the set `seen`. -/
def seenAfter (width : F64) : List VoxelKey → List Record → List VoxelKey
  | seen, [] => seen
  | seen, r :: rs =>
    if voxelKey width r.2.1 ∈ seen then seenAfter width seen rs
    else seenAfter width (voxelKey width r.2.1 :: seen) rs

/-! ## `convertCloud` (`rayply.cpp`, lines 711-734) -/

/-- The loop of the callback `applyToChunk`: `apply` rewrites the four entries
of every index below `ends.size()` in place (an index past the end of a
shorter column is undefined in the source and reads a zero value here). -/
def applyToChunk (apply : Record → Record) (c : Cloud) : Cloud := cloudOf (c.records.map apply)

/-- The function `convertCloud` on an input file that can be opened and is not
the output file: the returned flag, the flags returned by the calls of
`writeRayCloudChunk` made by the callback, in order, and the output stream as
its destructor leaves it.  `chunk_size` is the default argument of the
declaration of `readPly` in `rayply.h`; `none` is a call of `readPly` that does
not return. -/
def convertCloud (double_rays open_ok : Bool) (buffers : Nat → Nat → Bool) (limit : Nat)
    (colourByTime : ColourByTime) (in_file : List Nat) (chunk_size : Nat)
    (apply : Record → Record) : Option (Bool × List Bool × OFStream) :=
  let s := writeRayCloudChunkStart double_rays open_ok buffers limit Globals.init
  if !s.1 then some (false, [], s.2.2)
  else
    match readPly colourByTime in_file true 0 chunk_size with
    | none => none
    | some r =>
      let w := writeRayCloudChunks double_rays s.2.1 s.2.2 (r.calls.map (applyToChunk apply))
      if !r.ok then some (false, w.1, w.2.flush)
      else some (true, w.1, (writeRayCloudChunkEnd double_rays s.2.1 w.2).2.flush)

/-! ## Header fields as the spec words them -/

/-- Following the spec's words, "offset still advances by their width": the
byte width of the scalar type that a line `property <type> <name>` declares,
for the PLY scalar types `char`, `uchar`, `short`, `ushort`, `int`, `uint`,
`float` and `double`; 0 for a line that declares no property. -/
def declaredWidth (line : List Nat) : Nat :=
  if (str "property char ").isPrefixOf line then 1
  else if (str "property uchar ").isPrefixOf line then 1
  else if (str "property short ").isPrefixOf line then 2
  else if (str "property ushort ").isPrefixOf line then 2
  else if (str "property int ").isPrefixOf line then 4
  else if (str "property uint ").isPrefixOf line then 4
  else if (str "property float ").isPrefixOf line then 4
  else if (str "property double ").isPrefixOf line then 8
  else 0

/-- The width the header loop adds to `row_size` for a line. -/
def lineWidth (line : List Nat) : Nat := rowsteps (lineDataType line)

/-! ## Concrete inputs -/

/-- Two chunks of three records each. -/
def strideChunkA : Cloud :=
  ⟨[⟨0, 0, 0⟩, ⟨0, 0, 0⟩, ⟨0, 0, 0⟩], [⟨1, 0, 0⟩, ⟨2, 0, 0⟩, ⟨3, 0, 0⟩], [0, 1, 2],
    [⟨0, 0, 0, 255⟩, ⟨0, 0, 0, 255⟩, ⟨0, 0, 0, 255⟩]⟩

def strideChunkB : Cloud :=
  ⟨[⟨0, 0, 0⟩, ⟨0, 0, 0⟩, ⟨0, 0, 0⟩], [⟨4, 0, 0⟩, ⟨5, 0, 0⟩, ⟨6, 0, 0⟩], [3, 4, 5],
    [⟨0, 0, 0, 255⟩, ⟨0, 0, 0, 255⟩, ⟨0, 0, 0, 255⟩]⟩

/-- A `colourByTime` stand-in that paints every record opaque white. -/
def plainColours : ColourByTime := fun times _ => times.map fun _ => ⟨255, 255, 255, 255⟩

/-- A ray-cloud file, as the writer produces it, holding one ray from the
origin to (1, 2, 3) at time 5.0. -/
def oneRayFile : List Nat :=
  (writeRayCloudFile false absorbsSmall 1000000
    [⟨[⟨0, 0, 0⟩], [⟨0x3FF0000000000000, 0x4000000000000000, 0x4008000000000000⟩],
      [0x4014000000000000], [⟨10, 20, 30, 255⟩]⟩]).2

/-- A ray-cloud file, as the writer produces it, holding two rays. -/
def twoRayFile : List Nat :=
  (writeRayCloudFile false absorbsSmall 1000000
    [⟨[⟨0, 0, 0⟩, ⟨0, 0, 0⟩],
      [⟨0x3FF0000000000000, 0x4000000000000000, 0x4008000000000000⟩,
        ⟨0x4008000000000000, 0x4000000000000000, 0x3FF0000000000000⟩],
      [0x4014000000000000, 0x4018000000000000], [⟨10, 20, 30, 255⟩, ⟨40, 50, 60, 255⟩]⟩]).2

/-- A ray-cloud file, as the writer produces it, with two rays, the second of
which ends at a NaN position. -/
def nanTailFile : List Nat :=
  (writeRayCloudFile false absorbsSmall 1000000
    [⟨[⟨0, 0, 0⟩, ⟨0, 0, 0⟩],
      [⟨0x3FF0000000000000, 0x4000000000000000, 0x4008000000000000⟩, ⟨0x7FF8000000000000, 0, 0⟩],
      [0x4014000000000000, 0x4018000000000000], [⟨10, 20, 30, 255⟩, ⟨40, 50, 60, 255⟩]⟩]).2

/-- A ray-cloud file, as the writer produces it, with three rays, the second of
which ends at a NaN position. -/
def nanMiddleFile : List Nat :=
  (writeRayCloudFile false absorbsSmall 1000000
    [⟨[⟨0, 0, 0⟩, ⟨0, 0, 0⟩, ⟨0, 0, 0⟩],
      [⟨0x3FF0000000000000, 0x4000000000000000, 0x4008000000000000⟩, ⟨0x7FF8000000000000, 0, 0⟩,
        ⟨0x4008000000000000, 0x4000000000000000, 0x3FF0000000000000⟩],
      [0x4014000000000000, 0x4018000000000000, 0x401C000000000000],
      [⟨10, 20, 30, 255⟩, ⟨40, 50, 60, 255⟩, ⟨70, 80, 90, 255⟩]⟩]).2

/-- A ray-cloud file, as the writer produces it, whose only ray ends at a NaN
position. -/
def nanOnlyFile : List Nat :=
  (writeRayCloudFile false absorbsSmall 1000000
    [⟨[⟨0, 0, 0⟩], [⟨0x7FF8000000000000, 0, 0⟩], [0x4014000000000000], [⟨10, 20, 30, 255⟩]⟩]).2

/-- A ray-cloud file of eleven all-zero rows that stores position, normal and
colour but no time. -/
def noTimeFile : List Nat :=
  textLine "ply" ++ textLine "format binary_little_endian 1.0"
    ++ textLine "element vertex 11"
    ++ textLine "property float x" ++ textLine "property float y" ++ textLine "property float z"
    ++ textLine "property float nx" ++ textLine "property float ny" ++ textLine "property float nz"
    ++ textLine "property uchar red" ++ textLine "property uchar green"
    ++ textLine "property uchar blue" ++ textLine "property uchar alpha"
    ++ textLine "end_header" ++ List.replicate (11 * 28) 0

/-- The header lines of a ray cloud that stores `float` positions, `double`
time, `float` normals and a colour. -/
def rayHeaderLines : List (List Nat) :=
  [str "ply", str "format binary_little_endian 1.0", str "element vertex 1",
    str "property float x", str "property float y", str "property float z",
    str "property double time",
    str "property float nx", str "property float ny", str "property float nz",
    str "property uchar red", str "property uchar green", str "property uchar blue",
    str "property uchar alpha"]

/-- Four point-cloud rows of 28 bytes (position, time, colour, `float`
intensity) with intensities -1, -2, -3 and 50. -/
def intensityBody : List Nat :=
  List.replicate 20 0 ++ [10, 20, 30, 255] ++ le32 0xBF800000
    ++ List.replicate 20 0 ++ [10, 20, 30, 255] ++ le32 0xC0000000
    ++ List.replicate 20 0 ++ [10, 20, 30, 255] ++ le32 0xC0400000
    ++ List.replicate 20 0 ++ [10, 20, 30, 255] ++ le32 0x42480000

/-- A point-cloud file with `float` position, `double` time, colour and a
`float` intensity, holding the rows of `intensityBody`. -/
def intensityFile : List Nat :=
  headerFile
    [str "ply", str "format binary_little_endian 1.0", str "element vertex 4",
      str "property float x", str "property float y", str "property float z",
      str "property double time",
      str "property uchar red", str "property uchar green", str "property uchar blue",
      str "property uchar alpha", str "property float intensity"]
    intensityBody

/-- What `readPly` returns for `intensityFile` read as a point cloud with
`max_intensity` 100 and capacity 10. -/
def intensityResult : ReadResult :=
  ⟨true, [⟨[⟨0, 0, 0⟩, ⟨0, 0, 0⟩, ⟨0, 0, 0⟩, ⟨0, 0, 0⟩], [⟨0, 0, 0⟩, ⟨0, 0, 0⟩, ⟨0, 0, 0⟩, ⟨0, 0, 0⟩],
    [0, 0, 0, 0], [⟨0, 0, 0, 0⟩, ⟨255, 200, 255, 1⟩, ⟨255, 200, 255, 1⟩, ⟨10, 20, 30, 128⟩]⟩]⟩

/-- The layout of `intensityFile`. -/
def intensityLayout : Layout := ⟨28, 0, -1, 12, 20, 24, false, true, false, kDTfloat⟩

/-- Two chunks, of three and of two rays. -/
def patchChunks : List Cloud := [strideChunkA, ⟨[⟨0, 0, 0⟩, ⟨0, 0, 0⟩], [⟨1, 0, 0⟩, ⟨2, 0, 0⟩], [0, 1],
  [⟨0, 0, 0, 255⟩, ⟨0, 0, 0, 255⟩]⟩]

/-- A chunk of two records. -/
def strideChunkC : Cloud :=
  ⟨[⟨0, 0, 0⟩, ⟨0, 0, 0⟩], [⟨1, 0, 0⟩, ⟨2, 0, 0⟩], [0, 1], [⟨0, 0, 0, 255⟩, ⟨0, 0, 0, 255⟩]⟩

/-- The header lines of a point cloud with an `int` property ahead of the
position. -/
def intIdLines : List (List Nat) :=
  [str "ply", str "format binary_little_endian 1.0", str "element vertex 1",
    str "property int id",
    str "property float x", str "property float y", str "property float z",
    str "property double time"]

/-- The header lines of a point cloud whose intensity is a `uchar` stored
between the position and the colour. -/
def ucharIntensityLines : List (List Nat) :=
  [str "ply", str "format binary_little_endian 1.0", str "element vertex 1",
    str "property float x", str "property float y", str "property float z",
    str "property double time", str "property uchar intensity",
    str "property uchar red", str "property uchar green", str "property uchar blue",
    str "property uchar alpha"]

/-- One row for `ucharIntensityLines`: a point at the origin at time 0 with
intensity byte 5 and colour (1, 20, 30, 255). -/
def ucharIntensityRow : List Nat := List.replicate 20 0 ++ [5] ++ [1, 20, 30, 255]

/-- The same row with red 0 in place of 1. -/
def ucharIntensityRowB : List Nat := List.replicate 20 0 ++ [5] ++ [0, 20, 30, 255]

/-- What `readPly` returns for `twoRayFile` read as a ray cloud with capacity 1:
one call per ray. -/
def twoRayResult : ReadResult :=
  ⟨true, [⟨[⟨0, 0, 0⟩], [⟨0x3FF0000000000000, 0x4000000000000000, 0x4008000000000000⟩],
      [0x4014000000000000], [⟨10, 20, 30, 255⟩]⟩,
    ⟨[⟨0, 0, 0⟩], [⟨0x4008000000000000, 0x4000000000000000, 0x3FF0000000000000⟩],
      [0x4018000000000000], [⟨40, 50, 60, 255⟩]⟩]⟩

/-- A chunk of `n` rays from the origin to the origin at time 0, opaque black. -/
def zeroRays (n : Nat) : Cloud :=
  ⟨List.replicate n ⟨0, 0, 0⟩, List.replicate n ⟨0, 0, 0⟩, List.replicate n 0,
    List.replicate n ⟨0, 0, 0, 255⟩⟩

/-- A ray-cloud file, as the writer produces it, holding 228 rays: 8208 bytes
of rows behind the header. -/
def manyRaysFile : List Nat := (writeRayCloudFile false absorbsSmall 1000000 [zeroRays 228]).2

/-- One ray from the origin to (0.1, 0, 0) at time 0, opaque white. -/
def tenthRay : Cloud :=
  ⟨[⟨0, 0, 0⟩], [⟨0x3FB999999999999A, 0, 0⟩], [0], [⟨255, 255, 255, 255⟩]⟩

/-! # Theorems -/

/-! ## Facts about the scalar model -/

theorem ilog2Step_inv (n s B : Nat) (p : Nat × Nat) (hB : B ≤ 2 * s)
    (h1 : p.1 < 2 ^ B) (h2 : p.1 = n >>> p.2) (h3 : 0 < p.1) :
    (ilog2Step p s).1 < 2 ^ s ∧ (ilog2Step p s).1 = n >>> (ilog2Step p s).2
      ∧ 0 < (ilog2Step p s).1 := by
  unfold ilog2Step
  rw [Nat.one_shiftLeft]
  by_cases h0 : p.1 < 2 ^ s
  · rw [if_pos h0]
    exact ⟨h0, h2, h3⟩
  · rw [if_neg h0]
    have hpos : 0 < p.1 / 2 ^ s :=
      Nat.div_pos (Nat.le_of_not_lt h0) (by positivity)
    refine ⟨?_, ?_, ?_⟩
    · rw [Nat.shiftRight_eq_div_pow]
      apply Nat.div_lt_of_lt_mul
      rw [← pow_add]
      exact lt_of_lt_of_le h1 (Nat.pow_le_pow_right (by decide) (by omega))
    · rw [Nat.shiftRight_add, ← h2]
    · rw [Nat.shiftRight_eq_div_pow]; exact hpos

theorem ilog2_fold (n : Nat) :
    ∀ (ss : List Nat) (B : Nat) (p : Nat × Nat),
      List.Chain (fun a b => a ≤ 2 * b) B ss → p.1 < 2 ^ B → p.1 = n >>> p.2 → 0 < p.1 →
      (ss.foldl ilog2Step p).1 < 2 ^ (ss.getLastD B)
        ∧ (ss.foldl ilog2Step p).1 = n >>> (ss.foldl ilog2Step p).2
        ∧ 0 < (ss.foldl ilog2Step p).1 := by
  intro ss
  induction ss with
  | nil => intro B p _ h1 h2 h3; exact ⟨h1, h2, h3⟩
  | cons s ss ih =>
    intro B p hch h1 h2 h3
    rw [List.chain_cons] at hch
    obtain ⟨a, b, c⟩ := ilog2Step_inv n s B p hch.1 h1 h2 h3
    have := ih s _ hch.2 a b c
    rw [List.foldl_cons]
    cases ss with
    | nil => simpa using this
    | cons t ts => simpa [List.getLastD] using this

theorem eq_one_of_lt_two (x : Nat) (h1 : x < 2) (h2 : 0 < x) : x = 1 := by omega

theorem pow_bounds_of_div_eq_one (n P : Nat) (hP : 0 < P) (h : n / P = 1) :
    P ≤ n ∧ n < P * 2 := by
  have hd := Nat.div_add_mod n P
  have hm := Nat.mod_lt n hP
  rw [h] at hd
  constructor <;> omega

/-- For a positive argument below `2^8192`, `ilog2` is the position of the
leading bit. -/
theorem ilog2_spec (n : Nat) (hpos : 0 < n) (hlt : n < 2 ^ 8192) :
    2 ^ ilog2 n ≤ n ∧ n < 2 ^ (ilog2 n + 1) := by
  have hch : List.Chain (fun a b => a ≤ 2 * b) 8192
      [4096, 2048, 1024, 512, 256, 128, 64, 32, 16, 8, 4, 2, 1] := by
    simp [List.chain_cons]
  obtain ⟨a, b, c⟩ := ilog2_fold n _ 8192 (n, 0) hch hlt rfl hpos
  have hk : n >>> ilog2 n = 1 := by
    unfold ilog2
    rw [← b]
    have hlast : [4096, 2048, 1024, 512, 256, 128, 64, 32, 16, 8, 4, 2, 1].getLastD 8192 = 1 := by
      simp [List.getLastD]
    rw [hlast, pow_one] at a
    exact eq_one_of_lt_two _ a c
  rw [Nat.shiftRight_eq_div_pow] at hk
  have := pow_bounds_of_div_eq_one n (2 ^ ilog2 n) (by positivity) hk
  rw [pow_succ]
  exact this

theorem ilog2_zero : ilog2 0 = 0 := by decide

theorem signBit64 : binary64.signBit = 9223372036854775808 := by decide
theorem infBits64 : binary64.infBits = 9218868437227405312 := by decide
theorem signBit32 : binary32.signBit = 2147483648 := by decide
theorem infBits32 : binary32.infBits = 2139095040 := by decide

/-- A pattern made of a sign bit and a field capped at infinity is not a NaN
(binary64). -/
theorem decode64_capped (s : Bool) (b : Nat) (hb : b ≤ 9218868437227405312) :
    decode binary64 ((if s then 9223372036854775808 else 0) + b) ≠ Num.nan := by
  unfold decode
  simp only [binary64, Nat.shiftRight_eq_div_pow, Nat.one_shiftLeft]
  norm_num
  intro h1
  split_ifs at h1 <;> omega

/-- A pattern made of a sign bit and a field capped at infinity is not a NaN
(binary32). -/
theorem decode32_capped (s : Bool) (b : Nat) (hb : b ≤ 2139095040) :
    decode binary32 ((if s then 2147483648 else 0) + b) ≠ Num.nan := by
  unfold decode
  simp only [binary32, Nat.shiftRight_eq_div_pow, Nat.one_shiftLeft]
  norm_num
  intro h1
  split_ifs at h1 <;> omega

theorem encode64_ne_nan (U : Nat) (n : Num) (hn : n ≠ Num.nan) :
    decode binary64 (encode binary64 U n) ≠ Num.nan := by
  cases n with
  | nan => exact absurd rfl hn
  | inf s =>
    simp only [encode, signBit64, infBits64]
    exact decode64_capped s _ (le_refl _)
  | fin s m =>
    simp only [encode, signBit64, infBits64]
    exact decode64_capped s _ (Nat.min_le_right _ _)

theorem encode32_ne_nan (U : Nat) (n : Num) (hn : n ≠ Num.nan) :
    decode binary32 (encode binary32 U n) ≠ Num.nan := by
  cases n with
  | nan => exact absurd rfl hn
  | inf s =>
    simp only [encode, signBit32, infBits32]
    exact decode32_capped s _ (le_refl _)
  | fin s m =>
    simp only [encode, signBit32, infBits32]
    exact decode32_capped s _ (Nat.min_le_right _ _)

theorem isNaN64_iff (x : F64) : isNaN64 x = true ↔ decode binary64 x = Num.nan := by
  simp [isNaN64]

/-- Narrowing to `float` and widening back never turns a non-NaN into a NaN. -/
theorem widen_narrow_ne_nan (x : F64) (hx : isNaN64 x = false) :
    isNaN64 (f32ToF64 (f64ToF32 x)) = false := by
  have h1 : decode binary64 x ≠ Num.nan := by
    intro h; rw [(isNaN64_iff x).mpr h] at hx; cases hx
  have h2 := encode32_ne_nan 1074 _ h1
  have h3 := encode64_ne_nan 149 _ h2
  cases h : isNaN64 (f32ToF64 (f64ToF32 x)) with
  | false => rfl
  | true => exact absurd ((isNaN64_iff _).mp h) h3

theorem isFinite64_iff (x : F64) :
    isFinite64 x = true ↔ ∃ s m, decode binary64 x = Num.fin s m := by
  unfold isFinite64
  cases decode binary64 x <;> simp

theorem isNaN64_of_isFinite64 (x : F64) (hx : isFinite64 x = true) : isNaN64 x = false := by
  obtain ⟨s, m, h⟩ := (isFinite64_iff x).mp hx
  simp [isNaN64, h]

/-- The difference of two finite values is not a NaN. -/
theorem sub64_ne_nan (a b : F64) (ha : isFinite64 a = true) (hb : isFinite64 b = true) :
    isNaN64 (sub64 a b) = false := by
  obtain ⟨s, m, h1⟩ := (isFinite64_iff a).mp ha
  obtain ⟨t, k, h2⟩ := (isFinite64_iff b).mp hb
  have h3 : (decode binary64 a).add (decode binary64 b).neg ≠ Num.nan := by
    rw [h1, h2]
    simp only [Num.neg, Num.add]
    split <;> simp
  have h4 := encode64_ne_nan 1074 _ h3
  cases h : isNaN64 (sub64 a b) with
  | false => rfl
  | true => exact absurd ((isNaN64_iff _).mp h) h4

theorem eq64_self (x : F64) : eq64 x x = !isNaN64 x := by
  unfold eq64 isNaN64
  cases decode binary64 x <;> simp [Num.eq]

theorem ite_le_one (b : Bool) : (if b = true then 1 else 0 : Nat) ≤ 1 := by
  cases b <;> simp

/-- Rounding to `double` is bounded by 255.0 on magnitudes up to 255. -/
theorem roundMag64_le (U mag : Nat) (hU : 1074 ≤ U) (hU2 : U ≤ 8000)
    (hmag : mag ≤ 255 * 2 ^ U) : roundMag binary64 U mag ≤ 0x406FE00000000000 := by
  unfold roundMag
  simp only [binary64, Nat.shiftRight_eq_div_pow, Nat.shiftLeft_eq, Nat.one_mul]
  have hk : ilog2 mag ≤ U + 7 := by
    rcases Nat.eq_zero_or_pos mag with h0 | hpos
    · rw [h0, ilog2_zero]; omega
    · have hlt : mag < 2 ^ 8192 := by
        have h1 : 255 * 2 ^ U < 2 ^ 8 * 2 ^ U :=
          Nat.mul_lt_mul_of_pos_right (by norm_num) (by positivity)
        rw [← pow_add] at h1
        have h2 : 2 ^ (8 + U) ≤ 2 ^ 8192 := Nat.pow_le_pow_right (by decide) (by omega)
        omega
      obtain ⟨hk1, _⟩ := ilog2_spec mag hpos hlt
      by_contra hcon
      have h1 : 2 ^ (U + 8) ≤ 2 ^ ilog2 mag := Nat.pow_le_pow_right (by decide) (by omega)
      have h2 : 255 * 2 ^ U < 2 ^ 8 * 2 ^ U :=
        Nat.mul_lt_mul_of_pos_right (by norm_num) (by positivity)
      rw [← pow_add, Nat.add_comm 8 U] at h2
      omega
  have hq : mag / 2 ^ max (ilog2 mag + 1 - 53) (U - 1074) < 2 ^ 53 := by
    rcases Nat.eq_zero_or_pos mag with h0 | hpos
    · rw [h0]; simp
    · have hlt : mag < 2 ^ 8192 := by
        have h1 : 255 * 2 ^ U < 2 ^ 8 * 2 ^ U :=
          Nat.mul_lt_mul_of_pos_right (by norm_num) (by positivity)
        rw [← pow_add] at h1
        have h2 : 2 ^ (8 + U) ≤ 2 ^ 8192 := Nat.pow_le_pow_right (by decide) (by omega)
        omega
      obtain ⟨_, hk2⟩ := ilog2_spec mag hpos hlt
      apply Nat.div_lt_of_lt_mul
      rw [← pow_add]
      exact lt_of_lt_of_le hk2 (Nat.pow_le_pow_right (by decide) (by omega))
  generalize ilog2 mag = k at hk hq ⊢
  by_cases hA : max (k + 1 - 53) (U - 1074) ≤ U - 46
  · have hup := ite_le_one (decide (2 ^ (max (k + 1 - 53) (U - 1074) - 1)
        < mag % 2 ^ max (k + 1 - 53) (U - 1074))
      || decide (mag % 2 ^ max (k + 1 - 53) (U - 1074) = 2 ^ (max (k + 1 - 53) (U - 1074) - 1))
        && decide (mag / 2 ^ max (k + 1 - 53) (U - 1074) % 2 = 1))
    generalize (if (decide (2 ^ (max (k + 1 - 53) (U - 1074) - 1)
        < mag % 2 ^ max (k + 1 - 53) (U - 1074))
      || decide (mag % 2 ^ max (k + 1 - 53) (U - 1074) = 2 ^ (max (k + 1 - 53) (U - 1074) - 1))
        && decide (mag / 2 ^ max (k + 1 - 53) (U - 1074) % 2 = 1)) = true then 1 else 0) = u
      at hup ⊢
    generalize mag / 2 ^ max (k + 1 - 53) (U - 1074) = q at hq ⊢
    generalize max (k + 1 - 53) (U - 1074) = shift at hA ⊢
    norm_num at hq ⊢
    omega
  · have hs : max (k + 1 - 53) (U - 1074) = U - 45 := by omega
    rw [hs] at hq ⊢
    have hpow : 2 ^ U = 2 ^ 45 * 2 ^ (U - 45) := by
      rw [← pow_add]; congr 1; omega
    have hq2 : mag / 2 ^ (U - 45) ≤ 255 * 2 ^ 45 := by
      apply Nat.div_le_of_le_mul
      calc mag ≤ 255 * 2 ^ U := hmag
        _ = 2 ^ (U - 45) * (255 * 2 ^ 45) := by rw [hpow]; ring
    by_cases hB : mag / 2 ^ (U - 45) = 255 * 2 ^ 45
    · have hm : mag = 255 * 2 ^ U := by
        have h1 := Nat.div_mul_le_self mag (2 ^ (U - 45))
        rw [hB] at h1
        have h2 : 255 * 2 ^ 45 * 2 ^ (U - 45) = 255 * 2 ^ U := by rw [hpow]; ring
        omega
      have hr : mag % 2 ^ (U - 45) = 0 := by
        rw [hm, hpow]
        have : 255 * (2 ^ 45 * 2 ^ (U - 45)) = 2 ^ (U - 45) * (255 * 2 ^ 45) := by ring
        rw [this, Nat.mul_mod_right]
      have hh : 0 < 2 ^ (U - 45 - 1) := by positivity
      have hup : (decide (2 ^ (U - 45 - 1) < mag % 2 ^ (U - 45))
          || decide (mag % 2 ^ (U - 45) = 2 ^ (U - 45 - 1))
            && decide (mag / 2 ^ (U - 45) % 2 = 1)) = false := by
        rw [hr]
        simp only [Bool.or_eq_false_iff, decide_eq_false_iff_not, Nat.not_lt_zero,
          not_false_eq_true, Bool.and_eq_false_imp, decide_eq_true_eq, true_and]
        intro h; omega
      rw [hup, hB]
      have hd : U - 45 - (U - 1074) = 1029 := by omega
      rw [hd]
      norm_num
    · have hup := ite_le_one (decide (2 ^ (U - 45 - 1) < mag % 2 ^ (U - 45))
          || decide (mag % 2 ^ (U - 45) = 2 ^ (U - 45 - 1))
            && decide (mag / 2 ^ (U - 45) % 2 = 1))
      generalize (if (decide (2 ^ (U - 45 - 1) < mag % 2 ^ (U - 45))
          || decide (mag % 2 ^ (U - 45) = 2 ^ (U - 45 - 1))
            && decide (mag / 2 ^ (U - 45) % 2 = 1)) = true then 1 else 0) = u at hup ⊢
      generalize mag / 2 ^ (U - 45) = q at hq hq2 hB ⊢
      have hd : U - 45 - (U - 1074) = 1029 := by omega
      rw [hd]
      norm_num at hq hq2 hB ⊢
      omega

theorem pow2_mono (a b : Nat) (h : a ≤ b) : 2 ^ a ≤ 2 ^ b :=
  Nat.pow_le_pow_right (by decide) h

theorem pow2_add (a b : Nat) : 2 ^ a * 2 ^ b = 2 ^ (a + b) := (pow_add 2 a b).symm

theorem mul_pow2_le (x e a b c : Nat) (hx : x ≤ 2 ^ a) (he : e ≤ b) (hc : a + b ≤ 7 + c) :
    x * 2 ^ e ≤ 255 * 2 ^ c := by
  calc x * 2 ^ e ≤ 2 ^ a * 2 ^ b := Nat.mul_le_mul hx (pow2_mono e b he)
    _ = 2 ^ (a + b) := pow2_add a b
    _ ≤ 2 ^ (7 + c) := pow2_mono _ _ hc
    _ = 2 ^ 7 * 2 ^ c := (pow2_add 7 c).symm
    _ ≤ 255 * 2 ^ c := Nat.mul_le_mul_right _ (by decide)

theorem mul_pow2_le' (x a c n : Nat) (hx : x ≤ 255 * 2 ^ a) (hc : a + n = c) :
    x * 2 ^ n ≤ 255 * 2 ^ c := by
  calc x * 2 ^ n ≤ 255 * 2 ^ a * 2 ^ n := Nat.mul_le_mul_right _ hx
    _ = 255 * 2 ^ c := by rw [Nat.mul_assoc, pow2_add, hc]

/-- A `double` pattern up to that of 255.0 is a finite value in [0, 255]. -/
theorem decode64_le_255 (b : Nat) (hb : b ≤ 0x406FE00000000000) :
    ∃ m, decode binary64 b = Num.fin false m ∧ m ≤ 255 * 2 ^ 1074 := by
  generalize hT : 255 * 2 ^ 1074 = T
  unfold decode
  simp only [binary64, Nat.shiftRight_eq_div_pow, Nat.shiftLeft_eq, Nat.one_mul]
  norm_num
  have hs : ¬ (b / 9223372036854775808 % 2 = 1) := by omega
  have he : ¬ (b / 4503599627370496 % 2048 = 2047) := by omega
  simp only [hs, he, if_false, decide_False]
  by_cases h0 : b / 4503599627370496 % 2048 = 0
  · simp only [h0, if_true, Num.fin.injEq, true_and, exists_eq_left']
    have h1 : b % 4503599627370496 ≤ 2 ^ 52 := by norm_num; omega
    have := mul_pow2_le (b % 4503599627370496) 0 52 0 1074 h1 (le_refl _) (by decide)
    rw [hT] at this
    simpa using this
  · simp only [h0, if_false, Num.fin.injEq, true_and, exists_eq_left']
    have he2 : b / 4503599627370496 % 2048 = b / 4503599627370496 := by omega
    rw [he2]
    by_cases h1 : b / 4503599627370496 = 1030
    · rw [h1]
      have hm : 4503599627370496 + b % 4503599627370496 ≤ 255 * 2 ^ 45 := by norm_num; omega
      rw [← hT]
      exact mul_pow2_le' _ 45 1074 (1030 - 1) hm (by decide)
    · have he3 : b / 4503599627370496 - 1 ≤ 1028 := by omega
      have hm : 4503599627370496 + b % 4503599627370496 ≤ 2 ^ 53 := by norm_num; omega
      rw [← hT]
      exact mul_pow2_le _ _ 53 1028 1074 hm he3 (by decide)

theorem decode_zero : decode binary64 0 = Num.fin false 0 := by decide
theorem decode_one : decode binary64 0x3FF0000000000000 = Num.fin false (1 <<< 1074) := by decide
theorem decode_two : decode binary64 0x4000000000000000 = Num.fin false (1 <<< 1075) := by decide
theorem decode_255 : decode binary64 0x406FE00000000000 = Num.fin false (255 <<< 1074) := by
  decide
theorem decode_m1 : decode binary64 0xBFF0000000000000 = Num.fin true (1 <<< 1074) := by decide
theorem decode_m2 : decode binary64 0xC000000000000000 = Num.fin true (1 <<< 1075) := by decide
theorem decode_m3 : decode binary64 0xC008000000000000 = Num.fin true (3 <<< 1074) := by decide

/-- The value `clamped(d, 0.0, 1.0)` is a finite value in [0, 1], whatever `d`. -/
theorem clamped_unit (d : F64) :
    ∃ a, decode binary64 (clamped d 0 0x3FF0000000000000) = Num.fin false a ∧ a ≤ 2 ^ 1074 := by
  unfold clamped max64 min64
  by_cases h1 : lt64 0x3FF0000000000000 d = true
  · have h01 : lt64 0 0x3FF0000000000000 = true := by decide
    simp only [h1, if_true, h01]
    exact ⟨1 <<< 1074, decode_one, le_of_eq (Nat.one_shiftLeft 1074)⟩
  · simp only [h1, if_false, Bool.false_eq_true]
    by_cases h2 : lt64 0 d = true
    · simp only [h2, if_true]
      unfold lt64 at h1 h2
      rw [decode_one] at h1
      rw [decode_zero] at h2
      cases hd : decode binary64 d with
      | nan => rw [hd] at h2; simp [Num.lt] at h2
      | inf s =>
        rw [hd] at h1 h2
        simp only [Num.lt] at h1 h2
        simp_all
      | fin s a =>
        rw [hd] at h1 h2
        simp only [Num.lt, sint, decide_eq_true_eq, Bool.false_eq_true, if_false] at h1 h2
        cases s with
        | true => simp only [if_true] at h2; omega
        | false =>
          simp only [Bool.false_eq_true, if_false, Nat.one_shiftLeft, Nat.cast_lt, not_lt] at h1
          exact ⟨a, rfl, h1⟩
    · simp only [h2, if_false, Bool.false_eq_true]
      exact ⟨0, decode_zero, Nat.zero_le _⟩

theorem encode64_fin_le (U mag : Nat) (hU : 1074 ≤ U) (hU2 : U ≤ 8000)
    (hmag : mag ≤ 255 * 2 ^ U) :
    encode binary64 U (Num.fin false mag) ≤ 0x406FE00000000000 := by
  have h := roundMag64_le U mag hU hU2 hmag
  have hV : binary64.V = 1074 := rfl
  have h1 : max U binary64.V = U := by rw [hV]; omega
  have h2 : binary64.V - U = 0 := by rw [hV]; omega
  simp only [encode, Bool.false_eq_true, if_false, Nat.zero_add, h1, h2, Nat.shiftLeft_zero]
  exact le_trans (Nat.min_le_left _ _) h

theorem shl_mul_le (a n N : Nat) (ha : a ≤ 2 ^ n) (hN : n + n = N) :
    (255 <<< n) * a ≤ 255 * 2 ^ N := by
  rw [Nat.shiftLeft_eq]
  calc 255 * 2 ^ n * a ≤ 255 * 2 ^ n * 2 ^ n := Nat.mul_le_mul_left _ ha
    _ = 255 * 2 ^ N := by rw [Nat.mul_assoc, pow2_add, hN]

/-- The product `255.0 * c` for `c` in [0, 1] is at most 255.0. -/
theorem mul64_255_le (c : F64) (a : Nat) (hc : decode binary64 c = Num.fin false a)
    (ha : a ≤ 2 ^ 1074) : mul64 0x406FE00000000000 c ≤ 0x406FE00000000000 := by
  unfold mul64
  rw [decode_255, hc]
  simp only [Num.mul, Bool.xor_false]
  exact encode64_fin_le 2148 _ (by decide) (by decide) (shl_mul_le a 1074 2148 ha (by decide))

theorem ceil_mag_le (m ONE : Nat) (hONE : 0 < ONE) (hm : m ≤ 255 * ONE) :
    (m / ONE + (if m % ONE = 0 then 0 else 1)) * ONE ≤ 255 * ONE := by
  apply Nat.mul_le_mul_right
  have hd := Nat.div_add_mod m ONE
  have hmod := Nat.mod_lt m hONE
  by_cases h0 : m % ONE = 0
  · simp only [h0, if_true, Nat.add_zero]
    exact Nat.div_le_of_le_mul (by rw [Nat.mul_comm]; exact hm)
  · simp only [h0, if_false]
    have hlt : m < ONE * 255 := by
      rcases Nat.lt_or_ge m (ONE * 255) with h | h
      · exact h
      · exfalso
        have : m = ONE * 255 := by rw [Nat.mul_comm] at hm; omega
        rw [this, Nat.mul_mod_right] at h0
        exact h0 rfl
    have := (Nat.div_lt_iff_lt_mul hONE).mpr (by rw [Nat.mul_comm]; exact hlt)
    omega

theorem ceil_shift_le (m n : Nat) (hm : m ≤ 255 * 2 ^ n) :
    ((m >>> n) + (if m % (1 <<< n) = 0 then 0 else 1)) <<< n ≤ 255 * 2 ^ n := by
  rw [Nat.shiftLeft_eq, Nat.shiftRight_eq_div_pow, Nat.one_shiftLeft]
  exact ceil_mag_le m (2 ^ n) (by positivity) hm

/-- The ceiling of a value in [0, 255] is at most 255.0. -/
theorem ceil64_le (y : F64) (hy : y ≤ 0x406FE00000000000) :
    ceil64 y ≤ 0x406FE00000000000 := by
  obtain ⟨m, hd, hm⟩ := decode64_le_255 y hy
  unfold ceil64
  rw [hd]
  simp only [Num.ceil]
  exact encode64_fin_le 1074 _ (by decide) (by decide) (ceil_shift_le m 1074 hm)

theorem trunc_bounds (m n : Nat) (hm : m ≤ 255 * 2 ^ n) (h2 : 1 <<< (n + 1) < m) :
    2 ≤ m >>> n ∧ m >>> n ≤ 255 := by
  rw [Nat.shiftRight_eq_div_pow]
  rw [Nat.one_shiftLeft, pow_succ] at h2
  constructor
  · apply (Nat.le_div_iff_mul_le (by positivity)).mpr
    rw [Nat.mul_comm]; omega
  · exact Nat.div_le_of_le_mul (by rw [Nat.mul_comm]; exact hm)

theorem f64ToU8_two : f64ToU8 0x4000000000000000 = 2 := by decide

/-- The byte stored for a non-negative intensity is between 2 and 255. -/
theorem remapIntensity_nonneg (max_intensity x : F64) (hx : ge64 x 0 = true) :
    2 ≤ remapIntensity max_intensity x ∧ remapIntensity max_intensity x ≤ 255 := by
  unfold remapIntensity
  simp only [hx, if_true]
  obtain ⟨a, hc, ha⟩ := clamped_unit (div64 x max_intensity)
  have hy := ceil64_le _ (mul64_255_le _ a hc ha)
  generalize ceil64 (mul64 0x406FE00000000000
    (clamped (div64 x max_intensity) 0 0x3FF0000000000000)) = y at hy
  unfold max64
  by_cases hlt : lt64 0x4000000000000000 y = true
  · simp only [hlt, if_true]
    obtain ⟨m, hd, hm⟩ := decode64_le_255 y hy
    unfold lt64 at hlt
    rw [decode_two, hd] at hlt
    simp only [Num.lt, sint, Bool.false_eq_true, if_false, decide_eq_true_eq, Nat.cast_lt]
      at hlt
    unfold f64ToU8
    rw [hd]
    simp only [Num.trunc, sint, Bool.false_eq_true, if_false]
    obtain ⟨h2, h255⟩ := trunc_bounds m 1074 hm hlt
    generalize m >>> 1074 = t at h2 h255
    omega
  · simp only [hlt, if_false, Bool.false_eq_true, f64ToU8_two]
    omega

theorem eq64_const_neg (x c : F64) (M : Nat) (hM : 0 < M)
    (hc : decode binary64 c = Num.fin true M) (h : eq64 x c = true) :
    decode binary64 x = Num.fin true M := by
  unfold eq64 at h
  rw [hc] at h
  cases hd : decode binary64 x with
  | nan => rw [hd] at h; simp [Num.eq] at h
  | inf s => rw [hd] at h; simp [Num.eq] at h
  | fin s a =>
    rw [hd] at h
    simp only [Num.eq, sint, if_true, decide_eq_true_eq] at h
    cases s with
    | false => simp only [Bool.false_eq_true, if_false] at h; omega
    | true =>
      simp only [if_true, neg_inj, Nat.cast_inj] at h
      rw [h]

theorem ge64_neg (x : F64) (M : Nat) (hM : 0 < M) (hx : decode binary64 x = Num.fin true M) :
    ge64 x 0 = false := by
  unfold ge64 lt64 eq64
  rw [hx, decode_zero]
  simp only [Num.lt, Num.eq, sint, if_true, Bool.false_eq_true, if_false, Bool.or_eq_false_iff,
    decide_eq_false_iff_not]
  constructor <;> omega

theorem f64ToU8_zero : f64ToU8 0 = 0 := by decide

theorem f64ToU8_one : f64ToU8 0x3FF0000000000000 = 1 := by decide

/-- Intensity -1 is stored as the byte 0. -/
theorem remapIntensity_m1 (max_intensity x : F64) (hx : eq64 x 0xBFF0000000000000 = true) :
    remapIntensity max_intensity x = 0 := by
  have hd := eq64_const_neg x _ (1 <<< 1074) (by decide) decode_m1 hx
  have hge := ge64_neg x _ (by decide) hd
  unfold remapIntensity
  simp only [hge, hx, if_true, if_false, Bool.false_eq_true, f64ToU8_zero]

/-- Intensity -2 is stored as the byte 1. -/
theorem remapIntensity_m2 (max_intensity x : F64) (hx : eq64 x 0xC000000000000000 = true) :
    remapIntensity max_intensity x = 1 := by
  have hd := eq64_const_neg x _ (1 <<< 1075) (by decide) decode_m2 hx
  have hge := ge64_neg x _ (by decide) hd
  have h1 : eq64 x 0xBFF0000000000000 = false := by
    unfold eq64; rw [hd, decode_m1]; decide
  unfold remapIntensity
  simp only [hge, hx, h1, if_true, if_false, Bool.false_eq_true, f64ToU8_one]

/-- Intensity -3 is stored as the byte 1. -/
theorem remapIntensity_m3 (max_intensity x : F64) (hx : eq64 x 0xC008000000000000 = true) :
    remapIntensity max_intensity x = 1 := by
  have hd := eq64_const_neg x _ (3 <<< 1074) (by decide) decode_m3 hx
  have hge := ge64_neg x _ (by decide) hd
  have h1 : eq64 x 0xBFF0000000000000 = false := by
    unfold eq64; rw [hd, decode_m1]; decide
  have h2 : eq64 x 0xC000000000000000 = false := by
    unfold eq64; rw [hd, decode_m2]; decide
  unfold remapIntensity
  simp only [hge, hx, h1, h2, if_true, if_false, Bool.false_eq_true, f64ToU8_one]

theorem setRun_eq {α : Type} (f : Nat → α) :
    ∀ (m c : Nat) (l : List α), l.length = c + m →
      setRun f m c l = l.take c ++ (List.range' c m).map f := by
  intro m
  induction m with
  | zero => intro c l h; simp [setRun]; omega
  | succ m ih =>
    intro c l h
    have hc : c < l.length := by omega
    rw [setRun, ih (c + 1) (l.set c (f c)) (by simp; omega)]
    rw [List.set_eq_take_append_cons_drop, if_pos hc, List.range'_succ, List.map_cons]
    have h1 : (List.take c l).length = c := by simp; omega
    rw [List.take_append_eq_append_take, h1]
    simp [List.take_of_length_le, h1]

theorem ceil_lt_iff (N L c : Nat) (hN : 1 ≤ N) : c < (L + N - 1) / N ↔ c * N < L := by
  rw [Nat.lt_iff_add_one_le, Nat.le_div_iff_mul_le (by omega)]
  constructor
  · intro h
    have : (c + 1) * N = c * N + N := by ring
    omega
  · intro h
    have : (c + 1) * N = c * N + N := by ring
    omega

theorem decimateRaysLoop_eq (N : Nat) (hN : 1 ≤ N) (arg : Cloud) :
    ∀ (fuel m c : Nat) (chunk : Cloud), m ≤ fuel → (arg.ends.length + N - 1) / N = c + m →
      decimateRaysLoop N arg fuel (c * N) c chunk =
        ⟨setRun (fun k => arg.starts.getD (k * N) Vector3d.zero) m c chunk.starts,
          setRun (fun k => arg.ends.getD (k * N) Vector3d.zero) m c chunk.ends,
          setRun (fun k => arg.times.getD (k * N) 0) m c chunk.times,
          setRun (fun k => arg.colours.getD (k * N) RGBA.zero) m c chunk.colours⟩ := by
  intro fuel
  induction fuel with
  | zero =>
    intro m c chunk hm _
    have : m = 0 := by omega
    subst this
    simp [decimateRaysLoop, setRun]
  | succ fuel ih =>
    intro m c chunk hm hc
    rw [decimateRaysLoop]
    by_cases hlt : c * N < arg.ends.length
    · have hcl := (ceil_lt_iff N arg.ends.length c hN).mpr hlt
      obtain ⟨m', rfl⟩ : ∃ m', m = m' + 1 := ⟨m - 1, by omega⟩
      rw [if_pos hlt]
      have hi : c * N + N = (c + 1) * N := by ring
      rw [hi, ih m' (c + 1) _ (by omega) (by omega)]
      simp [setRun, Cloud.assign]
    · have hcl : ¬ c < (arg.ends.length + N - 1) / N := fun h =>
        hlt ((ceil_lt_iff N arg.ends.length c hN).mp h)
      have : m = 0 := by omega
      subst this
      rw [if_neg hlt]
      simp [setRun]

theorem length_resizeList {α : Type} (d : α) (l : List α) (n : Nat) :
    (resizeList d l n).length = n := by
  simp [resizeList]; omega

theorem ceil_le_self (N L : Nat) (hN : 1 ≤ N) : (L + N - 1) / N ≤ L := by
  by_contra h
  have h1 : L < (L + N - 1) / N := by omega
  have := (ceil_lt_iff N L L hN).mp h1
  have : L * 1 ≤ L * N := Nat.mul_le_mul_left L hN
  omega

/-- The callback `decimate_rays` returns, column by column, the rows
`0, N, 2N, ...` of its argument. -/
theorem decimate_rays_eq (N : Nat) (hN : 1 ≤ N) (chunk arg : Cloud) :
    decimate_rays N chunk arg =
      ⟨(List.range ((arg.ends.length + N - 1) / N)).map
          (fun k => arg.starts.getD (k * N) Vector3d.zero),
        (List.range ((arg.ends.length + N - 1) / N)).map
          (fun k => arg.ends.getD (k * N) Vector3d.zero),
        (List.range ((arg.ends.length + N - 1) / N)).map (fun k => arg.times.getD (k * N) 0),
        (List.range ((arg.ends.length + N - 1) / N)).map
          (fun k => arg.colours.getD (k * N) RGBA.zero)⟩ := by
  unfold decimate_rays
  have h := decimateRaysLoop_eq N hN arg arg.ends.length ((arg.ends.length + N - 1) / N) 0
    (chunk.resize ((arg.ends.length + N - 1) / N)) (ceil_le_self N _ hN) (by simp)
  simp only [Nat.zero_mul] at h
  rw [h]
  simp only [Cloud.resize]
  rw [setRun_eq _ _ _ _ (by simp [length_resizeList]),
    setRun_eq _ _ _ _ (by simp [length_resizeList]),
    setRun_eq _ _ _ _ (by simp [length_resizeList]),
    setRun_eq _ _ _ _ (by simp [length_resizeList])]
  simp [List.range_eq_range']

theorem everyNth_eq_map {α : Type} (N : Nat) (hN : 1 ≤ N) (d : α) (l : List α) :
    everyNth N l = (List.range ((l.length + N - 1) / N)).map fun k => l.getD (k * N) d := by
  unfold everyNth
  rw [← List.filterMap_eq_map]
  apply List.filterMap_congr
  intro k hk
  have hk' := (ceil_lt_iff N l.length k hN).mp (List.mem_range.mp hk)
  simp [List.getD_eq_getElem?_getD, List.getElem?_eq_getElem hk']

theorem records_decimate_rays (N : Nat) (hN : 1 ≤ N) (chunk arg : Cloud) :
    (decimate_rays N chunk arg).records = everyNth N arg.records := by
  rw [decimate_rays_eq N hN, everyNth_eq_map N hN (arg.row 0)]
  simp only [Cloud.records, List.length_map, List.length_range, List.map_map]
  apply List.map_congr_left
  intro k hk
  have hk' := (ceil_lt_iff N arg.ends.length k hN).mp (List.mem_range.mp hk)
  have hk2 : k < (arg.ends.length + N - 1) / N := List.mem_range.mp hk
  simp [Cloud.row, hk', hk2, List.getD_eq_getElem?_getD]

theorem recordsOf_decimateRaysRun (N : Nat) (hN : 1 ≤ N) :
    ∀ (calls : List Cloud) (chunk : Cloud),
      recordsOf (decimateRaysRun N chunk calls) =
        (calls.map fun a => everyNth N a.records).flatten := by
  intro calls
  induction calls with
  | nil => intro chunk; simp [decimateRaysRun, recordsOf]
  | cons a rest ih =>
    intro chunk
    have := ih (decimate_rays N chunk a)
    simp only [recordsOf] at this
    simp [decimateRaysRun, recordsOf, records_decimate_rays N hN, this]

theorem everyNth_nil {α : Type} (N : Nat) (hN : 1 ≤ N) : everyNth N ([] : List α) = [] := by
  have : (N - 1) / N = 0 := Nat.div_eq_of_lt (by omega)
  simp [everyNth, this]

theorem length_everyNth {α : Type} (N : Nat) (hN : 1 ≤ N) (l : List α) :
    (everyNth N l).length = (l.length + N - 1) / N := by
  cases l with
  | nil =>
    have : (N - 1) / N = 0 := Nat.div_eq_of_lt (by omega)
    simp [everyNth_nil N hN, this]
  | cons x xs => rw [everyNth_eq_map N hN x]; simp

theorem everyNth_append {α : Type} (N : Nat) (hN : 1 ≤ N) (l1 l2 : List α)
    (hdvd : N ∣ l1.length) : everyNth N (l1 ++ l2) = everyNth N l1 ++ everyNth N l2 := by
  obtain ⟨a, ha⟩ := hdvd
  cases l2 with
  | nil => simp [everyNth_nil N hN]
  | cons d t =>
    rw [everyNth_eq_map N hN d, everyNth_eq_map N hN d l1, everyNth_eq_map N hN d (d :: t)]
    have hc1 : (l1.length + N - 1) / N = a := by
      rw [ha]
      have : N * a + N - 1 = N - 1 + N * a := by omega
      rw [this, Nat.add_mul_div_left _ _ (by omega), Nat.div_eq_of_lt (by omega)]; simp
    have hc : ((l1 ++ d :: t).length + N - 1) / N = a + ((d :: t).length + N - 1) / N := by
      rw [List.length_append, ha]
      have : N * a + (d :: t).length + N - 1 = ((d :: t).length + N - 1) + N * a := by
        simp; omega
      rw [this, Nat.add_mul_div_left _ _ (by omega)]; omega
    rw [hc, hc1, List.range_add, List.map_append, List.map_map]
    congr 1
    · apply List.map_congr_left
      intro k hk
      have hk' : k < a := List.mem_range.mp hk
      have : k * N < l1.length := by
        rw [ha, Nat.mul_comm N a]; exact Nat.mul_lt_mul_of_pos_right hk' (by omega)
      simp [List.getD_eq_getElem?_getD, List.getElem?_append_left this]
    · apply List.map_congr_left
      intro k _
      have : (a + k) * N = l1.length + k * N := by rw [ha]; ring
      simp only [Function.comp, this, List.getD_eq_getElem?_getD]
      rw [List.getElem?_append_right (by omega)]
      simp

theorem length_records (c : Cloud) : c.records.length = c.ends.length := by
  simp [Cloud.records]

theorem everyNth_recordsOf (N : Nat) (hN : 1 ≤ N) :
    ∀ calls : List Cloud, (∀ a ∈ calls.dropLast, N ∣ a.ends.length) →
      (calls.map fun a => everyNth N a.records).flatten = everyNth N (recordsOf calls) := by
  intro calls
  induction calls with
  | nil => intro _; simp [recordsOf, everyNth_nil N hN]
  | cons a rest ih =>
    intro h
    cases rest with
    | nil => simp [recordsOf]
    | cons b rest' =>
      have ha : N ∣ a.records.length := by
        rw [length_records]; exact h a (by simp [List.dropLast])
      have hrest : ∀ x ∈ (b :: rest').dropLast, N ∣ x.ends.length := by
        intro x hx
        exact h x (by simp [List.dropLast]; exact Or.inr (by simpa using hx))
      have := ih hrest
      simp only [recordsOf, List.map_cons, List.flatten_cons] at this ⊢
      rw [everyNth_append N hN _ _ ha, this]

/-- C4 fails as stated: with stride 2 and two chunks of three records each,
`decimate_rays` writes the rows with global indices 0, 2, 3, 5 (four records),
not the rows 0, 2, 4: the stride restarts at the chunk boundary. -/
theorem decimate_rays_stride_restarts :
    (recordsOf (decimateRaysRun 2 Cloud.empty [strideChunkA, strideChunkB])).map (fun r => r.2.2.1)
        = [0, 2, 3, 5]
      ∧ (everyNth 2 (recordsOf [strideChunkA, strideChunkB])).map (fun r => r.2.2.1) = [0, 2, 4]
      ∧ recordsOf (decimateRaysRun 2 Cloud.empty [strideChunkA, strideChunkB])
        ≠ everyNth 2 (recordsOf [strideChunkA, strideChunkB]) := by
  decide

/-- C4 (amended): for every stride `N ≥ 1`, each call of `decimate_rays` writes
the rows of its chunk at the local indices `0, N, 2N, ...`; when the length of
every chunk but the last is a multiple of `N` (a single chunk in particular),
the records written over the run are the input rows at the global indices
`0, N, 2N, ...`, `ceil(K / N)` of them for `K` input records. -/
theorem decimate_rays_stride (N : Nat) (hN : 1 ≤ N) (chunk : Cloud) (calls : List Cloud) :
    recordsOf (decimateRaysRun N chunk calls) = (calls.map fun a => everyNth N a.records).flatten
      ∧ ((∀ a ∈ calls.dropLast, N ∣ a.ends.length) →
          recordsOf (decimateRaysRun N chunk calls) = everyNth N (recordsOf calls)
          ∧ (recordsOf (decimateRaysRun N chunk calls)).length
            = ((recordsOf calls).length + N - 1) / N) := by
  refine ⟨recordsOf_decimateRaysRun N hN calls chunk, fun h => ?_⟩
  have h1 : recordsOf (decimateRaysRun N chunk calls) = everyNth N (recordsOf calls) := by
    rw [recordsOf_decimateRaysRun N hN calls chunk, everyNth_recordsOf N hN calls h]
  exact ⟨h1, by rw [h1, length_everyNth N hN]⟩

theorem decimate_rays_stride_witness :
    1 ≤ 2 ∧ (∀ a ∈ [strideChunkC, strideChunkB].dropLast, 2 ∣ a.ends.length)
      ∧ recordsOf (decimateRaysRun 2 Cloud.empty [strideChunkC, strideChunkB])
        = everyNth 2 (recordsOf [strideChunkC, strideChunkB]) :=
  ⟨by decide, by decide,
    ((decimate_rays_stride 2 (by decide) Cloud.empty [strideChunkC, strideChunkB]).2
      (by decide)).1⟩

theorem voxelSubsample_acc (width : F64) :
    ∀ (ps : List Vector3d) (i : Nat) (indices : List Nat) (vox_set : List VoxelKey),
      voxelSubsample width ps i indices vox_set =
        (indices ++ (voxelSubsample width ps i [] vox_set).1,
          (voxelSubsample width ps i [] vox_set).2) := by
  intro ps
  induction ps with
  | nil => intro i indices vox_set; simp [voxelSubsample]
  | cons p ps ih =>
    intro i indices vox_set
    simp only [voxelSubsample]
    by_cases h : voxelKey width p ∈ vox_set
    · simp only [if_pos h]; exact ih (i + 1) indices vox_set
    · simp only [if_neg h]
      rw [ih (i + 1) (indices ++ [i]), ih (i + 1) ([] ++ [i])]
      simp

/-- Column form of the copy loop: with `ids.length` entries from index `i` on,
the buffer ends up holding the selected rows there. -/
theorem gatherLoop_eq (arg : Cloud) :
    ∀ (ids : List Nat) (i : Nat) (chunk : Cloud),
      chunk.starts.length = i + ids.length → chunk.ends.length = i + ids.length →
      chunk.times.length = i + ids.length → chunk.colours.length = i + ids.length →
      gatherLoop arg ids i chunk =
        ⟨chunk.starts.take i ++ ids.map (fun id => arg.starts.getD id Vector3d.zero),
          chunk.ends.take i ++ ids.map (fun id => arg.ends.getD id Vector3d.zero),
          chunk.times.take i ++ ids.map (fun id => arg.times.getD id 0),
          chunk.colours.take i ++ ids.map (fun id => arg.colours.getD id RGBA.zero)⟩ := by
  intro ids
  induction ids with
  | nil =>
    intro i chunk h1 h2 h3 h4
    simp only [List.length_nil, Nat.add_zero] at h1 h2 h3 h4
    simp [gatherLoop, List.take_of_length_le, h1, h2, h3, h4]
  | cons id ids ih =>
    intro i chunk h1 h2 h3 h4
    simp only [List.length_cons] at h1 h2 h3 h4
    have key : ∀ {α : Type} (l : List α) (x : α), l.length = i + (ids.length + 1) →
        (l.set i x).take (i + 1) = l.take i ++ [x] := by
      intro α l x hl
      have hi : i < l.length := by omega
      have h1 : (List.take i l).length = i := by simp; omega
      rw [List.set_eq_take_append_cons_drop, if_pos hi, List.take_append_eq_append_take, h1]
      simp [List.take_of_length_le, h1]
    rw [gatherLoop, ih (i + 1) (chunk.assign i arg id) (by simp [Cloud.assign]; omega)
      (by simp [Cloud.assign]; omega) (by simp [Cloud.assign]; omega)
      (by simp [Cloud.assign]; omega)]
    simp only [Cloud.assign, key _ _ h1, key _ _ h2, key _ _ h3, key _ _ h4]
    simp

theorem records_gather (arg chunk : Cloud) (ids : List Nat) :
    (gatherLoop arg ids 0 (chunk.resize ids.length)).records = ids.map arg.row := by
  rw [gatherLoop_eq arg ids 0 _ (by simp [Cloud.resize, length_resizeList])
    (by simp [Cloud.resize, length_resizeList]) (by simp [Cloud.resize, length_resizeList])
    (by simp [Cloud.resize, length_resizeList])]
  simp only [List.take_zero, List.nil_append, Cloud.records, List.length_map]
  apply List.ext_getElem
  · simp
  · intro n h1 h2
    simp only [List.length_map, List.length_range] at h1
    simp [Cloud.row, h1, List.getD_eq_getElem?_getD]

/-- The indices kept by `voxelSubsample`, read as rows, are the first-in-voxel
records, and the set it leaves is the set after those records. -/
theorem voxelSubsample_rows (width : F64) (arg : Cloud) :
    ∀ (ps : List Vector3d) (i : Nat) (vox_set : List VoxelKey),
      arg.ends.drop i = ps →
      (voxelSubsample width ps i [] vox_set).1.map arg.row
          = firstInVoxel width vox_set ((List.range' i ps.length).map arg.row)
        ∧ (voxelSubsample width ps i [] vox_set).2
          = seenAfter width vox_set ((List.range' i ps.length).map arg.row) := by
  intro ps
  induction ps with
  | nil => intro i vox_set _; simp [voxelSubsample, firstInVoxel, seenAfter]
  | cons p ps ih =>
    intro i vox_set hdrop
    have hi : i < arg.ends.length := by
      by_contra hge
      rw [List.drop_eq_nil_of_le (by omega)] at hdrop
      cases hdrop
    have hp : arg.ends.getD i Vector3d.zero = p := by
      have := List.getElem_drop' (L := arg.ends) (i := i) (j := 0) (by simpa using hi)
      simp only [hdrop, Nat.add_zero, List.getElem_cons_zero] at this
      simp [List.getD_eq_getElem?_getD, List.getElem?_eq_getElem hi, this]
    have hps : arg.ends.drop (i + 1) = ps := by
      have := congrArg (List.drop 1) hdrop
      simpa [List.drop_drop, Nat.add_comm] using this
    have hkey : voxelKey width (arg.row i).2.1 = voxelKey width p := by
      simp only [Cloud.row, hp]
    obtain ⟨ih1, ih2⟩ := ih (i + 1) vox_set hps
    obtain ⟨ih3, ih4⟩ := ih (i + 1) (voxelKey width p :: vox_set) hps
    simp only [voxelSubsample, List.length_cons, List.range'_succ, List.map_cons, firstInVoxel,
      seenAfter, hkey]
    by_cases h : voxelKey width p ∈ vox_set
    · simp only [if_pos h]; exact ⟨ih1, ih2⟩
    · simp only [if_neg h]
      rw [voxelSubsample_acc]
      simp only [List.nil_append, List.map_append, List.map_cons, List.map_nil,
        List.singleton_append]
      exact ⟨by rw [ih3], ih4⟩

theorem decimate_cm_records (vox_width : F64) (chunk arg : Cloud) (vox_set : List VoxelKey) :
    (decimate_cm vox_width chunk vox_set arg).1.records
        = firstInVoxel (mul64 0x3F847AE147AE147B vox_width) vox_set arg.records
      ∧ (decimate_cm vox_width chunk vox_set arg).2
        = seenAfter (mul64 0x3F847AE147AE147B vox_width) vox_set arg.records := by
  have h := voxelSubsample_rows (mul64 0x3F847AE147AE147B vox_width) arg arg.ends 0 vox_set
    (by simp)
  simp only [decimate_cm]
  rw [records_gather]
  simpa [Cloud.records, List.range_eq_range'] using h

theorem firstInVoxel_append (width : F64) :
    ∀ (l1 l2 : List Record) (seen : List VoxelKey),
      firstInVoxel width seen (l1 ++ l2)
          = firstInVoxel width seen l1 ++ firstInVoxel width (seenAfter width seen l1) l2 := by
  intro l1
  induction l1 with
  | nil => intro l2 seen; simp [firstInVoxel, seenAfter]
  | cons r rs ih =>
    intro l2 seen
    simp only [List.cons_append, firstInVoxel, seenAfter]
    by_cases h : voxelKey width r.2.1 ∈ seen
    · simp only [if_pos h]; exact ih l2 seen
    · simp only [if_neg h, List.cons_append]
      exact congrArg _ (ih l2 _)

theorem recordsOf_decimateCmRun (vox_width : F64) :
    ∀ (calls : List Cloud) (chunk : Cloud) (vox_set : List VoxelKey),
      recordsOf (decimateCmRun vox_width chunk vox_set calls)
        = firstInVoxel (mul64 0x3F847AE147AE147B vox_width) vox_set (recordsOf calls) := by
  intro calls
  induction calls with
  | nil => intro chunk vox_set; simp [decimateCmRun, recordsOf, firstInVoxel]
  | cons a rest ih =>
    intro chunk vox_set
    obtain ⟨h1, h2⟩ := decimate_cm_records vox_width chunk a vox_set
    have := ih (decimate_cm vox_width chunk vox_set a).1 (decimate_cm vox_width chunk vox_set a).2
    simp only [recordsOf] at this
    simp only [decimateCmRun, recordsOf, List.map_cons, List.flatten_cons]
    rw [firstInVoxel_append, this, h1, h2]

theorem firstInVoxel_keys (width : F64) :
    ∀ (l : List Record) (seen : List VoxelKey),
      ((firstInVoxel width seen l).map fun r => voxelKey width r.2.1).Nodup
        ∧ ∀ k ∈ (firstInVoxel width seen l).map (fun r => voxelKey width r.2.1), k ∉ seen := by
  intro l
  induction l with
  | nil => intro seen; simp [firstInVoxel]
  | cons r rs ih =>
    intro seen
    simp only [firstInVoxel]
    by_cases h : voxelKey width r.2.1 ∈ seen
    · simp only [if_pos h]; exact ih seen
    · simp only [if_neg h, List.map_cons, List.nodup_cons]
      obtain ⟨ih1, ih2⟩ := ih (voxelKey width r.2.1 :: seen)
      refine ⟨⟨fun hmem => ?_, ih1⟩, ?_⟩
      · exact ih2 _ hmem (List.mem_cons_self _ _)
      · intro k hk
        rcases List.mem_cons.mp hk with rfl | hk'
        · exact h
        · exact fun hs => ih2 k hk' (List.mem_cons_of_mem _ hs)

/-- C10: over a whole run of `decimate_cm` that starts from the empty voxel set
and threads it through every call, the records handed to the writer have
pairwise different voxel keys, and they are exactly the records whose key was
not in the set when they were reached. -/
theorem decimate_cm_one_per_voxel (vox_width : F64) (chunk : Cloud) (calls : List Cloud) :
    ((recordsOf (decimateCmRun vox_width chunk [] calls)).map
        fun r => voxelKey (mul64 0x3F847AE147AE147B vox_width) r.2.1).Nodup
      ∧ recordsOf (decimateCmRun vox_width chunk [] calls)
        = firstInVoxel (mul64 0x3F847AE147AE147B vox_width) [] (recordsOf calls) := by
  rw [recordsOf_decimateCmRun]
  exact ⟨(firstInVoxel_keys _ _ _).1, rfl⟩

/-! ## The row loop of `readPly` -/

theorem foldl_pushRow (h : Layout) (is_ray_cloud : Bool) (max_intensity : F64) :
    ∀ (rows : List (List Nat)) (c : Cols),
      rows.foldl (fun c v => pushRow h is_ray_cloud max_intensity v c) c =
        ⟨c.ends ++ rows.map (decodeEnd h),
          c.starts ++ rows.map (fun v => (decodeEnd h v).add (decodeNormal h is_ray_cloud v)),
          c.times ++ (if h.time_offset ≠ -1 then rows.map (decodeTime h) else []),
          c.colours ++
            (if h.colour_offset ≠ -1 then rows.map (fun v => rgbaAt v h.colour_offset.toNat)
             else []),
          c.intensities ++
            (if !is_ray_cloud && decide (h.intensity_offset ≠ -1) then
              rows.map (fun v => remapIntensity max_intensity (rawIntensity h v))
             else [])⟩ := by
  intro rows
  induction rows with
  | nil => intro c; cases c; simp
  | cons v vs ih =>
    intro c
    rw [List.foldl_cons, ih]
    by_cases ht : h.time_offset = -1 <;> by_cases hc : h.colour_offset = -1 <;>
      by_cases hi : h.intensity_offset = -1 <;> cases is_ray_cloud <;>
      simp [pushRow, ht, hc, hi]

theorem colsOf_eq (h : Layout) (is_ray_cloud : Bool) (max_intensity : F64)
    (rows : List (List Nat)) :
    colsOf h is_ray_cloud max_intensity rows =
      ⟨rows.map (decodeEnd h),
        rows.map (fun v => (decodeEnd h v).add (decodeNormal h is_ray_cloud v)),
        (if h.time_offset ≠ -1 then rows.map (decodeTime h) else []),
        (if h.colour_offset ≠ -1 then rows.map (fun v => rgbaAt v h.colour_offset.toNat)
         else []),
        (if !is_ray_cloud && decide (h.intensity_offset ≠ -1) then
          rows.map (fun v => remapIntensity max_intensity (rawIntensity h v))
         else [])⟩ := by
  rw [colsOf, foldl_pushRow]; simp [Cols.empty]

theorem colsOf_append (h : Layout) (is_ray_cloud : Bool) (max_intensity : F64)
    (rows : List (List Nat)) (v : List Nat) :
    colsOf h is_ray_cloud max_intensity (rows ++ [v])
      = pushRow h is_ray_cloud max_intensity v (colsOf h is_ray_cloud max_intensity rows) := by
  simp [colsOf, List.foldl_append]

theorem ends_length_colsOf (h : Layout) (is_ray_cloud : Bool) (max_intensity : F64)
    (rows : List (List Nat)) :
    (colsOf h is_ray_cloud max_intensity rows).ends.length = rows.length := by
  rw [colsOf_eq]; simp

/-- The row loop on the byte stream is the row loop on the list of rows. -/
theorem readRows_eq (colourByTime : ColourByTime) (h : Layout) (is_ray_cloud : Bool)
    (max_intensity : F64) (chunk_size size : Nat) :
    ∀ (n i : Nat) (input : List Nat) (pend : List (List Nat)),
      readRows colourByTime h is_ray_cloud max_intensity chunk_size size n i input
          (colsOf h is_ray_cloud max_intensity pend)
        = (groupRows h is_ray_cloud chunk_size size i (splitRows h.row_size n input) pend).map
            fun p => finishChunk colourByTime h is_ray_cloud p.1
              (colsOf h is_ray_cloud max_intensity p.2) := by
  intro n
  induction n with
  | zero => intro i input pend; simp [readRows, splitRows, groupRows]
  | succ n ih =>
    intro i input pend
    simp only [readRows, splitRows, groupRows]
    by_cases hv : rowValid h is_ray_cloud (List.take h.row_size input) = true
    · simp only [hv, Bool.not_true, Bool.false_eq_true, if_false]
      rw [← colsOf_append, ends_length_colsOf]
      by_cases hf : ((pend ++ [List.take h.row_size input]).length = chunk_size
          || i = size - 1) = true
      · have hf' : (decide ((pend ++ [List.take h.row_size input]).length = chunk_size)
            || decide (i = size - 1)) = true := by simpa using hf
        simp only [hf', if_true, List.map_cons]
        have := ih (i + 1) (List.drop h.row_size input) []
        simp only [colsOf, List.foldl_nil] at this ⊢
        rw [this]
      · have hf' : (decide ((pend ++ [List.take h.row_size input]).length = chunk_size)
            || decide (i = size - 1)) = false := by simpa using hf
        simp only [hf', Bool.false_eq_true, if_false]
        exact ih _ _ _
    · have hv' : rowValid h is_ray_cloud (List.take h.row_size input) = false := by
        simpa using hv
      simp only [hv', Bool.not_false, if_true]
      exact ih _ _ _

theorem applyIntensities_map {α : Type} (f : α → RGBA) (g : α → Nat) :
    ∀ l : List α, applyIntensities (l.map f) (l.map g) = l.map fun v => withIntensity (f v) (g v) := by
  intro l
  induction l with
  | nil => simp [applyIntensities]
  | cons x xs ih => simp [applyIntensities, ih]

/-- For a file that stores time and colour, a flushed chunk is the decoding of
its rows, whatever the index at which it is flushed. -/
theorem finishChunk_colsOf (colourByTime : ColourByTime) (h : Layout) (is_ray_cloud : Bool)
    (max_intensity : F64) (i : Nat) (rows : List (List Nat)) (ht : h.time_offset ≠ -1)
    (hc : h.colour_offset ≠ -1) :
    finishChunk colourByTime h is_ray_cloud i (colsOf h is_ray_cloud max_intensity rows)
      = decodeRows h is_ray_cloud max_intensity rows := by
  rw [colsOf_eq]
  by_cases hi : h.intensity_offset = -1 <;> cases is_ray_cloud <;>
    simp [finishChunk, decodeRows, rowColour, ht, hc, hi, applyIntensities_map]

/-- When the last row is valid and the capacity is at least 1, the flushed
chunks are, concatenated, the pending rows followed by the valid rows, and
there are `ceil` of that many over the capacity. -/
theorem groupRows_flatten (h : Layout) (is_ray_cloud : Bool) (c size : Nat) (hc : 1 ≤ c) :
    ∀ (rows : List (List Nat)) (i : Nat) (pend : List (List Nat)),
      i + rows.length = size → pend.length < c →
      (∃ v, rows.getLast? = some v ∧ rowValid h is_ray_cloud v = true) →
      ((groupRows h is_ray_cloud c size i rows pend).map Prod.snd).flatten
          = pend ++ rows.filter (rowValid h is_ray_cloud)
        ∧ (groupRows h is_ray_cloud c size i rows pend).length
          = (pend.length + (rows.filter (rowValid h is_ray_cloud)).length + c - 1) / c := by
  intro rows
  induction rows with
  | nil => intro i pend _ _ hl; obtain ⟨v, hv, _⟩ := hl; simp at hv
  | cons v vs ih =>
    intro i pend hsize hpend hlast
    cases vs with
    | nil =>
      obtain ⟨w, hw, hwv⟩ := hlast
      simp only [List.getLast?_singleton, Option.some.injEq] at hw
      subst hw
      have hi : i = size - 1 := by simp at hsize; omega
      have hdiv : (pend.length + c) / c = 1 := by
        rw [Nat.add_div_right _ (by omega), Nat.div_eq_of_lt hpend]
      simp [groupRows, hwv, hi, hdiv]
    | cons w ws =>
      have hlast' : ∃ u, (w :: ws).getLast? = some u ∧ rowValid h is_ray_cloud u = true := by
        obtain ⟨u, hu, huv⟩ := hlast
        exact ⟨u, by simpa [List.getLast?_cons_cons] using hu, huv⟩
      have hsize' : (i + 1) + (w :: ws).length = size := by
        simp only [List.length_cons] at hsize ⊢; omega
      have hi : i ≠ size - 1 := by simp only [List.length_cons] at hsize; omega
      rw [groupRows]
      by_cases hv : rowValid h is_ray_cloud v = true
      · have hf : (v :: w :: ws).filter (rowValid h is_ray_cloud)
            = v :: (w :: ws).filter (rowValid h is_ray_cloud) := by
          rw [List.filter_cons, if_pos hv]
        rw [hf]
        simp only [hv, Bool.not_true, Bool.false_eq_true, if_false]
        by_cases hfull : (pend ++ [v]).length = c
        · obtain ⟨ih1, ih2⟩ := ih (i + 1) [] hsize' (by simp; omega) hlast'
          simp only [hfull, decide_True, Bool.true_or, if_true, List.map_cons,
            List.flatten_cons, ih1, List.length_cons, ih2]
          refine ⟨by simp, ?_⟩
          simp only [List.length_append, List.length_singleton] at hfull
          generalize (List.filter (rowValid h is_ray_cloud) (w :: ws)).length = V
          have : pend.length + (V + 1) + c - 1 = (V + c - 1) + c := by omega
          rw [this, Nat.add_div_right _ (by omega)]
          simp
        · obtain ⟨ih1, ih2⟩ := ih (i + 1) (pend ++ [v]) hsize'
            (by simp only [List.length_append, List.length_singleton] at hfull ⊢; omega) hlast'
          simp only [hfull, hi, decide_False, Bool.or_self, Bool.false_eq_true, if_false, ih1,
            ih2]
          refine ⟨by simp, ?_⟩
          simp only [List.length_cons, List.length_append, List.length_singleton,
            List.length_nil]
          generalize (List.filter (rowValid h is_ray_cloud) (w :: ws)).length = V
          congr 1
          omega
      · have hv' : rowValid h is_ray_cloud v = false := by simpa using hv
        have hf : (v :: w :: ws).filter (rowValid h is_ray_cloud)
            = (w :: ws).filter (rowValid h is_ray_cloud) := by
          rw [List.filter_cons, if_neg hv]
        obtain ⟨ih1, ih2⟩ := ih (i + 1) pend hsize' hpend hlast'
        rw [hf]
        simp only [hv', Bool.not_false, if_true, ih1, ih2, and_self]

theorem length_splitRows (row_size : Nat) :
    ∀ (n : Nat) (input : List Nat), (splitRows row_size n input).length = n := by
  intro n
  induction n with
  | zero => intro input; simp [splitRows]
  | succ n ih => intro input; simp [splitRows, ih]

theorem concatClouds_decodeRows (h : Layout) (is_ray_cloud : Bool) (max_intensity : F64)
    (groups : List (List (List Nat))) :
    concatClouds (groups.map (decodeRows h is_ray_cloud max_intensity))
      = decodeRows h is_ray_cloud max_intensity groups.flatten := by
  induction groups with
  | nil => simp [concatClouds, decodeRows]
  | cons g gs ih =>
    simp only [concatClouds, decodeRows, List.map_cons, List.flatten_cons, List.map_append,
      Cloud.mk.injEq] at ih ⊢
    obtain ⟨h1, h2, h3, h4⟩ := ih
    simp only [List.map_map] at h1 h2 h3 h4 ⊢
    exact ⟨by rw [← h1], by rw [← h2], by rw [← h3], by rw [← h4]⟩

/-- The outcome of `readPly` once the header has been scanned. -/
theorem readPly_of_parse (colourByTime : ColourByTime) (file : List Nat) (is_ray_cloud : Bool)
    (max_intensity : F64) (c : Nat) (h : Layout) (body : List Nat)
    (hparse : parseHeader file = some (h, body)) :
    readPly colourByTime file is_ray_cloud max_intensity c =
      if mandatoryFieldsPresent is_ray_cloud h = false then some ⟨false, []⟩
      else if c = 0 then none
      else if (fileRows h body).length = 0 then some ⟨false, []⟩
      else some ⟨true,
        (groupRows h is_ray_cloud c (fileRows h body).length 0 (fileRows h body) []).map
          fun p => finishChunk colourByTime h is_ray_cloud p.1
            (colsOf h is_ray_cloud max_intensity p.2)⟩ := by
  have hr := readRows_eq colourByTime h is_ray_cloud max_intensity c (body.length / h.row_size)
    (body.length / h.row_size) 0 body []
  simp only [colsOf, List.foldl_nil] at hr
  simp only [readPly, hparse, fileRows, length_splitRows, mandatoryFieldsPresent]
  by_cases h1 : h.offset = -1
  · simp [h1]
  · by_cases h2 : (is_ray_cloud && decide (h.normal_offset = -1)) = true
    · simp [h1, h2]
    · simp only [h1, h2, if_false, decide_False, Bool.not_false, Bool.true_and,
        Bool.not_eq_false, Bool.false_eq_true]
      by_cases h3 : c = 0
      · simp [h3]
      · by_cases h4 : body.length / h.row_size = 0
        · simp [h3, h4]
        · simp only [h3, h4, if_false, colsOf]
          rw [hr]
          simp [h2]

/-! ## The header loop -/

theorem getline_append (l rest : List Nat) (hl : 10 ∉ l) :
    getline (l ++ 10 :: rest) = (l, rest) := by
  induction l with
  | nil => simp [getline]
  | cons a l ih =>
    have ha : a ≠ 10 := fun h => hl (by simp [h])
    have hl' : 10 ∉ l := fun h => hl (List.mem_cons_of_mem _ h)
    simp [getline, ha, ih hl']

theorem scanHeader_step (fuel : Nat) (input : List Nat) (h : Layout) (hne : input ≠ []) :
    scanHeader (fuel + 1) input h =
      if isEndHeader (getline input).1 then some (scanLine h (getline input).1, (getline input).2)
      else scanHeader fuel (getline input).2 (scanLine h (getline input).1) := by
  cases input with
  | nil => exact absurd rfl hne
  | cons c cs => simp [scanHeader]

theorem scanLine_end_header (h : Layout) : scanLine h (str "end_header") = h := by
  have h1 : lineDataType (str "end_header") = kDTnone := by decide
  have h2 : isPositionLine (str "end_header") = false := by decide
  have h3 : isNormalLine (str "end_header") = false := by decide
  have h4 : found (str "end_header") "time" = false := by decide
  have h5 : found (str "end_header") "intensity" = false := by decide
  have h6 : found (str "end_header") "property uchar red" = false := by decide
  simp [scanLine, h1, h2, h3, h4, h5, h6, rowsteps]

theorem scanHeader_lines (body : List Nat) :
    ∀ (lines : List (List Nat)) (fuel : Nat) (h : Layout),
      (∀ l ∈ lines, 10 ∉ l ∧ isEndHeader l = false) → lines.length < fuel →
      scanHeader fuel (headerFile lines body) h = some (lines.foldl scanLine h, body) := by
  intro lines
  induction lines with
  | nil =>
    intro fuel h _ hf
    obtain ⟨f, rfl⟩ : ∃ f, fuel = f + 1 := ⟨fuel - 1, by simp at hf; omega⟩
    have hg : getline (headerFile [] body) = (str "end_header", body) := by
      have : headerFile [] body = str "end_header" ++ 10 :: body := by
        simp [headerFile, textLine]
      rw [this]
      exact getline_append _ _ (by decide)
    have he : isEndHeader (str "end_header") = true := by decide
    rw [scanHeader_step _ _ _ (by simp [headerFile, textLine]), hg]
    simp [he, scanLine_end_header]
  | cons l ls ih =>
    intro fuel h hl hf
    obtain ⟨f, rfl⟩ : ∃ f, fuel = f + 1 := ⟨fuel - 1, by simp at hf; omega⟩
    have hl1 := hl l (List.mem_cons_self _ _)
    have hg : getline (headerFile (l :: ls) body) = (l, headerFile ls body) := by
      have : headerFile (l :: ls) body = l ++ 10 :: headerFile ls body := by
        simp [headerFile]
      rw [this]
      exact getline_append _ _ hl1.1
    rw [scanHeader_step _ _ _ (by simp [headerFile]), hg]
    simp only [hl1.2, Bool.false_eq_true, if_false, List.foldl_cons]
    exact ih f (scanLine h l) (fun x hx => hl x (List.mem_cons_of_mem _ hx))
      (by simp at hf; omega)

theorem length_headerFile_gt (lines : List (List Nat)) (body : List Nat) :
    lines.length < (headerFile lines body).length + 1 := by
  induction lines with
  | nil => simp
  | cons l ls ih =>
    have : headerFile (l :: ls) body = l ++ 10 :: headerFile ls body := by simp [headerFile]
    rw [this]
    simp only [List.length_append, List.length_cons]
    omega

/-- The header loop ends on every file with a header, with the layout folded
over its lines and the data section as the rest of the stream. -/
theorem parseHeader_headerFile (lines : List (List Nat)) (body : List Nat)
    (hl : ∀ l ∈ lines, 10 ∉ l ∧ isEndHeader l = false) :
    parseHeader (headerFile lines body) = some (layoutOf lines, body) := by
  rw [parseHeader, scanHeader_lines body lines _ _ hl (length_headerFile_gt lines body)]
  simp [layoutOf, List.foldl_append, scanLine_end_header]

theorem offset_scanLine (h : Layout) (line : List Nat) :
    (scanLine h line).offset = if isPositionLine line then (h.row_size : Int) else h.offset := by
  simp only [scanLine]
  by_cases h1 : isPositionLine line = true <;> by_cases h2 : isNormalLine line = true <;>
    by_cases h3 : found line "time" = true <;> by_cases h4 : found line "intensity" = true <;>
    by_cases h5 : found line "property uchar red" = true <;> simp [h1, h2, h3, h4, h5]

theorem normal_offset_scanLine (h : Layout) (line : List Nat) :
    (scanLine h line).normal_offset
      = if isNormalLine line then (h.row_size : Int) else h.normal_offset := by
  simp only [scanLine]
  by_cases h1 : isPositionLine line = true <;> by_cases h2 : isNormalLine line = true <;>
    by_cases h3 : found line "time" = true <;> by_cases h4 : found line "intensity" = true <;>
    by_cases h5 : found line "property uchar red" = true <;> simp [h1, h2, h3, h4, h5]

theorem offset_foldl (lines : List (List Nat)) :
    ∀ h : Layout, ((lines.foldl scanLine h).offset = -1
      ↔ h.offset = -1 ∧ ∀ l ∈ lines, isPositionLine l = false) := by
  induction lines with
  | nil => intro h; simp
  | cons l ls ih =>
    intro h
    rw [List.foldl_cons, ih, offset_scanLine]
    by_cases hp : isPositionLine l = true
    · simp only [hp, if_true, List.mem_cons, forall_eq_or_imp, Bool.true_eq_false, false_and,
        and_false, iff_false, not_and]
      intro hneg
      have : (0 : Int) ≤ (h.row_size : Int) := Int.ofNat_nonneg _
      omega
    · have hp' : isPositionLine l = false := by simpa using hp
      simp [hp']

theorem normal_offset_foldl (lines : List (List Nat)) :
    ∀ h : Layout, ((lines.foldl scanLine h).normal_offset = -1
      ↔ h.normal_offset = -1 ∧ ∀ l ∈ lines, isNormalLine l = false) := by
  induction lines with
  | nil => intro h; simp
  | cons l ls ih =>
    intro h
    rw [List.foldl_cons, ih, normal_offset_scanLine]
    by_cases hp : isNormalLine l = true
    · simp only [hp, if_true, List.mem_cons, forall_eq_or_imp, Bool.true_eq_false, false_and,
        and_false, iff_false, not_and]
      intro hneg
      have : (0 : Int) ≤ (h.row_size : Int) := Int.ofNat_nonneg _
      omega
    · have hp' : isNormalLine l = false := by simpa using hp
      simp [hp']

theorem offset_layoutOf (lines : List (List Nat)) :
    (layoutOf lines).offset = -1 ↔ ∀ l ∈ lines, isPositionLine l = false := by
  rw [layoutOf, List.foldl_append, List.foldl_cons, List.foldl_nil, scanLine_end_header,
    offset_foldl]
  simp [Layout.init]

theorem normal_offset_layoutOf (lines : List (List Nat)) :
    (layoutOf lines).normal_offset = -1 ↔ ∀ l ∈ lines, isNormalLine l = false := by
  rw [layoutOf, List.foldl_append, List.foldl_cons, List.foldl_nil, scanLine_end_header,
    normal_offset_foldl]
  simp [Layout.init]

theorem concatClouds_ends (colourByTime : ColourByTime) (h : Layout) (is_ray_cloud : Bool)
    (max_intensity : F64) (groups : List (Nat × List (List Nat))) :
    (concatClouds (groups.map fun p => finishChunk colourByTime h is_ray_cloud p.1
        (colsOf h is_ray_cloud max_intensity p.2))).ends
      = (groups.map Prod.snd).flatten.map (decodeEnd h) := by
  induction groups with
  | nil => simp [concatClouds]
  | cons g gs ih =>
    simp only [concatClouds, List.map_cons, List.flatten_cons, List.map_append] at ih ⊢
    rw [ih]
    simp [finishChunk, colsOf_eq]

/-- The outcome of `readPly` for a file that stores time and colour and whose
last row is valid: success, and the calls decode, concatenated, the valid rows. -/
theorem readPly_stored (colourByTime : ColourByTime) (file : List Nat) (is_ray_cloud : Bool)
    (max_intensity : F64) (h : Layout) (body : List Nat) (c : Nat)
    (hparse : parseHeader file = some (h, body))
    (hmand : mandatoryFieldsPresent is_ray_cloud h = true)
    (ht : h.time_offset ≠ -1) (hcol : h.colour_offset ≠ -1)
    (hlast : (fileRows h body).getLast?.map (rowValid h is_ray_cloud) = some true)
    (hc : 1 ≤ c) :
    ∃ calls, readPly colourByTime file is_ray_cloud max_intensity c = some ⟨true, calls⟩
      ∧ concatClouds calls = decodeRows h is_ray_cloud max_intensity
          ((fileRows h body).filter (rowValid h is_ray_cloud))
      ∧ calls.length
        = (((fileRows h body).filter (rowValid h is_ray_cloud)).length + c - 1) / c := by
  have hlast' : ∃ v, (fileRows h body).getLast? = some v ∧ rowValid h is_ray_cloud v = true := by
    cases hg : (fileRows h body).getLast? with
    | none => simp [hg] at hlast
    | some v => exact ⟨v, rfl, by simpa [hg] using hlast⟩
  have hne : (fileRows h body).length ≠ 0 := by
    intro h0
    obtain ⟨v, hv, _⟩ := hlast'
    rw [List.length_eq_zero.mp h0] at hv
    simp at hv
  obtain ⟨g1, g2⟩ := groupRows_flatten h is_ray_cloud c (fileRows h body).length hc
    (fileRows h body) 0 [] (by simp) (by simp; omega) hlast'
  refine ⟨(groupRows h is_ray_cloud c (fileRows h body).length 0 (fileRows h body) []).map
    (fun p => finishChunk colourByTime h is_ray_cloud p.1
      (colsOf h is_ray_cloud max_intensity p.2)), ?_, ?_, ?_⟩
  · rw [readPly_of_parse colourByTime file is_ray_cloud max_intensity c h body hparse]
    simp only [hmand, Bool.true_eq_false, if_false, hne, Nat.ne_of_gt hc]
  · have : (groupRows h is_ray_cloud c (fileRows h body).length 0 (fileRows h body) []).map
        (fun p => finishChunk colourByTime h is_ray_cloud p.1
          (colsOf h is_ray_cloud max_intensity p.2))
        = ((groupRows h is_ray_cloud c (fileRows h body).length 0 (fileRows h body) []).map
            Prod.snd).map (decodeRows h is_ray_cloud max_intensity) := by
      rw [List.map_map]
      apply List.map_congr_left
      intro p _
      exact finishChunk_colsOf colourByTime h is_ray_cloud max_intensity p.1 p.2 ht hcol
    rw [this, concatClouds_decodeRows, g1]
    simp
  · simp only [List.length_map, g2, List.length_nil, Nat.zero_add]

/-- C2 fails as stated.  A one-ray file is handed over in one call with
capacity 10 and with capacity 10,000: the numbers of calls do not differ.  And
for a file of eleven rows without a time property the concatenated times
differ between the two capacities. -/
theorem chunk_boundary_counterexample :
    ((readPly plainColours oneRayFile true 0 10).map fun r => r.calls.length) = some 1
      ∧ ((readPly plainColours oneRayFile true 0 10000).map fun r => r.calls.length) = some 1
      ∧ ((readPly plainColours noTimeFile true 0 10).map fun r => (concatClouds r.calls).times)
        = some ([9, 10, 11, 12, 13, 14, 15, 16, 17, 18, 10].map natToF64)
      ∧ ((readPly plainColours noTimeFile true 0 10000).map fun r => (concatClouds r.calls).times)
        = some ([10, 11, 12, 13, 14, 15, 16, 17, 18, 19, 20].map natToF64) := by
  set_option maxRecDepth 1000000 in decide

/-- C2 (amended): for a file that stores time and colour and whose last row is
valid, and any two capacities of at least 1 (10 and 10,000 among them), both
reads return the same flag and the same column-wise concatenation of the
chunks handed to the callback; on success that concatenation is the decoding of
the valid rows in file order, and the callback is invoked `ceil(V / capacity)`
times for `V` valid rows. -/
theorem readPly_chunk_boundary (colourByTime : ColourByTime) (file : List Nat)
    (is_ray_cloud : Bool) (max_intensity : F64) (h : Layout) (body : List Nat) (c1 c2 : Nat)
    (hparse : parseHeader file = some (h, body))
    (ht : h.time_offset ≠ -1) (hcol : h.colour_offset ≠ -1)
    (hlast : (fileRows h body).getLast?.map (rowValid h is_ray_cloud) = some true)
    (h1 : 1 ≤ c1) (h2 : 1 ≤ c2) :
    ∃ r1 r2, readPly colourByTime file is_ray_cloud max_intensity c1 = some r1
      ∧ readPly colourByTime file is_ray_cloud max_intensity c2 = some r2
      ∧ r1.ok = r2.ok ∧ concatClouds r1.calls = concatClouds r2.calls
      ∧ (r1.ok = true →
          concatClouds r1.calls = decodeRows h is_ray_cloud max_intensity
              ((fileRows h body).filter (rowValid h is_ray_cloud))
            ∧ r1.calls.length
              = (((fileRows h body).filter (rowValid h is_ray_cloud)).length + c1 - 1) / c1
            ∧ r2.calls.length
              = (((fileRows h body).filter (rowValid h is_ray_cloud)).length + c2 - 1) / c2) := by
  by_cases hmand : mandatoryFieldsPresent is_ray_cloud h = true
  · obtain ⟨k1, e1, a1, b1⟩ := readPly_stored colourByTime file is_ray_cloud max_intensity h body
      c1 hparse hmand ht hcol hlast h1
    obtain ⟨k2, e2, a2, b2⟩ := readPly_stored colourByTime file is_ray_cloud max_intensity h body
      c2 hparse hmand ht hcol hlast h2
    exact ⟨_, _, e1, e2, rfl, by rw [a1, a2], fun _ => ⟨a1, b1, b2⟩⟩
  · have hm : mandatoryFieldsPresent is_ray_cloud h = false := by simpa using hmand
    refine ⟨⟨false, []⟩, ⟨false, []⟩, ?_, ?_, rfl, rfl, fun hf => by simp at hf⟩
    · rw [readPly_of_parse colourByTime file is_ray_cloud max_intensity c1 h body hparse]
      simp [hm]
    · rw [readPly_of_parse colourByTime file is_ray_cloud max_intensity c2 h body hparse]
      simp [hm]

theorem readPly_chunk_boundary_witness :
    parseHeader twoRayFile = some (rayCloudLayout false, twoRayFile.drop 332)
      ∧ (rayCloudLayout false).time_offset ≠ -1 ∧ (rayCloudLayout false).colour_offset ≠ -1
      ∧ (fileRows (rayCloudLayout false) (twoRayFile.drop 332)).getLast?.map
          (rowValid (rayCloudLayout false) true) = some true
      ∧ 1 ≤ 1 ∧ 1 ≤ 2
      ∧ ∃ r1 r2, readPly plainColours twoRayFile true 0 1 = some r1
        ∧ readPly plainColours twoRayFile true 0 2 = some r2
        ∧ r1.ok = r2.ok ∧ concatClouds r1.calls = concatClouds r2.calls
        ∧ (r1.ok = true →
          concatClouds r1.calls = decodeRows (rayCloudLayout false) true 0
              ((fileRows (rayCloudLayout false) (twoRayFile.drop 332)).filter
                (rowValid (rayCloudLayout false) true))
            ∧ r1.calls.length
              = (((fileRows (rayCloudLayout false) (twoRayFile.drop 332)).filter
                  (rowValid (rayCloudLayout false) true)).length + 1 - 1) / 1
            ∧ r2.calls.length
              = (((fileRows (rayCloudLayout false) (twoRayFile.drop 332)).filter
                  (rowValid (rayCloudLayout false) true)).length + 2 - 1) / 2) :=
  ⟨by set_option maxRecDepth 1000000 in decide, by decide, by decide,
    by set_option maxRecDepth 1000000 in decide, by decide, by decide,
    readPly_chunk_boundary plainColours twoRayFile true 0 (rayCloudLayout false)
      (twoRayFile.drop 332) 1 2 (by set_option maxRecDepth 1000000 in decide) (by decide)
      (by decide) (by set_option maxRecDepth 1000000 in decide) (by decide) (by decide)⟩

/-- C3 fails on the code: in a ray-cloud file of two rows whose last row has a
NaN position, read with capacity 2, the first row is valid and yet no call of
the callback is made: the valid row is absent from the output. -/
theorem readPly_loses_rows_before_nan_tail :
    readPly plainColours nanTailFile true 0 2 = some ⟨true, []⟩
      ∧ parseHeader nanTailFile = some (rayCloudLayout false, nanTailFile.drop 332)
      ∧ (fileRows (rayCloudLayout false) (nanTailFile.drop 332)).map
          (rowValid (rayCloudLayout false) true) = [true, false] := by
  set_option maxRecDepth 1000000 in decide

/-- C9 fails as stated: a file whose only row has a NaN position is read with
success although no record is handed to the callback. -/
theorem readPly_all_nan_succeeds :
    readPly plainColours nanOnlyFile true 0 10 = some ⟨true, []⟩ := by
  set_option maxRecDepth 1000000 in decide

/-- C9 (amended): a file whose data section holds no complete row is a failure,
without any call of the callback; `readPly` returns success only for a file with
at least one complete row, and when moreover the last row of the file is valid
it has handed at least one record to the callback. -/
theorem readPly_empty_is_failure (colourByTime : ColourByTime) (file : List Nat)
    (is_ray_cloud : Bool) (max_intensity : F64) (c : Nat) (h : Layout) (body : List Nat)
    (hparse : parseHeader file = some (h, body)) (hc : 1 ≤ c) :
    ((fileRows h body).length = 0 →
        readPly colourByTime file is_ray_cloud max_intensity c = some ⟨false, []⟩)
      ∧ ∀ r, readPly colourByTime file is_ray_cloud max_intensity c = some r → r.ok = true →
          1 ≤ (fileRows h body).length
            ∧ ((fileRows h body).getLast?.map (rowValid h is_ray_cloud) = some true →
                (concatClouds r.calls).ends ≠ []) := by
  have hread := readPly_of_parse colourByTime file is_ray_cloud max_intensity c h body hparse
  have hc0 : c ≠ 0 := by omega
  constructor
  · intro h0
    rw [hread]
    by_cases hm : mandatoryFieldsPresent is_ray_cloud h = false <;> simp [hm, hc0, h0]
  · intro r hr hok
    rw [hread] at hr
    by_cases hm : mandatoryFieldsPresent is_ray_cloud h = false
    · simp only [hm, if_true, Option.some.injEq] at hr
      rw [← hr] at hok
      simp at hok
    · have hm' : mandatoryFieldsPresent is_ray_cloud h = true := by simpa using hm
      by_cases h0 : (fileRows h body).length = 0
      · simp only [hm', hc0, h0, if_false, if_true, Option.some.injEq,
          Bool.true_eq_false] at hr
        rw [← hr] at hok
        simp at hok
      · simp only [hm', hc0, h0, if_false, Option.some.injEq, Bool.true_eq_false] at hr
        refine ⟨by omega, fun hlast => ?_⟩
        have hlast' : ∃ v, (fileRows h body).getLast? = some v
            ∧ rowValid h is_ray_cloud v = true := by
          cases hg : (fileRows h body).getLast? with
          | none => simp [hg] at hlast
          | some v => exact ⟨v, rfl, by simpa [hg] using hlast⟩
        obtain ⟨g1, _⟩ := groupRows_flatten h is_ray_cloud c (fileRows h body).length hc
          (fileRows h body) 0 [] (by simp) (by simp; omega) hlast'
        rw [← hr]
        simp only [concatClouds_ends, g1, List.nil_append, ne_eq, List.map_eq_nil_iff]
        obtain ⟨v, hv, hvv⟩ := hlast'
        intro hnil
        have hmem : v ∈ (fileRows h body).filter (rowValid h is_ray_cloud) :=
          List.mem_filter.mpr ⟨List.mem_of_getLast?_eq_some hv, hvv⟩
        rw [hnil] at hmem
        simp at hmem

theorem readPly_empty_is_failure_witness :
    parseHeader oneRayFile = some (rayCloudLayout false, oneRayFile.drop 332) ∧ 1 ≤ 10
      ∧ ((fileRows (rayCloudLayout false) (oneRayFile.drop 332)).length = 0 →
        readPly plainColours oneRayFile true 0 10 = some ⟨false, []⟩)
      ∧ ∀ r, readPly plainColours oneRayFile true 0 10 = some r → r.ok = true →
          1 ≤ (fileRows (rayCloudLayout false) (oneRayFile.drop 332)).length
            ∧ ((fileRows (rayCloudLayout false) (oneRayFile.drop 332)).getLast?.map
                  (rowValid (rayCloudLayout false) true) = some true →
                (concatClouds r.calls).ends ≠ []) :=
  ⟨by set_option maxRecDepth 1000000 in decide, by decide,
    readPly_empty_is_failure plainColours oneRayFile true 0 10 (rayCloudLayout false)
      (oneRayFile.drop 332) (by set_option maxRecDepth 1000000 in decide) (by decide)⟩

/-- C6, as stated, fails for the point-cloud writer: on a stream whose header
has just been written, `writePointCloudChunk` with zero records returns
failure. -/
theorem writePointCloudChunk_empty_fails :
    (writePointCloudChunk false (writePointCloudChunkStart false true absorbsSmall 1000 Globals.init).2.1
      (writePointCloudChunkStart false true absorbsSmall 1000 Globals.init).2.2 [] [] []).1 = false := by
  rfl

/-- C6 (amended): a chunk write with zero records leaves the stream (contents,
put position, state) and the count that `writeRayCloudChunkEnd` /
`writePointCloudChunkEnd` will patch unchanged, for both writers;
`writeRayCloudChunk` returns success, `writePointCloudChunk` returns failure. -/
theorem empty_chunk_write (double_rays : Bool) (g : Globals) (out : OFStream)
    (starts : List Vector3d) (times : List F64) (colours : List RGBA) :
    writeRayCloudChunk double_rays g out ⟨starts, [], times, colours⟩ = (true, out)
      ∧ writeRayCloudChunkEnd double_rays g
          (writeRayCloudChunk double_rays g out ⟨starts, [], times, colours⟩).2
        = writeRayCloudChunkEnd double_rays g out
      ∧ writePointCloudChunk double_rays g out [] times colours = (false, out)
      ∧ writePointCloudChunkEnd double_rays g
          (writePointCloudChunk double_rays g out [] times colours).2
        = writePointCloudChunkEnd double_rays g out := by
  simp [writeRayCloudChunk, writePointCloudChunk]

theorem applyIntensities_get {α : Type} (g : α → Nat) :
    ∀ (rows : List α) (base : List RGBA), base.length = rows.length →
      (applyIntensities base (rows.map g)).length = rows.length
        ∧ ∀ j v col, rows.get? j = some v →
            (applyIntensities base (rows.map g)).get? j = some col →
            ∃ b, col = withIntensity b (g v) := by
  intro rows
  induction rows with
  | nil =>
    intro base hb
    have : base = [] := List.length_eq_zero.mp hb
    subst this
    simp [applyIntensities]
  | cons x xs ih =>
    intro base hb
    cases base with
    | nil => simp at hb
    | cons b bs =>
      simp only [List.length_cons, Nat.add_right_cancel_iff] at hb
      obtain ⟨ih1, ih2⟩ := ih bs hb
      refine ⟨by simp [applyIntensities, ih1], ?_⟩
      intro j v col hv hcol
      cases j with
      | zero =>
        simp only [List.get?_cons_zero, Option.some.injEq, List.map_cons, applyIntensities]
          at hv hcol
        exact ⟨b, by rw [← hcol, ← hv]⟩
      | succ j =>
        simp only [List.get?_cons_succ, List.map_cons, applyIntensities] at hv hcol
        exact ih2 j v col hv hcol

/-- The colour delivered with an intensity byte, by the value of the raw
intensity. -/
theorem withIntensity_remap (max_intensity x : F64) (b : RGBA) :
    (eq64 x 0xBFF0000000000000 = true →
        withIntensity b (remapIntensity max_intensity x) = ⟨0, 0, 0, 0⟩)
      ∧ (eq64 x 0xC000000000000000 = true ∨ eq64 x 0xC008000000000000 = true →
        withIntensity b (remapIntensity max_intensity x) = ⟨255, 200, 255, 1⟩)
      ∧ (ge64 x 0 = true →
        2 ≤ (withIntensity b (remapIntensity max_intensity x)).alpha
          ∧ (withIntensity b (remapIntensity max_intensity x)).alpha ≤ 255) := by
  refine ⟨fun h => ?_, fun h => ?_, fun h => ?_⟩
  · rw [remapIntensity_m1 max_intensity x h]; rfl
  · rcases h with h | h
    · rw [remapIntensity_m2 max_intensity x h]; rfl
    · rw [remapIntensity_m3 max_intensity x h]; rfl
  · obtain ⟨h2, h255⟩ := remapIntensity_nonneg max_intensity x h
    have h0 : remapIntensity max_intensity x ≠ 0 := by omega
    have h1 : remapIntensity max_intensity x ≠ 1 := by omega
    simp only [withIntensity, h0, h1, if_false]
    exact ⟨h2, h255⟩

/-- C7: in a point-cloud file with an intensity field (colour stored, or a
`colourByTime` that returns one colour per time), every call of the callback
carries one colour per row behind it, and the colour of a row whose intensity
is -1 is (0,0,0) with alpha 0, that of a row whose intensity is -2 or -3 is
(255,200,255) with alpha 1, whatever colour the row stores, and that of a row
with intensity >= 0 has an alpha between 2 and 255. -/
theorem intensity_sentinel_mapping (colourByTime : ColourByTime) (file : List Nat)
    (max_intensity : F64) (c : Nat) (h : Layout) (body : List Nat) (r : ReadResult)
    (hparse : parseHeader file = some (h, body))
    (hint : h.intensity_offset ≠ -1)
    (hcol : h.colour_offset ≠ -1 ∨ ∀ ts cs, (colourByTime ts cs).length = ts.length)
    (hr : readPly colourByTime file false max_intensity c = some r) :
    List.Forall₂
      (fun (call : Cloud) (rows : List (List Nat)) =>
        call.ends = rows.map (decodeEnd h) ∧ call.colours.length = rows.length
          ∧ ∀ j v col, rows.get? j = some v → call.colours.get? j = some col →
              (eq64 (rawIntensity h v) 0xBFF0000000000000 = true → col = ⟨0, 0, 0, 0⟩)
                ∧ (eq64 (rawIntensity h v) 0xC000000000000000 = true
                    ∨ eq64 (rawIntensity h v) 0xC008000000000000 = true →
                  col = ⟨255, 200, 255, 1⟩)
                ∧ (ge64 (rawIntensity h v) 0 = true → 2 ≤ col.alpha ∧ col.alpha ≤ 255))
      r.calls (if r.ok then deliveredRows h false c (fileRows h body) else []) := by
  rw [readPly_of_parse colourByTime file false max_intensity c h body hparse] at hr
  by_cases hm : mandatoryFieldsPresent false h = false
  · simp only [hm, if_true, Option.some.injEq] at hr
    rw [← hr]; simp
  · have hm' : mandatoryFieldsPresent false h = true := by simpa using hm
    by_cases hc0 : c = 0
    · simp [hm', hc0] at hr
    · by_cases h0 : (fileRows h body).length = 0
      · simp only [hm', hc0, h0, if_false, if_true, Option.some.injEq, Bool.true_eq_false] at hr
        rw [← hr]; simp
      · simp only [hm', hc0, h0, if_false, Option.some.injEq, Bool.true_eq_false] at hr
        rw [← hr]
        simp only [if_true, deliveredRows, List.forall₂_map_left_iff,
          List.forall₂_map_right_iff]
        apply List.forall₂_same.mpr
        intro p _
        have hlen : ∀ base : List RGBA, base.length = p.2.length →
            (applyIntensities base
              (p.2.map fun v => remapIntensity max_intensity (rawIntensity h v))).length
              = p.2.length
            ∧ ∀ j v col, p.2.get? j = some v →
              (applyIntensities base
                (p.2.map fun v => remapIntensity max_intensity (rawIntensity h v))).get? j
                = some col →
              ∃ b, col = withIntensity b (remapIntensity max_intensity (rawIntensity h v)) :=
          fun base hb => applyIntensities_get
            (fun v => remapIntensity max_intensity (rawIntensity h v)) p.2 base hb
        have key : ∀ base : List RGBA, base.length = p.2.length →
            (applyIntensities base
              (p.2.map fun v => remapIntensity max_intensity (rawIntensity h v))).length
              = p.2.length
            ∧ ∀ j v col, p.2.get? j = some v →
              (applyIntensities base
                (p.2.map fun v => remapIntensity max_intensity (rawIntensity h v))).get? j
                = some col →
              (eq64 (rawIntensity h v) 0xBFF0000000000000 = true → col = ⟨0, 0, 0, 0⟩)
                ∧ (eq64 (rawIntensity h v) 0xC000000000000000 = true
                    ∨ eq64 (rawIntensity h v) 0xC008000000000000 = true →
                  col = ⟨255, 200, 255, 1⟩)
                ∧ (ge64 (rawIntensity h v) 0 = true → 2 ≤ col.alpha ∧ col.alpha ≤ 255) := by
          intro base hb
          refine ⟨(hlen base hb).1, fun j v col hv hcol => ?_⟩
          obtain ⟨b, rfl⟩ := (hlen base hb).2 j v col hv hcol
          exact withIntensity_remap max_intensity (rawIntensity h v) b
        rw [colsOf_eq]
        simp only [finishChunk, hint, ne_eq, not_false_eq_true, Bool.not_false, decide_True,
          Bool.and_self, if_true, true_and]
        by_cases hc : h.colour_offset = -1
        · have hcbt : ∀ ts cs, (colourByTime ts cs).length = ts.length := by
            rcases hcol with h1 | h1
            · exact absurd hc h1
            · exact h1
          simp only [hc, if_true, not_true_eq_false, if_false]
          apply key
          rw [hcbt]
          by_cases ht : h.time_offset = -1 <;> simp [ht]
        · simp only [hc, if_false, not_false_eq_true, if_true]
          apply key
          simp

theorem intensity_sentinel_mapping_witness :
    parseHeader intensityFile = some (intensityLayout, intensityBody)
      ∧ intensityLayout.intensity_offset ≠ -1
      ∧ intensityLayout.colour_offset ≠ -1
      ∧ readPly plainColours intensityFile false 0x4059000000000000 10 = some intensityResult
      ∧ List.Forall₂
        (fun (call : Cloud) (rows : List (List Nat)) =>
          call.ends = rows.map (decodeEnd intensityLayout) ∧ call.colours.length = rows.length
            ∧ ∀ j v col, rows.get? j = some v → call.colours.get? j = some col →
                (eq64 (rawIntensity intensityLayout v) 0xBFF0000000000000 = true →
                    col = ⟨0, 0, 0, 0⟩)
                  ∧ (eq64 (rawIntensity intensityLayout v) 0xC000000000000000 = true
                      ∨ eq64 (rawIntensity intensityLayout v) 0xC008000000000000 = true →
                    col = ⟨255, 200, 255, 1⟩)
                  ∧ (ge64 (rawIntensity intensityLayout v) 0 = true →
                    2 ≤ col.alpha ∧ col.alpha ≤ 255))
        intensityResult.calls
        (if intensityResult.ok then
          deliveredRows intensityLayout false 10 (fileRows intensityLayout intensityBody)
        else []) :=
  ⟨by set_option maxRecDepth 1000000 in decide, by decide, by decide,
    by set_option maxRecDepth 1000000 in decide,
    intensity_sentinel_mapping plainColours intensityFile 0x4059000000000000 10 intensityLayout
      intensityBody intensityResult (by set_option maxRecDepth 1000000 in decide) (by decide)
      (Or.inl (by decide)) (by set_option maxRecDepth 1000000 in decide)⟩

/-- C8: on a file with a header, `readPly` returns failure without a call of
the callback when no header line is a position line (`property float x` or
`property double x`), and, for a ray cloud, when no header line is a normal
line (`property float nx` or `property double nx`); a header with the
mandatory lines passes the check, and the read then succeeds as soon as the
data section holds one complete row. -/
theorem readPly_mandatory_fields (colourByTime : ColourByTime) (lines : List (List Nat))
    (body : List Nat) (is_ray_cloud : Bool) (max_intensity : F64) (c : Nat)
    (hl : ∀ l ∈ lines, 10 ∉ l ∧ isEndHeader l = false) :
    (((∀ l ∈ lines, isPositionLine l = false)
          ∨ (is_ray_cloud = true ∧ ∀ l ∈ lines, isNormalLine l = false)) →
        readPly colourByTime (headerFile lines body) is_ray_cloud max_intensity c
          = some ⟨false, []⟩)
      ∧ (((∃ l ∈ lines, isPositionLine l = true)
          ∧ (is_ray_cloud = true → ∃ l ∈ lines, isNormalLine l = true)) →
        mandatoryFieldsPresent is_ray_cloud (layoutOf lines) = true
          ∧ (1 ≤ c → 1 ≤ (fileRows (layoutOf lines) body).length →
              ∃ calls, readPly colourByTime (headerFile lines body) is_ray_cloud max_intensity c
                = some ⟨true, calls⟩)) := by
  have hread := readPly_of_parse colourByTime (headerFile lines body) is_ray_cloud max_intensity
    c (layoutOf lines) body (parseHeader_headerFile lines body hl)
  constructor
  · intro hmiss
    have hm : mandatoryFieldsPresent is_ray_cloud (layoutOf lines) = false := by
      rcases hmiss with hp | ⟨hr, hn⟩
      · have := (offset_layoutOf lines).mpr hp
        simp [mandatoryFieldsPresent, this]
      · have := (normal_offset_layoutOf lines).mpr hn
        simp [mandatoryFieldsPresent, this, hr]
    rw [hread]; simp [hm]
  · rintro ⟨⟨lp, hlp, hpos⟩, hnorm⟩
    have ho : (layoutOf lines).offset ≠ -1 := by
      intro h0
      have := (offset_layoutOf lines).mp h0 lp hlp
      rw [hpos] at this; cases this
    have hm : mandatoryFieldsPresent is_ray_cloud (layoutOf lines) = true := by
      cases hr : is_ray_cloud with
      | false => simp [mandatoryFieldsPresent, ho]
      | true =>
        obtain ⟨ln, hln, hnl⟩ := hnorm hr
        have hno : (layoutOf lines).normal_offset ≠ -1 := by
          intro h0
          have := (normal_offset_layoutOf lines).mp h0 ln hln
          rw [hnl] at this; cases this
        simp [mandatoryFieldsPresent, ho, hno]
    refine ⟨hm, fun hc hrows => ?_⟩
    rw [hread]
    simp only [hm, Bool.true_eq_false, if_false, Nat.ne_of_gt hc, Nat.ne_of_gt hrows]
    exact ⟨_, rfl⟩

theorem readPly_mandatory_fields_witness :
    (∀ l ∈ rayHeaderLines, 10 ∉ l ∧ isEndHeader l = false)
      ∧ (∃ l ∈ rayHeaderLines, isPositionLine l = true)
      ∧ (∃ l ∈ rayHeaderLines, isNormalLine l = true)
      ∧ mandatoryFieldsPresent true (layoutOf rayHeaderLines) = true
      ∧ ∃ calls, readPly plainColours (headerFile rayHeaderLines (List.replicate 36 0)) true 0 10
          = some ⟨true, calls⟩ :=
  have hpos : ∃ l ∈ rayHeaderLines, isPositionLine l = true :=
    ⟨str "property float x", by decide, by decide⟩
  have hnorm : ∃ l ∈ rayHeaderLines, isNormalLine l = true :=
    ⟨str "property float nx", by decide, by decide⟩
  have hw := (readPly_mandatory_fields plainColours rayHeaderLines (List.replicate 36 0) true 0
    10 (by decide)).2 ⟨hpos, fun _ => hnorm⟩
  ⟨by decide, hpos, hnorm, hw.1,
    hw.2 (by decide) (by set_option maxRecDepth 100000 in decide)⟩

/-! ## Decimal rendering -/

theorem decimalAux_spec :
    ∀ (fuel n : Nat) (acc : List Nat), n < fuel →
      ∃ ds, decimalAux fuel n acc = ds ++ acc ∧ readDecimal ds = n
        ∧ (∀ k, n < 10 ^ (k + 1) → ds.length ≤ k + 1) ∧ ∀ d ∈ ds, 48 ≤ d ∧ d ≤ 57 := by
  intro fuel
  induction fuel with
  | zero => intro n acc h; omega
  | succ fuel ih =>
    intro n acc hn
    rw [decimalAux]
    by_cases h10 : n < 10
    · rw [if_pos h10]
      refine ⟨[48 + n], rfl, by simp [readDecimal], fun k _ => by simp, ?_⟩
      intro d hd
      simp only [List.mem_singleton] at hd
      omega
    · rw [if_neg h10]
      obtain ⟨ds, h1, h2, h3, h4⟩ := ih (n / 10) ((48 + n % 10) :: acc) (by omega)
      refine ⟨ds ++ [48 + n % 10], by rw [h1]; simp, ?_, ?_, ?_⟩
      · simp only [readDecimal, List.foldl_append, List.foldl_cons, List.foldl_nil] at h2 ⊢
        rw [h2]; omega
      · intro k hk
        cases k with
        | zero => omega
        | succ k =>
          have : n / 10 < 10 ^ (k + 1) := by
            apply Nat.div_lt_of_lt_mul
            rw [pow_succ] at hk; omega
          have := h3 k this
          simp only [List.length_append, List.length_singleton]; omega
      · intro d hd
        rcases List.mem_append.mp hd with h | h
        · exact h4 d h
        · simp only [List.mem_singleton] at h; omega

theorem decimal_spec (n : Nat) :
    readDecimal (decimal n) = n ∧ (∀ k, n < 10 ^ (k + 1) → (decimal n).length ≤ k + 1)
      ∧ ∀ d ∈ decimal n, 48 ≤ d ∧ d ≤ 57 := by
  obtain ⟨ds, h1, h2, h3, h4⟩ := decimalAux_spec (n + 1) n [] (by omega)
  rw [List.append_nil] at h1
  rw [decimal, h1]
  exact ⟨h2, h3, h4⟩

theorem readDecimal_zeros (k : Nat) (ds : List Nat) :
    readDecimal (List.replicate k 48 ++ ds) = readDecimal ds := by
  induction k with
  | zero => simp
  | succ k ih =>
    simp only [readDecimal, List.replicate_succ, List.cons_append, List.foldl_cons] at ih ⊢
    simpa using ih

/-! ## The output stream -/

theorem write_of_not_good (o : OFStream) (b : List Nat) (h : o.good = false) : o.write b = o := by
  simp [OFStream.write, h]

theorem flush_of_not_good (o : OFStream) (h : o.good = false) : o.flush = o := by
  simp [OFStream.flush, h]

theorem foldl_write_of_not_good (ps : List (List Nat)) :
    ∀ o : OFStream, o.good = false → ps.foldl OFStream.write o = o := by
  induction ps with
  | nil => intro o _; rfl
  | cons p ps ih => intro o h; rw [List.foldl_cons, write_of_not_good o p h]; exact ih o h

theorem image_at_end (o : OFStream) (b : List Nat) (hend : o.pos = o.data.length) :
    o.image b = o.data ++ b := by
  simp [OFStream.image, hend]

/-- A write at the end of a stream in good state on a device with room for it:
the bytes are appended, whether the buffer absorbs them or not. -/
theorem write_room (o : OFStream) (b : List Nat) (hg : o.good = true)
    (hend : o.pos = o.data.length) (hfit : o.data.length + b.length ≤ o.limit) :
    o.write b = ⟨o.data ++ b, o.pos + b.length, true, o.limit, o.buffers⟩ := by
  unfold OFStream.write
  rw [image_at_end o b hend]
  have h1 : ¬ o.limit < (o.data ++ b).length := by
    simp only [List.length_append]; omega
  cases o
  simp only at hg
  by_cases hb : ‹Nat → Nat → Bool› ‹Nat› b.length = true <;> simp_all

/-- A write at the end that the buffer passes on to a device without room for
it sets the error state. -/
theorem write_full (o : OFStream) (b : List Nat) (hg : o.good = true)
    (hend : o.pos = o.data.length) (hdirect : o.buffers o.pos b.length = false)
    (hfull : o.limit < o.data.length + b.length) : (o.write b).good = false := by
  unfold OFStream.write
  rw [image_at_end o b hend]
  have h1 : o.limit < (o.data ++ b).length := by
    simp only [List.length_append]; exact hfull
  simp only [hg, hdirect, Bool.not_true, Bool.false_eq_true, if_false, if_pos h1]

theorem flush_room (o : OFStream) (h : o.data.length ≤ o.limit) : o.flush = o := by
  unfold OFStream.flush
  have h1 : ¬ o.limit < o.data.length := by omega
  simp [h1]

/-- A run of writes and flushes at the end of a stream in good state on a
device with room for all of it: the bytes are appended in order. -/
theorem run_room (ops : List StreamOp) :
    ∀ o : OFStream, o.good = true → o.pos = o.data.length →
      o.data.length + (bytesOf ops).length ≤ o.limit →
      ops.foldl OFStream.step o
        = ⟨o.data ++ bytesOf ops, o.pos + (bytesOf ops).length, true, o.limit, o.buffers⟩ := by
  induction ops with
  | nil =>
    intro o hg _ _
    cases o
    simp only at hg
    simp [bytesOf, hg]
  | cons op ops ih =>
    intro o hg hend hfit
    cases op with
    | put b =>
      simp only [bytesOf, List.length_append] at hfit
      rw [List.foldl_cons, OFStream.step, write_room o b hg hend (by omega),
        ih _ rfl (by simp [hend]) (by simp only [List.length_append]; omega)]
      simp [bytesOf, Nat.add_assoc]
    | flush =>
      simp only [bytesOf] at hfit
      rw [List.foldl_cons, OFStream.step, flush_room o (by omega), ih o hg hend hfit]
      simp [bytesOf]

/-! ## `writeRayCloudChunkStart` -/

set_option maxRecDepth 100000 in
theorem start_eq_run (double_rays : Bool) (buffers : Nat → Nat → Bool) (limit : Nat)
    (g : Globals) :
    writeRayCloudChunkStart double_rays true buffers limit g
      = (true,
          { g with
            vertex_size_pos := toULong
              (((rayHeaderOps double_rays).take 29).foldl OFStream.step
                ⟨[], 0, true, limit, buffers⟩).tellp
            chunk_header_length := toULong
              ((rayHeaderOps double_rays).foldl OFStream.step
                ⟨[], 0, true, limit, buffers⟩).tellp },
          (rayHeaderOps double_rays).foldl OFStream.step ⟨[], 0, true, limit, buffers⟩) := by
  cases double_rays <;> rfl

set_option maxRecDepth 100000 in
theorem bytesOf_rayHeaderOps (double_rays : Bool) :
    bytesOf (rayHeaderOps double_rays) = (rayHeaderPieces double_rays).flatten := by
  cases double_rays <;> decide

set_option maxRecDepth 100000 in
theorem bytesOf_rayHeaderOps_take (double_rays : Bool) :
    bytesOf ((rayHeaderOps double_rays).take 29) = ((rayHeaderPieces double_rays).take 5).flatten := by
  cases double_rays <;> decide

set_option maxRecDepth 100000 in
theorem length_rayHeader (double_rays : Bool) :
    (rayHeaderPieces double_rays).flatten.length = rayHeaderLength double_rays := by
  cases double_rays <;> decide

theorem length_rayHeader_take (double_rays : Bool) :
    ((rayHeaderPieces double_rays).take 5).flatten.length = 113 := by
  cases double_rays <;> decide

theorem rayHeaderLength_ge (double_rays : Bool) : 113 ≤ rayHeaderLength double_rays := by
  cases double_rays <;> decide

/-- `writeRayCloudChunkStart` on a device with room for the header: the header
is in the file, the stream stands behind it, and the two positions are
recorded. -/
theorem start_of_room (double_rays : Bool) (buffers : Nat → Nat → Bool) (limit : Nat)
    (hroom : rayHeaderLength double_rays ≤ limit) (hlim : limit < 18446744073709551616) :
    writeRayCloudChunkStart double_rays true buffers limit Globals.init
      = (true, ⟨rayHeaderLength double_rays, 0, 113, 0⟩,
          ⟨(rayHeaderPieces double_rays).flatten, rayHeaderLength double_rays, true, limit,
            buffers⟩) := by
  rw [start_eq_run]
  have h1 := run_room (rayHeaderOps double_rays) ⟨[], 0, true, limit, buffers⟩ rfl rfl
    (by simp only [bytesOf_rayHeaderOps, length_rayHeader, List.length_nil, Nat.zero_add]
        exact hroom)
  have h2 := run_room ((rayHeaderOps double_rays).take 29) ⟨[], 0, true, limit, buffers⟩
    rfl rfl (by
      simp only [bytesOf_rayHeaderOps_take, length_rayHeader_take, List.length_nil, Nat.zero_add]
      exact le_trans (rayHeaderLength_ge double_rays) hroom)
  rw [h1, h2]
  simp only [bytesOf_rayHeaderOps, bytesOf_rayHeaderOps_take, length_rayHeader,
    length_rayHeader_take, Nat.zero_add, List.nil_append,
    OFStream.tellp, if_true, Globals.init, toULong]
  have hL : rayHeaderLength double_rays < 18446744073709551616 := by omega
  have e1 : ((rayHeaderLength double_rays : Int) % 18446744073709551616).toNat
      = rayHeaderLength double_rays := by omega
  have e2 : (((113 : Nat) : Int) % 18446744073709551616).toNat = 113 := by decide
  rw [e1, e2]

/-! ## `writeRayCloudChunk` -/

theorem length_rayPlyEntry (double_rays : Bool) (s e : Vector3d) (t : F64) (c : RGBA) :
    (rayPlyEntry double_rays s e t c).length = sizeofRayPlyEntry double_rays := by
  cases double_rays <;> simp [rayPlyEntry, positionBytes, le64, le32, rgbaBytes, sizeofRayPlyEntry]

theorem length_flatten_const {α β : Type} (f : α → List β) (k : Nat) :
    ∀ l : List α, (∀ x ∈ l, (f x).length = k) → (l.map f).flatten.length = l.length * k := by
  intro l
  induction l with
  | nil => intro _; simp
  | cons x xs ih =>
    intro h
    simp only [List.map_cons, List.flatten_cons, List.length_append, List.length_cons]
    rw [ih (fun y hy => h y (List.mem_cons_of_mem _ hy)), h x (List.mem_cons_self _ _)]
    ring

theorem length_rayPlyBuffer (double_rays : Bool) (c : Cloud) :
    (rayPlyBuffer double_rays c).length = c.ends.length * sizeofRayPlyEntry double_rays := by
  unfold rayPlyBuffer
  rw [length_flatten_const _ (sizeofRayPlyEntry double_rays)]
  · simp
  · intro i _
    exact length_rayPlyEntry _ _ _ _ _

theorem rayPlyBuffer_of_empty (double_rays : Bool) (c : Cloud) (h : c.ends.length = 0) :
    rayPlyBuffer double_rays c = [] := by
  simp [rayPlyBuffer, h]

/-- On a stream in error state only empty chunks are written with success. -/
theorem chunks_of_not_good (double_rays : Bool) (g : Globals) :
    ∀ (chunks : List Cloud) (out : OFStream), out.good = false →
      (∀ b ∈ (writeRayCloudChunks double_rays g out chunks).1, b = true) →
      ∀ c ∈ chunks, c.ends.length = 0 := by
  intro chunks
  induction chunks with
  | nil => intro out _ _ c hc; simp at hc
  | cons c cs ih =>
    intro out hg hok x hx
    have htell : out.tellp < (g.chunk_header_length : Int) := by
      simp only [OFStream.tellp, hg, Bool.false_eq_true, if_false]
      have : (0 : Int) ≤ (g.chunk_header_length : Int) := Int.ofNat_nonneg _
      omega
    by_cases hc : c.ends.length = 0
    · have hw : writeRayCloudChunk double_rays g out c = (true, out) := by
        simp [writeRayCloudChunk, hc]
      rcases List.mem_cons.mp hx with rfl | hx'
      · exact hc
      · apply ih out hg _ x hx'
        intro b hb
        apply hok
        simp only [writeRayCloudChunks, hw, List.mem_cons]
        exact Or.inr hb
    · exfalso
      have hw : (writeRayCloudChunk double_rays g out c).1 = false := by
        simp [writeRayCloudChunk, hc, htell]
      have := hok (writeRayCloudChunk double_rays g out c).1 (by simp [writeRayCloudChunks])
      rw [hw] at this
      cases this

/-- A sequence of chunk writes on a stream in good state that stands at its
end behind the header, on a device with room for all rows: every write
succeeds and the rows are appended in order. -/
theorem chunks_of_room (double_rays : Bool) (g : Globals) :
    ∀ (chunks : List Cloud) (out : OFStream), out.good = true → out.pos = out.data.length →
      g.chunk_header_length ≤ out.pos →
      out.data.length + (chunks.map (rayPlyBuffer double_rays)).flatten.length ≤ out.limit →
      (∀ b ∈ (writeRayCloudChunks double_rays g out chunks).1, b = true)
        ∧ (writeRayCloudChunks double_rays g out chunks).2
          = ⟨out.data ++ (chunks.map (rayPlyBuffer double_rays)).flatten,
              out.pos + (chunks.map (rayPlyBuffer double_rays)).flatten.length, true,
              out.limit, out.buffers⟩ := by
  intro chunks
  induction chunks with
  | nil =>
    intro out hg _ _ _
    refine ⟨fun b hb => by simp [writeRayCloudChunks] at hb, ?_⟩
    cases out
    simp only at hg
    simp [writeRayCloudChunks, hg]
  | cons c cs ih =>
    intro out hg hend hchl hroom
    simp only [List.map_cons, List.flatten_cons, List.length_append] at hroom
    by_cases hc : c.ends.length = 0
    · have hw : writeRayCloudChunk double_rays g out c = (true, out) := by
        simp [writeRayCloudChunk, hc]
      have he := rayPlyBuffer_of_empty double_rays c hc
      obtain ⟨ih1, ih2⟩ := ih out hg hend hchl (by omega)
      simp only [writeRayCloudChunks, hw, List.map_cons, List.flatten_cons, he, List.nil_append]
      refine ⟨fun b hb => ?_, ih2⟩
      rcases List.mem_cons.mp hb with rfl | hb
      · rfl
      · exact ih1 b hb
    · have htell : ¬ out.tellp < (g.chunk_header_length : Int) := by
        simp only [OFStream.tellp, hg, if_true]
        omega
      have hwr := write_room out (rayPlyBuffer double_rays c) hg hend (by omega)
      have hw : writeRayCloudChunk double_rays g out c
          = (true, ⟨out.data ++ rayPlyBuffer double_rays c,
              out.pos + (rayPlyBuffer double_rays c).length, true, out.limit, out.buffers⟩) := by
        simp [writeRayCloudChunk, hc, htell, hwr]
      obtain ⟨ih1, ih2⟩ := ih ⟨out.data ++ rayPlyBuffer double_rays c,
        out.pos + (rayPlyBuffer double_rays c).length, true, out.limit, out.buffers⟩ rfl
        (by simp [hend]) (by simp only; omega)
        (by simp only [List.length_append]; omega)
      simp only [writeRayCloudChunks, hw, List.map_cons, List.flatten_cons, List.length_append]
      simp only at ih2
      refine ⟨fun b hb => ?_, ?_⟩
      · rcases List.mem_cons.mp hb with rfl | hb
        · rfl
        · exact ih1 b hb
      · rw [ih2]; simp [Nat.add_assoc]

/-! ## `writeRayCloudChunkEnd` -/

theorem sizeofRayPlyEntry_pos (double_rays : Bool) : 36 ≤ sizeofRayPlyEntry double_rays := by
  cases double_rays <;> decide

theorem length_decimal_le (n : Nat) (h : n < 10000000000000000000) :
    (decimal n).length ≤ 19 :=
  (decimal_spec n).2.1 18 (by norm_num; exact h)

/-- `writeRayCloudChunkEnd` on a stream in good state that stands at its end,
`n` rows behind the header, on a device that holds the file: it returns `n` and
overwrites the last digits of the count field with the decimal rendering of
`n`. -/
theorem end_spec (double_rays : Bool) (g : Globals) (out : OFStream) (n : Nat)
    (hg : out.good = true) (hvsp : g.vertex_size_pos = 113)
    (hchl : 113 ≤ g.chunk_header_length)
    (hpos : out.pos = g.chunk_header_length + n * sizeofRayPlyEntry double_rays)
    (hend : out.pos = out.data.length) (hle : out.pos ≤ out.limit)
    (hlim : out.limit < 18446744073709551616) :
    writeRayCloudChunkEnd double_rays g out
        = (n, ⟨out.data.take (113 - (decimal n).length) ++ decimal n ++ out.data.drop 113, 113,
            true, out.limit, out.buffers⟩)
      ∧ (decimal n).length ≤ 19 := by
  have hrs := sizeofRayPlyEntry_pos double_rays
  have hn : n < 10000000000000000000 := by
    have : n * 36 ≤ n * sizeofRayPlyEntry double_rays := Nat.mul_le_mul_left n hrs
    omega
  have hlen := length_decimal_le n hn
  refine ⟨?_, hlen⟩
  have htell : toULong out.tellp = out.pos := by
    simp only [OFStream.tellp, hg, if_true, toULong]
    omega
  have hsize : (toULong out.tellp + 18446744073709551616 - g.chunk_header_length)
      % 18446744073709551616 = n * sizeofRayPlyEntry double_rays := by
    rw [htell, hpos]
    have : n * sizeofRayPlyEntry double_rays < 18446744073709551616 := by omega
    omega
  have hnum : n * sizeofRayPlyEntry double_rays / sizeofRayPlyEntry double_rays = n :=
    Nat.mul_div_cancel n (by omega)
  unfold writeRayCloudChunkEnd
  simp only [hsize, hnum, hvsp]
  have hflush : out.flush = out := flush_room out (by omega)
  have hseek : out.seekp (113 - (decimal n).length)
      = ⟨out.data, 113 - (decimal n).length, true, out.limit, out.buffers⟩ := by
    unfold OFStream.seekp
    rw [hflush]
    cases out
    simp only at hg
    simp [hg]
  rw [hseek]
  have h2 : 113 - (decimal n).length - out.data.length = 0 := by omega
  have h3 : 113 - (decimal n).length + (decimal n).length = 113 := by omega
  have himg : (OFStream.mk out.data (113 - (decimal n).length) true out.limit
      out.buffers).image (decimal n)
      = out.data.take (113 - (decimal n).length) ++ decimal n ++ out.data.drop 113 := by
    simp only [OFStream.image, h2, h3, List.replicate_zero, List.append_nil]
  have hfit : ¬ out.limit < (out.data.take (113 - (decimal n).length) ++ decimal n
      ++ out.data.drop 113).length := by
    simp only [List.length_append, List.length_take, List.length_drop]
    omega
  unfold OFStream.write
  rw [himg]
  simp only [Bool.not_true, Bool.false_eq_true, if_false, h3, if_neg hfit]
  split <;> rfl

/-- Overwriting the tail of a run of zeros. -/
theorem patch_zeros (A T s : List Nat) (z : Nat) (hs : s.length ≤ z) :
    (A ++ List.replicate z 48 ++ T).take (A.length + z - s.length) ++ s
        ++ (A ++ List.replicate z 48 ++ T).drop (A.length + z)
      = A ++ (List.replicate (z - s.length) 48 ++ s) ++ T := by
  have h1 : (A ++ List.replicate z 48 ++ T).take (A.length + z - s.length)
      = A ++ List.replicate (z - s.length) 48 := by
    rw [List.append_assoc, List.take_append_eq_append_take]
    have e1 : A.length + z - s.length - A.length = z - s.length := by omega
    rw [List.take_of_length_le (by omega), e1, List.take_append_eq_append_take]
    have e2 : z - s.length - (List.replicate z 48).length = 0 := by simp
    rw [e2, List.take_zero, List.append_nil, List.take_replicate]
    congr 2
    omega
  have h2 : (A ++ List.replicate z 48 ++ T).drop (A.length + z) = T := by
    have : A.length + z = (A ++ List.replicate z 48).length := by simp
    rw [this, List.drop_left]
  rw [h1, h2]
  simp

/-- The header bytes: 94 bytes up to the count field, the field, the rest. -/
theorem rayHeader_split (double_rays : Bool) :
    (rayHeaderPieces double_rays).flatten
      = ((rayHeaderPieces double_rays).take 4).flatten ++ List.replicate 19 48
        ++ ((rayHeaderPieces double_rays).drop 5).flatten := by
  cases double_rays <;> rfl

set_option maxRecDepth 100000 in
theorem length_rayHeader_head (double_rays : Bool) :
    ((rayHeaderPieces double_rays).take 4).flatten.length = 94 := by
  cases double_rays <;> decide

set_option maxRecDepth 100000 in
theorem length_rayHeader_tail (double_rays : Bool) :
    ((rayHeaderPieces double_rays).drop 5).flatten.length + 113 = rayHeaderLength double_rays := by
  cases double_rays <;> decide

theorem length_buffers (double_rays : Bool) (chunks : List Cloud) :
    (chunks.map (rayPlyBuffer double_rays)).flatten.length
      = totalRecords chunks * sizeofRayPlyEntry double_rays := by
  induction chunks with
  | nil => simp [totalRecords]
  | cons c cs ih =>
    simp only [totalRecords, List.map_cons, List.flatten_cons, List.length_append,
      List.sum_cons, length_rayPlyBuffer] at ih ⊢
    rw [ih]; ring

/-- The stream before and after `writeRayCloudChunkEnd`, for a run of
`writeRayCloudChunkStart` and chunk writes on a device with room for the whole
file. -/
theorem written_of_room (double_rays : Bool) (buffers : Nat → Nat → Bool) (limit : Nat)
    (chunks : List Cloud)
    (hlim : limit < 18446744073709551616)
    (hroom : rayHeaderLength double_rays
      + totalRecords chunks * sizeofRayPlyEntry double_rays ≤ limit) :
    (writeRayCloudChunks double_rays
        (writeRayCloudChunkStart double_rays true buffers limit Globals.init).2.1
        (writeRayCloudChunkStart double_rays true buffers limit Globals.init).2.2 chunks).2.data
        = ((rayHeaderPieces double_rays).take 4).flatten ++ List.replicate 19 48
          ++ (((rayHeaderPieces double_rays).drop 5).flatten
            ++ (chunks.map (rayPlyBuffer double_rays)).flatten)
      ∧ writeRayCloudChunkEnd double_rays
          (writeRayCloudChunkStart double_rays true buffers limit Globals.init).2.1
          (writeRayCloudChunks double_rays
            (writeRayCloudChunkStart double_rays true buffers limit Globals.init).2.1
            (writeRayCloudChunkStart double_rays true buffers limit Globals.init).2.2 chunks).2
        = (totalRecords chunks,
            ⟨((rayHeaderPieces double_rays).take 4).flatten
              ++ (List.replicate (19 - (decimal (totalRecords chunks)).length) 48
                ++ decimal (totalRecords chunks))
              ++ (((rayHeaderPieces double_rays).drop 5).flatten
                ++ (chunks.map (rayPlyBuffer double_rays)).flatten), 113, true, limit,
              buffers⟩)
      ∧ (decimal (totalRecords chunks)).length ≤ 19
      ∧ ∀ b ∈ (writeRayCloudChunks double_rays
          (writeRayCloudChunkStart double_rays true buffers limit Globals.init).2.1
          (writeRayCloudChunkStart double_rays true buffers limit Globals.init).2.2 chunks).1,
          b = true := by
  have hL := rayHeaderLength_ge double_rays
  rw [start_of_room double_rays buffers limit (by omega) hlim]
  simp only
  obtain ⟨hflags, hw⟩ := chunks_of_room double_rays ⟨rayHeaderLength double_rays, 0, 113, 0⟩
    chunks ⟨(rayHeaderPieces double_rays).flatten, rayHeaderLength double_rays, true, limit,
      buffers⟩ rfl (length_rayHeader double_rays).symm (by simp)
    (by simp only [length_buffers, length_rayHeader]; exact hroom)
  simp only at hw
  rw [hw]
  obtain ⟨he, hlen⟩ := end_spec double_rays ⟨rayHeaderLength double_rays, 0, 113, 0⟩
    ⟨(rayHeaderPieces double_rays).flatten ++ (chunks.map (rayPlyBuffer double_rays)).flatten,
      rayHeaderLength double_rays + (chunks.map (rayPlyBuffer double_rays)).flatten.length,
      true, limit, buffers⟩ (totalRecords chunks) rfl rfl hL (by simp only [length_buffers])
    (by simp only [List.length_append, length_rayHeader])
    (by simp only [length_buffers]; exact hroom) hlim
  rw [he]
  have hsplit : (rayHeaderPieces double_rays).flatten
        ++ (chunks.map (rayPlyBuffer double_rays)).flatten
      = ((rayHeaderPieces double_rays).take 4).flatten ++ List.replicate 19 48
        ++ (((rayHeaderPieces double_rays).drop 5).flatten
          ++ (chunks.map (rayPlyBuffer double_rays)).flatten) := by
    rw [rayHeader_split double_rays]; simp
  have hpatch := patch_zeros ((rayHeaderPieces double_rays).take 4).flatten
    (((rayHeaderPieces double_rays).drop 5).flatten
      ++ (chunks.map (rayPlyBuffer double_rays)).flatten) (decimal (totalRecords chunks)) 19 hlen
  rw [length_rayHeader_head] at hpatch
  have e113 : 94 + 19 = 113 := rfl
  rw [e113] at hpatch
  refine ⟨hsplit, ?_, hlen, hflags⟩
  simp only [hsplit, hpatch]

theorem three_parts (A F T : List Nat) (a f : Nat) (hA : A.length = a) (hF : F.length = f) :
    ((A ++ F ++ T).drop a).take f = F ∧ (A ++ F ++ T).take a = A
      ∧ (A ++ F ++ T).drop (a + f) = T := by
  subst hA hF
  refine ⟨?_, ?_, ?_⟩
  · rw [List.append_assoc, List.drop_left, List.take_left]
  · rw [List.append_assoc, List.take_left]
  · rw [← List.length_append, List.drop_left]

/-- C5 (amended): after `writeRayCloudChunkStart`, any sequence of
`writeRayCloudChunk` calls and `writeRayCloudChunkEnd` on a device with room
for the header and all the rows (whatever the stream buffers): every chunk
write returns success, the value returned by `writeRayCloudChunkEnd` and the
decimal number in the header's count field both equal the number of records
written, the stream is still good, and the file differs from the one before
the patch only inside the count field (bytes 94 to 112). -/
theorem header_count_patch (double_rays : Bool) (buffers : Nat → Nat → Bool) (limit : Nat)
    (chunks : List Cloud)
    (hlim : limit < 18446744073709551616)
    (hroom : rayHeaderLength double_rays
      + totalRecords chunks * sizeofRayPlyEntry double_rays ≤ limit) :
    (∀ b ∈ (writeRayCloudChunks double_rays
          (writeRayCloudChunkStart double_rays true buffers limit Globals.init).2.1
          (writeRayCloudChunkStart double_rays true buffers limit Globals.init).2.2 chunks).1,
          b = true)
      ∧ (writeRayCloudChunkEnd double_rays
        (writeRayCloudChunkStart double_rays true buffers limit Globals.init).2.1
        (writeRayCloudChunks double_rays
          (writeRayCloudChunkStart double_rays true buffers limit Globals.init).2.1
          (writeRayCloudChunkStart double_rays true buffers limit Globals.init).2.2 chunks).2).1
        = totalRecords chunks
      ∧ readDecimal (vertexCountField (writeRayCloudChunkEnd double_rays
          (writeRayCloudChunkStart double_rays true buffers limit Globals.init).2.1
          (writeRayCloudChunks double_rays
            (writeRayCloudChunkStart double_rays true buffers limit Globals.init).2.1
            (writeRayCloudChunkStart double_rays true buffers limit Globals.init).2.2
            chunks).2).2.data)
        = totalRecords chunks
      ∧ (writeRayCloudChunkEnd double_rays
          (writeRayCloudChunkStart double_rays true buffers limit Globals.init).2.1
          (writeRayCloudChunks double_rays
            (writeRayCloudChunkStart double_rays true buffers limit Globals.init).2.1
            (writeRayCloudChunkStart double_rays true buffers limit Globals.init).2.2
            chunks).2).2.good = true
      ∧ (writeRayCloudChunkEnd double_rays
          (writeRayCloudChunkStart double_rays true buffers limit Globals.init).2.1
          (writeRayCloudChunks double_rays
            (writeRayCloudChunkStart double_rays true buffers limit Globals.init).2.1
            (writeRayCloudChunkStart double_rays true buffers limit Globals.init).2.2
            chunks).2).2.data.take 94
        = (writeRayCloudChunks double_rays
            (writeRayCloudChunkStart double_rays true buffers limit Globals.init).2.1
            (writeRayCloudChunkStart double_rays true buffers limit Globals.init).2.2
            chunks).2.data.take 94
      ∧ (writeRayCloudChunkEnd double_rays
          (writeRayCloudChunkStart double_rays true buffers limit Globals.init).2.1
          (writeRayCloudChunks double_rays
            (writeRayCloudChunkStart double_rays true buffers limit Globals.init).2.1
            (writeRayCloudChunkStart double_rays true buffers limit Globals.init).2.2
            chunks).2).2.data.drop 113
        = (writeRayCloudChunks double_rays
            (writeRayCloudChunkStart double_rays true buffers limit Globals.init).2.1
            (writeRayCloudChunkStart double_rays true buffers limit Globals.init).2.2
            chunks).2.data.drop 113 := by
  obtain ⟨hw, he, hlen, hflags⟩ := written_of_room double_rays buffers limit chunks hlim hroom
  refine ⟨hflags, ?_⟩
  rw [he, hw]
  have hA := length_rayHeader_head double_rays
  generalize ((rayHeaderPieces double_rays).take 4).flatten = A at hA ⊢
  generalize ((rayHeaderPieces double_rays).drop 5).flatten
    ++ (chunks.map (rayPlyBuffer double_rays)).flatten = T
  have hF : (List.replicate (19 - (decimal (totalRecords chunks)).length) 48
      ++ decimal (totalRecords chunks)).length = 19 := by
    simp only [List.length_append, List.length_replicate]; omega
  have hZ : (List.replicate 19 48).length = 19 := List.length_replicate _ _
  have hd := (decimal_spec (totalRecords chunks)).1
  rw [← readDecimal_zeros (19 - (decimal (totalRecords chunks)).length)] at hd
  generalize List.replicate (19 - (decimal (totalRecords chunks)).length) 48
    ++ decimal (totalRecords chunks) = F at hF hd ⊢
  obtain ⟨f1, f2, f3⟩ := three_parts A F T 94 19 hA hF
  obtain ⟨_, z2, z3⟩ := three_parts A (List.replicate 19 48) T 94 19 hA hZ
  refine ⟨rfl, ?_, rfl, ?_, ?_⟩
  · simp only [vertexCountField, num_zeros]
    rw [f1]
    exact hd
  · simp only
    rw [f2, z2]
  · simp only
    rw [f3, z3]

set_option maxRecDepth 1000000 in
theorem header_count_patch_witness :
    (1000000 < 18446744073709551616)
      ∧ rayHeaderLength false + totalRecords patchChunks * sizeofRayPlyEntry false ≤ 1000000
      ∧ (writeRayCloudChunkEnd false
          (writeRayCloudChunkStart false true absorbsSmall 1000000 Globals.init).2.1
          (writeRayCloudChunks false
            (writeRayCloudChunkStart false true absorbsSmall 1000000 Globals.init).2.1
            (writeRayCloudChunkStart false true absorbsSmall 1000000 Globals.init).2.2
            patchChunks).2).1 = 5
      ∧ readDecimal (vertexCountField (writeRayCloudChunkEnd false
          (writeRayCloudChunkStart false true absorbsSmall 1000000 Globals.init).2.1
          (writeRayCloudChunks false
            (writeRayCloudChunkStart false true absorbsSmall 1000000 Globals.init).2.1
            (writeRayCloudChunkStart false true absorbsSmall 1000000 Globals.init).2.2
            patchChunks).2).2.data)
        = 5 :=
  have h := header_count_patch false absorbsSmall 1000000 patchChunks (by decide) (by decide)
  ⟨by decide, by decide, h.2.1, h.2.2.1⟩

set_option maxRecDepth 1000000 in
/-- C5 (as stated): two chunks of one ray each written through a stream buffer
that absorbs small writes, on a device that takes 340 bytes (the 332 bytes of
the header and 8 more).  Both calls of `writeRayCloudChunk` return success, as
the rows go to the buffer; `writeRayCloudChunkEnd` returns 2, but its `seekp`
cannot empty the buffer, the stream fails, and the count field of the 340-byte
file still reads 0. -/
theorem header_count_not_patched :
    (writeRayCloudChunks false
        (writeRayCloudChunkStart false true absorbsSmall 340 Globals.init).2.1
        (writeRayCloudChunkStart false true absorbsSmall 340 Globals.init).2.2
        [tenthRay, tenthRay]).1 = [true, true]
      ∧ (writeRayCloudChunkEnd false
          (writeRayCloudChunkStart false true absorbsSmall 340 Globals.init).2.1
          (writeRayCloudChunks false
            (writeRayCloudChunkStart false true absorbsSmall 340 Globals.init).2.1
            (writeRayCloudChunkStart false true absorbsSmall 340 Globals.init).2.2
            [tenthRay, tenthRay]).2).1 = 2
      ∧ (writeRayCloudChunkEnd false
          (writeRayCloudChunkStart false true absorbsSmall 340 Globals.init).2.1
          (writeRayCloudChunks false
            (writeRayCloudChunkStart false true absorbsSmall 340 Globals.init).2.1
            (writeRayCloudChunkStart false true absorbsSmall 340 Globals.init).2.2
            [tenthRay, tenthRay]).2).2.good = false
      ∧ (writeRayCloudFile false absorbsSmall 340 [tenthRay, tenthRay]).2.length = 340
      ∧ readDecimal (vertexCountField
          (writeRayCloudFile false absorbsSmall 340 [tenthRay, tenthRay]).2) = 0 := by
  decide

/-! ## Row codec -/

theorem sign_field_lt (sgn b : Nat) (hs : sgn ≤ 2147483648) (hb : b ≤ 2139095040) :
    sgn + b < 4294967296 := by omega

theorem f64ToF32_lt (x : F64) : f64ToF32 x < 4294967296 := by
  unfold f64ToF32
  cases decode binary64 x with
  | nan => decide
  | inf s => cases s <;> decide
  | fin s m =>
    simp only [encode, signBit32, infBits32]
    exact sign_field_lt _ _ (by cases s <;> simp) (Nat.min_le_right _ _)

theorem getLE32_le32 (x : Nat) (rest : List Nat) (hx : x < 4294967296) :
    getLE32 (le32 x ++ rest) 0 = x := by
  simp [getLE32, byteAt, le32]
  omega

theorem getLE64_le64 (x : Nat) (rest : List Nat) (hx : x < 18446744073709551616) :
    getLE64 (le64 x ++ rest) 0 = x := by
  simp [getLE64, getLE32, byteAt, le64, le32]
  omega

theorem byteAt_append_right (a b : List Nat) (i : Nat) :
    byteAt (a ++ b) (a.length + i) = byteAt b i := by
  simp [byteAt, List.getElem?_append_right]

theorem getLE32_append_right (a b : List Nat) (i : Nat) :
    getLE32 (a ++ b) (a.length + i) = getLE32 b i := by
  simp only [getLE32, Nat.add_assoc, byteAt_append_right]

theorem getLE64_append_right (a b : List Nat) (i : Nat) :
    getLE64 (a ++ b) (a.length + i) = getLE64 b i := by
  simp only [getLE64, Nat.add_assoc, getLE32_append_right]

theorem le32_sum (x : Nat) (hx : x < 4294967296) :
    x % 256 + 256 * (x / 256 % 256) + 65536 * (x / 65536 % 256)
      + 16777216 * (x / 16777216 % 256) = x := by omega

theorem le64_sum (x : Nat) (hx : x < 18446744073709551616) :
    x % 4294967296 % 256 + 256 * (x % 4294967296 / 256 % 256)
        + 65536 * (x % 4294967296 / 65536 % 256) + 16777216 * (x % 4294967296 / 16777216 % 256)
        + 4294967296 * (x / 4294967296 % 256 + 256 * (x / 4294967296 / 256 % 256)
          + 65536 * (x / 4294967296 / 65536 % 256)
          + 16777216 * (x / 4294967296 / 16777216 % 256)) = x := by omega

/-- What the reader decodes from a row the writer produced, without
`RAYLIB_DOUBLE_RAYS`. -/
theorem decode_entry_float (s e : Vector3d) (t : F64) (col : RGBA)
    (ht : t < 18446744073709551616) (hc : col.inRange = true) :
    decodeEnd (rayCloudLayout false) (rayPlyEntry false s e t col) = e.viaFloat
      ∧ decodeNormal (rayCloudLayout false) true (rayPlyEntry false s e t col)
        = (s.sub e).viaFloat
      ∧ decodeTime (rayCloudLayout false) (rayPlyEntry false s e t col) = t
      ∧ rgbaAt (rayPlyEntry false s e t col) (rayCloudLayout false).colour_offset.toNat = col := by
  have h1 := le32_sum _ (f64ToF32_lt e.x)
  have h2 := le32_sum _ (f64ToF32_lt e.y)
  have h3 := le32_sum _ (f64ToF32_lt e.z)
  have h4 := le32_sum _ (f64ToF32_lt (s.sub e).x)
  have h5 := le32_sum _ (f64ToF32_lt (s.sub e).y)
  have h6 := le32_sum _ (f64ToF32_lt (s.sub e).z)
  have h7 := le64_sum t ht
  simp only [RGBA.inRange, Bool.and_eq_true, decide_eq_true_eq] at hc
  obtain ⟨⟨⟨c1, c2⟩, c3⟩, c4⟩ := hc
  refine ⟨?_, ?_, ?_, ?_⟩
  · simp [decodeEnd, rayCloudLayout, vector3fAt, getLE32, byteAt, rayPlyEntry, positionBytes,
      le32, Vector3d.viaFloat, h1, h2, h3]
  · simp [decodeNormal, rayCloudLayout, vector3fAt, getLE32, byteAt, rayPlyEntry, positionBytes,
      le32, le64, Vector3d.viaFloat, h4, h5, h6]
  · simp [decodeTime, rayCloudLayout, getLE64, getLE32, byteAt, rayPlyEntry, positionBytes,
      le32, le64, h7]
  · cases col
    simp only at c1 c2 c3 c4
    simp [rgbaAt, rayCloudLayout, byteAt, rayPlyEntry, positionBytes, le32, le64, rgbaBytes,
      Nat.mod_eq_of_lt, c1, c2, c3, c4]

/-- What the reader decodes from a row the writer produced, with
`RAYLIB_DOUBLE_RAYS`. -/
theorem decode_entry_double (s e : Vector3d) (t : F64) (col : RGBA)
    (hx : e.x < 18446744073709551616) (hy : e.y < 18446744073709551616)
    (hz : e.z < 18446744073709551616)
    (ht : t < 18446744073709551616) (hc : col.inRange = true) :
    decodeEnd (rayCloudLayout true) (rayPlyEntry true s e t col) = e
      ∧ decodeNormal (rayCloudLayout true) true (rayPlyEntry true s e t col)
        = (s.sub e).viaFloat
      ∧ decodeTime (rayCloudLayout true) (rayPlyEntry true s e t col) = t
      ∧ rgbaAt (rayPlyEntry true s e t col) (rayCloudLayout true).colour_offset.toNat = col := by
  have h1 := le64_sum _ hx
  have h2 := le64_sum _ hy
  have h3 := le64_sum _ hz
  have h4 := le32_sum _ (f64ToF32_lt (s.sub e).x)
  have h5 := le32_sum _ (f64ToF32_lt (s.sub e).y)
  have h6 := le32_sum _ (f64ToF32_lt (s.sub e).z)
  have h7 := le64_sum t ht
  simp only [RGBA.inRange, Bool.and_eq_true, decide_eq_true_eq] at hc
  obtain ⟨⟨⟨c1, c2⟩, c3⟩, c4⟩ := hc
  refine ⟨?_, ?_, ?_, ?_⟩
  · simp [decodeEnd, rayCloudLayout, vector3dAt, getLE64, getLE32, byteAt, rayPlyEntry,
      positionBytes, le32, le64, h1, h2, h3]
  · simp [decodeNormal, rayCloudLayout, vector3fAt, getLE32, byteAt, rayPlyEntry, positionBytes,
      le32, le64, Vector3d.viaFloat, h4, h5, h6]
  · simp [decodeTime, rayCloudLayout, getLE64, getLE32, byteAt, rayPlyEntry, positionBytes,
      le32, le64, h7]
  · cases col
    simp only at c1 c2 c3 c4
    simp [rgbaAt, rayCloudLayout, byteAt, rayPlyEntry, positionBytes, le32, le64, rgbaBytes,
      Nat.mod_eq_of_lt, c1, c2, c3, c4]

theorem containsBytes_of_not_mem (pat : List Nat) (c : Nat) (hc : c ∈ pat) :
    ∀ line : List Nat, c ∉ line → containsBytes line pat = false := by
  intro line
  induction line with
  | nil =>
    intro _
    cases pat with
    | nil => simp at hc
    | cons a as => rfl
  | cons a as ih =>
    intro hn
    have h1 : pat.isPrefixOf (a :: as) = false := by
      cases h : pat.isPrefixOf (a :: as) with
      | false => rfl
      | true => exact absurd ((List.isPrefixOf_iff_prefix.mp h).subset hc) hn
    have h2 := ih (fun h => hn (List.mem_cons_of_mem _ h))
    simp [containsBytes, h1, h2]

/-- The `element vertex` line of a written file moves no offset and adds no
bytes to the row. -/
theorem scanLine_element (h : Layout) (F : List Nat) (hF : ∀ d ∈ F, 48 ≤ d ∧ d ≤ 57) :
    scanLine h (str "element vertex " ++ F) = h := by
  have hp : (112 : Nat) ∉ str "element vertex " ++ F := by
    intro hm
    rcases List.mem_append.mp hm with h1 | h1
    · revert h1; decide
    · have := hF _ h1; omega
  have hi : (105 : Nat) ∉ str "element vertex " ++ F := by
    intro hm
    rcases List.mem_append.mp hm with h1 | h1
    · revert h1; decide
    · have := hF _ h1; omega
  have hf : (102 : Nat) ∉ str "element vertex " ++ F := by
    intro hm
    rcases List.mem_append.mp hm with h1 | h1
    · revert h1; decide
    · have := hF _ h1; omega
  have f1 : found (str "element vertex " ++ F) "property float" = false :=
    containsBytes_of_not_mem _ 112 (by decide) _ hp
  have f2 : found (str "element vertex " ++ F) "property double" = false :=
    containsBytes_of_not_mem _ 112 (by decide) _ hp
  have f3 : found (str "element vertex " ++ F) "property uchar" = false :=
    containsBytes_of_not_mem _ 112 (by decide) _ hp
  have f4 : found (str "element vertex " ++ F) "property ushort" = false :=
    containsBytes_of_not_mem _ 112 (by decide) _ hp
  have f5 : found (str "element vertex " ++ F) "property float x" = false :=
    containsBytes_of_not_mem _ 112 (by decide) _ hp
  have f6 : found (str "element vertex " ++ F) "property double x" = false :=
    containsBytes_of_not_mem _ 112 (by decide) _ hp
  have f7 : found (str "element vertex " ++ F) "property float nx" = false :=
    containsBytes_of_not_mem _ 112 (by decide) _ hp
  have f8 : found (str "element vertex " ++ F) "property double nx" = false :=
    containsBytes_of_not_mem _ 112 (by decide) _ hp
  have f9 : found (str "element vertex " ++ F) "time" = false :=
    containsBytes_of_not_mem _ 105 (by decide) _ hi
  have f10 : found (str "element vertex " ++ F) "intensity" = false :=
    containsBytes_of_not_mem _ 105 (by decide) _ hi
  have f11 : found (str "element vertex " ++ F) "property uchar red" = false :=
    containsBytes_of_not_mem _ 112 (by decide) _ hp
  simp [scanLine, lineDataType, isPositionLine, isNormalLine, f1, f2, f3, f4, f5, f6, f7, f8, f9,
    f10, f11, rowsteps]

set_option maxRecDepth 1000000 in
/-- The layout the reader derives from the header the writer produces. -/
theorem layoutOf_rayFileLines (double_rays : Bool) (F : List Nat)
    (hF : ∀ d ∈ F, 48 ≤ d ∧ d ≤ 57) :
    layoutOf (rayFileLines double_rays F) = rayCloudLayout double_rays := by
  cases double_rays
  · simp only [layoutOf, rayFileLines, List.cons_append, List.nil_append, List.foldl_cons,
      List.foldl_nil, Bool.false_eq_true, if_false]
    rw [scanLine_element _ F hF]
    decide
  · simp only [layoutOf, rayFileLines, List.cons_append, List.nil_append, List.foldl_cons,
      List.foldl_nil, if_true]
    rw [scanLine_element _ F hF]
    decide

set_option maxRecDepth 1000000 in
theorem rayFileLines_ok (double_rays : Bool) (F : List Nat) (hF : ∀ d ∈ F, 48 ≤ d ∧ d ≤ 57) :
    ∀ l ∈ rayFileLines double_rays F, 10 ∉ l ∧ isEndHeader l = false := by
  have he : 10 ∉ str "element vertex " ++ F ∧ isEndHeader (str "element vertex " ++ F) = false := by
    constructor
    · intro hm
      rcases List.mem_append.mp hm with h1 | h1
      · revert h1; decide
      · have := hF _ h1; omega
    · have h1 : str "element vertex " ++ F ≠ str "end_header\r" := by
        intro h
        have := congrArg (fun l => l.getD 1 0) h
        simp [str] at this
      have h2 : str "element vertex " ++ F ≠ str "end_header" := by
        intro h
        have := congrArg (fun l => l.getD 1 0) h
        simp [str] at this
      simp [isEndHeader, h1, h2]
  intro l hl
  cases double_rays
  · simp only [rayFileLines, List.cons_append, List.nil_append, Bool.false_eq_true, if_false,
      List.mem_cons, List.mem_singleton, List.not_mem_nil, or_false] at hl
    rcases hl with h | h | h | h | h | h | h | h | h | h | h | h | h | h | h
    all_goals first
      | (rw [h]; exact he)
      | (rw [h]; decide)
  · simp only [rayFileLines, List.cons_append, List.nil_append, if_true,
      List.mem_cons, List.mem_singleton, List.not_mem_nil, or_false] at hl
    rcases hl with h | h | h | h | h | h | h | h | h | h | h | h | h | h | h
    all_goals first
      | (rw [h]; exact he)
      | (rw [h]; decide)

theorem written_eq_headerFile (double_rays : Bool) (F B : List Nat) :
    ((rayHeaderPieces double_rays).take 4).flatten ++ F
        ++ (((rayHeaderPieces double_rays).drop 5).flatten ++ B)
      = headerFile (rayFileLines double_rays F) B := by
  cases double_rays <;>
    simp [rayHeaderPieces, rayFileLines, headerFile, textLine, positionLines]

theorem splitRows_flatten (rs : Nat) :
    ∀ (rows : List (List Nat)) (rest : List Nat), (∀ r ∈ rows, r.length = rs) →
      splitRows rs rows.length (rows.flatten ++ rest) = rows := by
  intro rows
  induction rows with
  | nil => intro _ _; rfl
  | cons r rows ih =>
    intro rest h
    have hr := h r (List.mem_cons_self _ _)
    simp only [List.length_cons, splitRows, List.flatten_cons, List.append_assoc]
    rw [List.take_left' hr, List.drop_left' hr, ih rest (fun x hx => h x (List.mem_cons_of_mem _ hx))]

theorem length_flatten_rows (rs : Nat) :
    ∀ (rows : List (List Nat)), (∀ r ∈ rows, r.length = rs) →
      rows.flatten.length = rows.length * rs := by
  intro rows
  induction rows with
  | nil => intro _; simp
  | cons r rows ih =>
    intro h
    simp only [List.flatten_cons, List.length_append, List.length_cons,
      h r (List.mem_cons_self _ _), ih (fun x hx => h x (List.mem_cons_of_mem _ hx))]
    ring

theorem fileRows_flatten (h : Layout) (rows : List (List Nat)) (hpos : 0 < h.row_size)
    (hr : ∀ r ∈ rows, r.length = h.row_size) : fileRows h rows.flatten = rows := by
  have h1 := length_flatten_rows h.row_size rows hr
  have h2 := splitRows_flatten h.row_size rows [] hr
  rw [List.append_nil] at h2
  rw [fileRows, h1, Nat.mul_div_cancel _ hpos, h2]

theorem rayPlyBuffer_eq (double_rays : Bool) (c : Cloud) :
    rayPlyBuffer double_rays c = (c.records.map (recordEntry double_rays)).flatten := by
  simp [rayPlyBuffer, Cloud.records, recordEntry, Cloud.row, Function.comp_def]

theorem buffers_eq (double_rays : Bool) (chunks : List Cloud) :
    (chunks.map (rayPlyBuffer double_rays)).flatten
      = ((recordsOf chunks).map (recordEntry double_rays)).flatten := by
  induction chunks with
  | nil => rfl
  | cons c cs ih =>
    simp only [List.map_cons, List.flatten_cons, recordsOf, List.map_append,
      List.flatten_append, rayPlyBuffer_eq] at ih ⊢
    rw [ih]

theorem length_recordsOf (chunks : List Cloud) :
    (recordsOf chunks).length = totalRecords chunks := by
  induction chunks with
  | nil => rfl
  | cons c cs ih =>
    simp only [recordsOf, totalRecords, List.map_cons, List.flatten_cons, List.length_append,
      List.sum_cons] at ih ⊢
    rw [ih]; simp [Cloud.records]

theorem all_getD {α : Type} (p : α → Bool) (d : α) :
    ∀ (l : List α) (i : Nat), l.all p = true → i < l.length → p (l.getD i d) = true := by
  intro l
  induction l with
  | nil => intro i _ hi; simp at hi
  | cons a as ih =>
    intro i h hi
    simp only [List.all_cons, Bool.and_eq_true] at h
    cases i with
    | zero => simpa using h.1
    | succ i =>
      simp only [List.getD_cons_succ]
      exact ih i h.2 (by simpa using hi)

/-- Every record of a chunk fit for the writer has finite start and end, a
64-bit time and a colour of four bytes. -/
theorem record_valid (c : Cloud) (hv : c.valid = true) (r : Record) (hr : r ∈ c.records) :
    r.1.finite = true ∧ r.2.1.finite = true ∧ r.2.2.1 < 18446744073709551616
      ∧ r.2.2.2.inRange = true := by
  simp only [Cloud.valid, Bool.and_eq_true, decide_eq_true_eq] at hv
  obtain ⟨⟨⟨⟨⟨⟨l1, l2⟩, l3⟩, a1⟩, a2⟩, a3⟩, a4⟩ := hv
  simp only [Cloud.records, List.mem_map, List.mem_range] at hr
  obtain ⟨i, hi, rfl⟩ := hr
  refine ⟨all_getD _ _ _ i a1 (by omega), all_getD _ _ _ i a2 hi, ?_,
    all_getD _ _ _ i a4 (by omega)⟩
  have := all_getD (fun t => decide (t < 18446744073709551616)) 0 _ i a3 (by omega)
  simpa [Cloud.row] using this

theorem recordsOf_valid (chunks : List Cloud) (hv : ∀ c ∈ chunks, c.valid = true) (r : Record)
    (hr : r ∈ recordsOf chunks) :
    r.1.finite = true ∧ r.2.1.finite = true ∧ r.2.2.1 < 18446744073709551616
      ∧ r.2.2.2.inRange = true := by
  simp only [recordsOf, List.mem_flatten, List.mem_map] at hr
  obtain ⟨l, ⟨c, hc, rfl⟩, hl⟩ := hr
  exact record_valid c (hv c hc) r hl

theorem finite_coords (p : Vector3d) (h : p.finite = true) :
    isFinite64 p.x = true ∧ isFinite64 p.y = true ∧ isFinite64 p.z = true
      ∧ p.x < 18446744073709551616 ∧ p.y < 18446744073709551616
      ∧ p.z < 18446744073709551616 := by
  simp only [Vector3d.finite, Bool.and_eq_true, decide_eq_true_eq] at h
  obtain ⟨⟨⟨⟨⟨h1, h2⟩, h3⟩, h4⟩, h5⟩, h6⟩ := h
  exact ⟨h1, h2, h3, h4, h5, h6⟩

/-- What the reader decodes from the row the writer produces for a record. -/
theorem decode_recordEntry (double_rays : Bool) (r : Record)
    (he : r.2.1.finite = true) (ht : r.2.2.1 < 18446744073709551616)
    (hc : r.2.2.2.inRange = true) :
    decodeEnd (rayCloudLayout double_rays) (recordEntry double_rays r)
        = storedPosition double_rays r.2.1
      ∧ decodeNormal (rayCloudLayout double_rays) true (recordEntry double_rays r)
        = (r.1.sub r.2.1).viaFloat
      ∧ decodeTime (rayCloudLayout double_rays) (recordEntry double_rays r) = r.2.2.1
      ∧ rgbaAt (recordEntry double_rays r) (rayCloudLayout double_rays).colour_offset.toNat
        = r.2.2.2 := by
  obtain ⟨_, _, _, hx, hy, hz⟩ := finite_coords _ he
  cases double_rays
  · exact decode_entry_float r.1 r.2.1 r.2.2.1 r.2.2.2 ht hc
  · exact decode_entry_double r.1 r.2.1 r.2.2.1 r.2.2.2 hx hy hz ht hc

theorem viaFloat_eq_self (p : Vector3d) (hx : isNaN64 p.x = false) (hy : isNaN64 p.y = false)
    (hz : isNaN64 p.z = false) : p.viaFloat.eq p.viaFloat = true := by
  simp [Vector3d.eq, Vector3d.viaFloat, eq64_self, widen_narrow_ne_nan, hx, hy, hz]

/-- The row the writer produces for a record with finite start and end passes
both NaN tests of the reader. -/
theorem rowValid_recordEntry (double_rays : Bool) (r : Record)
    (hs : r.1.finite = true) (he : r.2.1.finite = true) (ht : r.2.2.1 < 18446744073709551616)
    (hc : r.2.2.2.inRange = true) :
    rowValid (rayCloudLayout double_rays) true (recordEntry double_rays r) = true := by
  obtain ⟨d1, d2, _, _⟩ := decode_recordEntry double_rays r he ht hc
  obtain ⟨e1, e2, e3, _, _, _⟩ := finite_coords _ he
  obtain ⟨s1, s2, s3, _, _, _⟩ := finite_coords _ hs
  have hn : (r.1.sub r.2.1).viaFloat.eq (r.1.sub r.2.1).viaFloat = true :=
    viaFloat_eq_self _ (sub64_ne_nan _ _ s1 e1) (sub64_ne_nan _ _ s2 e2) (sub64_ne_nan _ _ s3 e3)
  have hend : (storedPosition double_rays r.2.1).eq (storedPosition double_rays r.2.1) = true := by
    cases double_rays
    · exact viaFloat_eq_self _ (isNaN64_of_isFinite64 _ e1) (isNaN64_of_isFinite64 _ e2)
        (isNaN64_of_isFinite64 _ e3)
    · simp [storedPosition, Vector3d.eq, eq64_self, isNaN64_of_isFinite64, e1, e2, e3]
  simp [rowValid, d1, d2, hn, hend]

/-- The columns the reader decodes from the rows of a list of records. -/
theorem decodeRows_entries (double_rays : Bool) (max_intensity : F64) (rs : List Record)
    (hv : ∀ r ∈ rs, r.1.finite = true ∧ r.2.1.finite = true ∧ r.2.2.1 < 18446744073709551616
      ∧ r.2.2.2.inRange = true) :
    decodeRows (rayCloudLayout double_rays) true max_intensity
        (rs.map (recordEntry double_rays))
      = cloudOf (rs.map (storedRecord double_rays)) := by
  simp only [decodeRows, cloudOf, List.map_map, Cloud.mk.injEq]
  refine ⟨?_, ?_, ?_, ?_⟩ <;> apply List.map_congr_left <;> intro r hr
  all_goals obtain ⟨_, h2, h3, h4⟩ := hv r hr
  all_goals obtain ⟨d1, d2, d3, d4⟩ := decode_recordEntry double_rays r h2 h3 h4
  · simp [storedRecord, d1, d2]
  · simp [storedRecord, d1]
  · simp [storedRecord, d3]
  · simp [storedRecord, rowColour, d4]

/-! ## Round trip through writer and reader -/

/-- The count field of a finished file holds decimal digits only. -/
theorem count_field_digits (n : Nat) :
    ∀ d ∈ List.replicate (19 - (decimal n).length) 48 ++ decimal n, 48 ≤ d ∧ d ≤ 57 := by
  intro d hd
  rcases List.mem_append.mp hd with h | h
  · rw [List.eq_of_mem_replicate h]; omega
  · exact (decimal_spec n).2.2 d h

/-- The file `writeRayCloudFile` leaves on a device with room for it: the
header with the patched count, then one row per record. -/
theorem writeRayCloudFile_of_room (double_rays : Bool) (buffers : Nat → Nat → Bool)
    (limit : Nat) (chunks : List Cloud)
    (hlim : limit < 18446744073709551616)
    (hroom : rayHeaderLength double_rays
      + totalRecords chunks * sizeofRayPlyEntry double_rays ≤ limit) :
    writeRayCloudFile double_rays buffers limit chunks
      = (totalRecords chunks,
          headerFile (rayFileLines double_rays
              (List.replicate (19 - (decimal (totalRecords chunks)).length) 48
                ++ decimal (totalRecords chunks)))
            ((recordsOf chunks).map (recordEntry double_rays)).flatten) := by
  obtain ⟨_, h2, hlen, _⟩ := written_of_room double_rays buffers limit chunks hlim hroom
  simp only [writeRayCloudFile]
  rw [h2]
  simp only
  rw [flush_room _ (by
    simp only [List.length_append, List.length_replicate, length_rayHeader_head,
      length_buffers]
    have := length_rayHeader_tail double_rays
    omega)]
  simp only [Prod.mk.injEq, true_and]
  rw [written_eq_headerFile, buffers_eq]

/-- What `readPly` makes of a file written by `writeRayCloudChunkStart`, chunk
writes and `writeRayCloudChunkEnd` on a device with room for it. -/
theorem read_written (double_rays : Bool) (buffers : Nat → Nat → Bool) (limit : Nat)
    (chunks : List Cloud) (colourByTime : ColourByTime) (max_intensity : F64) (chunk_size : Nat)
    (hlim : limit < 18446744073709551616)
    (hroom : rayHeaderLength double_rays
      + totalRecords chunks * sizeofRayPlyEntry double_rays ≤ limit)
    (hne : 1 ≤ totalRecords chunks)
    (hv : ∀ c ∈ chunks, c.valid = true)
    (hc : 1 ≤ chunk_size) :
    (writeRayCloudFile double_rays buffers limit chunks).1 = totalRecords chunks
      ∧ ∃ calls,
        readPly colourByTime (writeRayCloudFile double_rays buffers limit chunks).2 true
            max_intensity chunk_size = some ⟨true, calls⟩
          ∧ concatClouds calls = cloudOf ((recordsOf chunks).map (storedRecord double_rays))
          ∧ calls.length = (totalRecords chunks + chunk_size - 1) / chunk_size := by
  rw [writeRayCloudFile_of_room double_rays buffers limit chunks hlim hroom]
  refine ⟨rfl, ?_⟩
  simp only
  have hF := count_field_digits (totalRecords chunks)
  have hparse := parseHeader_headerFile _
    ((recordsOf chunks).map (recordEntry double_rays)).flatten
    (rayFileLines_ok double_rays _ hF)
  rw [layoutOf_rayFileLines double_rays _ hF] at hparse
  have hrs : (rayCloudLayout double_rays).row_size = sizeofRayPlyEntry double_rays := by
    cases double_rays <;> rfl
  have hrows : fileRows (rayCloudLayout double_rays)
      ((recordsOf chunks).map (recordEntry double_rays)).flatten
        = (recordsOf chunks).map (recordEntry double_rays) := by
    apply fileRows_flatten
    · rw [hrs]; cases double_rays <;> decide
    · intro r hr
      obtain ⟨x, _, rfl⟩ := List.mem_map.mp hr
      rw [hrs]
      exact length_rayPlyEntry _ _ _ _ _
  have hvalid : ∀ v ∈ (recordsOf chunks).map (recordEntry double_rays),
      rowValid (rayCloudLayout double_rays) true v = true := by
    intro v hv1
    obtain ⟨r, hr, rfl⟩ := List.mem_map.mp hv1
    obtain ⟨a1, a2, a3, a4⟩ := recordsOf_valid chunks hv r hr
    exact rowValid_recordEntry double_rays r a1 a2 a3 a4
  have hfilter : ((recordsOf chunks).map (recordEntry double_rays)).filter
      (rowValid (rayCloudLayout double_rays) true)
        = (recordsOf chunks).map (recordEntry double_rays) :=
    List.filter_eq_self.mpr hvalid
  have hlen := length_recordsOf chunks
  have hlast : ((recordsOf chunks).map (recordEntry double_rays)).getLast?.map
      (rowValid (rayCloudLayout double_rays) true) = some true := by
    cases hg : ((recordsOf chunks).map (recordEntry double_rays)).getLast? with
    | none =>
      rw [List.getLast?_eq_none_iff] at hg
      have := congrArg List.length hg
      simp only [List.length_map, List.length_nil] at this
      omega
    | some v =>
      simp only [Option.map_some', Option.some.injEq]
      exact hvalid v (List.mem_of_getLast?_eq_some hg)
  obtain ⟨calls, g1, g2, g3⟩ := readPly_stored colourByTime _ true max_intensity
    (rayCloudLayout double_rays) _ chunk_size hparse
    (by cases double_rays <;> decide) (by cases double_rays <;> decide)
    (by cases double_rays <;> decide) (by rw [hrows]; exact hlast) hc
  rw [hrows, hfilter, decodeRows_entries double_rays max_intensity _
    (recordsOf_valid chunks hv)] at g2
  rw [hrows, hfilter, List.length_map, hlen] at g3
  exact ⟨calls, g1, g2, g3⟩

/-- C1 (amended): a sequence of chunks of finite rays with at least one record,
written with `writeRayCloudChunkStart`, `writeRayCloudChunk` and
`writeRayCloudChunkEnd` to a device with room for the file and read back with
`readPly` as a ray cloud, is delivered in full and in order: the callbacks
together hold one record per record written, with the time and the colour
bit-identical to the ones written, the end position equal to the one written
narrowed to `float` and widened again (`storedPosition`; the end position
itself when built with `RAYLIB_DOUBLE_RAYS`), and the start equal to that end
plus the `float` normal. -/
theorem round_trip (double_rays : Bool) (buffers : Nat → Nat → Bool) (limit : Nat)
    (chunks : List Cloud) (colourByTime : ColourByTime) (max_intensity : F64) (chunk_size : Nat)
    (hlim : limit < 18446744073709551616)
    (hroom : rayHeaderLength double_rays
      + totalRecords chunks * sizeofRayPlyEntry double_rays ≤ limit)
    (hne : 1 ≤ totalRecords chunks)
    (hv : ∀ c ∈ chunks, c.valid = true)
    (hc : 1 ≤ chunk_size) :
    (writeRayCloudFile double_rays buffers limit chunks).1 = totalRecords chunks
      ∧ ∃ calls,
        readPly colourByTime (writeRayCloudFile double_rays buffers limit chunks).2 true
            max_intensity chunk_size = some ⟨true, calls⟩
          ∧ concatClouds calls = cloudOf ((recordsOf chunks).map (storedRecord double_rays))
          ∧ (concatClouds calls).ends.length = totalRecords chunks
          ∧ (concatClouds calls).times = (recordsOf chunks).map (fun r => r.2.2.1)
          ∧ (concatClouds calls).colours = (recordsOf chunks).map (fun r => r.2.2.2)
          ∧ (concatClouds calls).ends
            = (recordsOf chunks).map (fun r => storedPosition double_rays r.2.1)
          ∧ (double_rays = true →
            (concatClouds calls).ends = (recordsOf chunks).map (fun r => r.2.1)) := by
  obtain ⟨h1, calls, g1, g2, _⟩ := read_written double_rays buffers limit chunks colourByTime
    max_intensity chunk_size hlim hroom hne hv hc
  have hlen := length_recordsOf chunks
  refine ⟨h1, ?_⟩
  refine ⟨calls, g1, g2, ?_, ?_, ?_, ?_, ?_⟩
  · rw [g2]; simp [cloudOf, hlen]
  · rw [g2]; simp [cloudOf, storedRecord, Function.comp_def]
  · rw [g2]; simp [cloudOf, storedRecord, Function.comp_def]
  · rw [g2]; simp [cloudOf, storedRecord, Function.comp_def]
  · intro hd
    rw [g2, hd]; simp [cloudOf, storedRecord, storedPosition, Function.comp_def]

set_option maxRecDepth 1000000 in
theorem round_trip_witness :
    (1000000 < 18446744073709551616)
      ∧ rayHeaderLength false + totalRecords patchChunks * sizeofRayPlyEntry false ≤ 1000000
      ∧ 1 ≤ totalRecords patchChunks
      ∧ (∀ c ∈ patchChunks, c.valid = true)
      ∧ (writeRayCloudFile false absorbsSmall 1000000 patchChunks).1 = totalRecords patchChunks
      ∧ ∃ calls,
        readPly plainColours (writeRayCloudFile false absorbsSmall 1000000 patchChunks).2 true 0 2
            = some ⟨true, calls⟩
          ∧ concatClouds calls = cloudOf ((recordsOf patchChunks).map (storedRecord false)) :=
  have h := round_trip false absorbsSmall 1000000 patchChunks plainColours 0 2 (by decide) (by decide)
    (by decide) (by decide) (by decide)
  ⟨by decide, by decide, by decide, by decide, h.1,
    h.2.elim fun calls hc => ⟨calls, hc.1, hc.2.1⟩⟩

set_option maxRecDepth 1000000 in
/-- C1 (as stated): without `RAYLIB_DOUBLE_RAYS`, one valid finite ray whose end
has x = 0.1 (bits 0x3FB999999999999A) is read back with x = 0x3FB99999A0000000:
the end position is not bit-identical to the one written. -/
theorem round_trip_end_narrowed :
    tenthRay.valid = true
      ∧ tenthRay.ends = [⟨0x3FB999999999999A, 0, 0⟩]
      ∧ readPly plainColours (writeRayCloudFile false absorbsSmall 1000 [tenthRay]).2 true 0 1
        = some ⟨true, [⟨[⟨0, 0, 0⟩], [⟨0x3FB99999A0000000, 0, 0⟩], [0],
            [⟨255, 255, 255, 255⟩]⟩]⟩
      ∧ (concatClouds [⟨[⟨0, 0, 0⟩], [⟨0x3FB99999A0000000, 0, 0⟩], [0],
            [⟨255, 255, 255, 255⟩]⟩]).ends ≠ tenthRay.ends := by
  decide

/-! ## `convertCloud` -/

theorem length_ends_applyToChunk (apply : Record → Record) (c : Cloud) :
    (applyToChunk apply c).ends.length = c.ends.length := by
  simp [applyToChunk, cloudOf, Cloud.records]

/-- A chunk write that the stream passes on to a device without room for it
returns failure. -/
theorem writeRayCloudChunk_full (double_rays : Bool) (g : Globals) (out : OFStream) (c : Cloud)
    (hg : out.good = true) (hend : out.pos = out.data.length)
    (hchl : g.chunk_header_length ≤ out.pos) (hne : c.ends.length ≠ 0)
    (hdirect : out.buffers out.pos (c.ends.length * sizeofRayPlyEntry double_rays) = false)
    (hfull : out.limit < out.data.length + c.ends.length * sizeofRayPlyEntry double_rays) :
    (writeRayCloudChunk double_rays g out c).1 = false := by
  have htell : ¬ out.tellp < (g.chunk_header_length : Int) := by
    simp only [OFStream.tellp, hg, if_true]
    omega
  have hw := write_full out (rayPlyBuffer double_rays c) hg hend
    (by rw [length_rayPlyBuffer]; exact hdirect) (by rw [length_rayPlyBuffer]; exact hfull)
  simp [writeRayCloudChunk, hne, htell, hw]

/-- C11: `convertCloud` on a file the writer produced from `N >= 1` valid rays,
read in one chunk, with an output device that has room for the header but not
for the header and the `N` rows, through a stream whose buffer passes the write
of the rows on to the device: the one call of `writeRayCloudChunk` returns
failure, and `convertCloud` returns success. -/
theorem convertCloud_ignores_failed_write (double_rays : Bool)
    (inBuffers outBuffers : Nat → Nat → Bool) (inLimit limit : Nat)
    (colourByTime : ColourByTime) (chunks : List Cloud) (chunk_size : Nat)
    (apply : Record → Record)
    (hinlim : inLimit < 18446744073709551616)
    (hinroom : rayHeaderLength double_rays
      + totalRecords chunks * sizeofRayPlyEntry double_rays ≤ inLimit)
    (hne : 1 ≤ totalRecords chunks)
    (hv : ∀ c ∈ chunks, c.valid = true)
    (hc : totalRecords chunks ≤ chunk_size)
    (hlim : limit < 18446744073709551616)
    (hroom : rayHeaderLength double_rays ≤ limit)
    (hdirect : outBuffers (rayHeaderLength double_rays)
      (totalRecords chunks * sizeofRayPlyEntry double_rays) = false)
    (hfull : limit < rayHeaderLength double_rays
      + totalRecords chunks * sizeofRayPlyEntry double_rays) :
    (convertCloud double_rays true outBuffers limit colourByTime
        (writeRayCloudFile double_rays inBuffers inLimit chunks).2 chunk_size apply).map
      (fun r => (r.1, r.2.1)) = some (true, [false]) := by
  obtain ⟨_, calls, g1, g2, g3⟩ := read_written double_rays inBuffers inLimit chunks
    colourByTime 0 chunk_size hinlim hinroom hne hv (by omega)
  have hone : (totalRecords chunks + chunk_size - 1) / chunk_size = 1 :=
    Nat.div_eq_of_lt_le (by omega) (by omega)
  rw [hone] at g3
  obtain ⟨call, rfl⟩ := List.length_eq_one.mp g3
  have hends : call.ends.length = totalRecords chunks := by
    have := congrArg (fun c => c.ends.length) g2
    simpa [concatClouds, cloudOf, length_recordsOf] using this
  have hflag := writeRayCloudChunk_full double_rays ⟨rayHeaderLength double_rays, 0, 113, 0⟩
    ⟨(rayHeaderPieces double_rays).flatten, rayHeaderLength double_rays, true, limit,
      outBuffers⟩ (applyToChunk apply call) rfl (length_rayHeader double_rays).symm
    (by simp) (by rw [length_ends_applyToChunk, hends]; omega)
    (by rw [length_ends_applyToChunk, hends]; exact hdirect)
    (by rw [length_ends_applyToChunk, hends]; simp only [length_rayHeader]; exact hfull)
  simp only [convertCloud, start_of_room double_rays outBuffers limit hroom hlim, g1,
    Bool.not_true, Bool.false_eq_true, if_false, List.map_cons, List.map_nil,
    writeRayCloudChunks, Option.map_some', hflag]

set_option maxRecDepth 10000000 in
theorem convertCloud_ignores_failed_write_witness :
    (1000000 < 18446744073709551616)
      ∧ rayHeaderLength false + totalRecords [zeroRays 228] * sizeofRayPlyEntry false ≤ 1000000
      ∧ 1 ≤ totalRecords [zeroRays 228]
      ∧ (∀ c ∈ [zeroRays 228], c.valid = true)
      ∧ totalRecords [zeroRays 228] ≤ 1000000
      ∧ 4096 < 18446744073709551616
      ∧ rayHeaderLength false ≤ 4096
      ∧ absorbsSmall (rayHeaderLength false)
          (totalRecords [zeroRays 228] * sizeofRayPlyEntry false) = false
      ∧ 4096 < rayHeaderLength false + totalRecords [zeroRays 228] * sizeofRayPlyEntry false
      ∧ (convertCloud false true absorbsSmall 4096 plainColours manyRaysFile 1000000 id).map
          (fun r => (r.1, r.2.1)) = some (true, [false]) :=
  ⟨by decide, by decide, by decide, by decide, by decide, by decide, by decide, by decide,
    by decide,
    convertCloud_ignores_failed_write false absorbsSmall absorbsSmall 1000000 4096 plainColours
      [zeroRays 228] 1000000 id (by decide) (by decide) (by decide) (by decide) (by decide)
      (by decide) (by decide) (by decide) (by decide)⟩

/-! ## Shape of the chunks handed to the callback -/

/-- Every chunk the row loop flushes holds between 1 and `chunk_size` rows. -/
theorem groupRows_bounds (h : Layout) (is_ray_cloud : Bool) (c size : Nat) :
    ∀ (rows : List (List Nat)) (i : Nat) (pend : List (List Nat)), pend.length < c →
      ∀ p ∈ groupRows h is_ray_cloud c size i rows pend, 1 ≤ p.2.length ∧ p.2.length ≤ c := by
  intro rows
  induction rows with
  | nil => intro i pend _ p hp; simp [groupRows] at hp
  | cons v vs ih =>
    intro i pend hpend p hp
    rw [groupRows] at hp
    by_cases hv : rowValid h is_ray_cloud v = true
    · simp only [hv, Bool.not_true, Bool.false_eq_true, if_false] at hp
      by_cases hf : ((pend ++ [v]).length = c || i = size - 1) = true
      · rw [if_pos hf] at hp
        rcases List.mem_cons.mp hp with h1 | h1
        · subst h1
          simp only [List.length_append, List.length_singleton]
          omega
        · exact ih (i + 1) [] (by simp; omega) p h1
      · rw [if_neg hf] at hp
        have hne : (pend ++ [v]).length ≠ c := by
          intro he; apply hf; simp [he]
        exact ih (i + 1) (pend ++ [v])
          (by simp only [List.length_append, List.length_singleton] at hne ⊢; omega) p hp
    · have hv' : rowValid h is_ray_cloud v = false := by simpa using hv
      simp only [hv', Bool.not_false, if_true] at hp
      exact ih (i + 1) pend hpend p hp

/-- Every chunk the row loop flushes before the last one it flushes is full. -/
theorem groupRows_full (h : Layout) (is_ray_cloud : Bool) (c size : Nat) :
    ∀ (rows : List (List Nat)) (i : Nat) (pend : List (List Nat)), i + rows.length = size →
      ∀ p ∈ (groupRows h is_ray_cloud c size i rows pend).dropLast, p.2.length = c := by
  intro rows
  induction rows with
  | nil => intro i pend _ p hp; simp [groupRows] at hp
  | cons v vs ih =>
    intro i pend hsize p hp
    have hsize' : (i + 1) + vs.length = size := by
      simp only [List.length_cons] at hsize; omega
    rw [groupRows] at hp
    by_cases hv : rowValid h is_ray_cloud v = true
    · simp only [hv, Bool.not_true, Bool.false_eq_true, if_false] at hp
      by_cases hf : ((pend ++ [v]).length = c || i = size - 1) = true
      · rw [if_pos hf] at hp
        cases hG : groupRows h is_ray_cloud c size (i + 1) vs [] with
        | nil => rw [hG] at hp; simp at hp
        | cons g gs =>
          have hvs : vs ≠ [] := by
            intro he; rw [he] at hG; simp [groupRows] at hG
          have hi : i ≠ size - 1 := by
            have : 0 < vs.length := List.length_pos.mpr hvs
            omega
          rw [hG, List.dropLast_cons_of_ne_nil (List.cons_ne_nil _ _)] at hp
          rcases List.mem_cons.mp hp with h1 | h1
          · subst h1
            simpa [hi] using hf
          · rw [← hG] at h1
            exact ih (i + 1) [] hsize' p h1
      · rw [if_neg hf] at hp
        exact ih (i + 1) (pend ++ [v]) hsize' p hp
    · have hv' : rowValid h is_ray_cloud v = false := by simpa using hv
      simp only [hv', Bool.not_false, if_true] at hp
      exact ih (i + 1) pend hsize' p hp

theorem length_applyIntensities :
    ∀ (cs : List RGBA) (as : List Nat), as.length ≤ cs.length →
      (applyIntensities cs as).length = cs.length := by
  intro cs
  induction cs with
  | nil =>
    intro as h
    cases as with
    | nil => rfl
    | cons a as => simp at h
  | cons c cs ih =>
    intro as h
    cases as with
    | nil => rfl
    | cons a as =>
      simp only [applyIntensities, List.length_cons]
      rw [ih as (by simpa using h)]

/-- The four columns of a flushed chunk have the length of its rows. -/
theorem finishChunk_lengths (colourByTime : ColourByTime) (h : Layout) (is_ray_cloud : Bool)
    (max_intensity : F64) (i : Nat) (rows : List (List Nat))
    (hcol : h.colour_offset ≠ -1 ∨ ∀ ts cs, (colourByTime ts cs).length = ts.length) :
    (finishChunk colourByTime h is_ray_cloud i
        (colsOf h is_ray_cloud max_intensity rows)).ends.length = rows.length
      ∧ (finishChunk colourByTime h is_ray_cloud i
        (colsOf h is_ray_cloud max_intensity rows)).starts.length = rows.length
      ∧ (finishChunk colourByTime h is_ray_cloud i
        (colsOf h is_ray_cloud max_intensity rows)).times.length = rows.length
      ∧ (finishChunk colourByTime h is_ray_cloud i
        (colsOf h is_ray_cloud max_intensity rows)).colours.length = rows.length := by
  rw [colsOf_eq]
  have ht : (if h.time_offset = -1 then
        (List.range (rows.map (decodeEnd h)).length).map fun j => natToF64 (i + j)
      else if h.time_offset ≠ -1 then rows.map (decodeTime h) else []).length = rows.length := by
    by_cases h1 : h.time_offset = -1 <;> simp [h1]
  refine ⟨by simp [finishChunk], by simp [finishChunk], by simpa [finishChunk] using ht, ?_⟩
  simp only [finishChunk]
  have hbase : (if h.colour_offset = -1 then
        colourByTime (if h.time_offset = -1 then
            (List.range (rows.map (decodeEnd h)).length).map fun j => natToF64 (i + j)
          else if h.time_offset ≠ -1 then rows.map (decodeTime h) else [])
          (if h.colour_offset ≠ -1 then rows.map (fun v => rgbaAt v h.colour_offset.toNat)
            else [])
      else if h.colour_offset ≠ -1 then rows.map (fun v => rgbaAt v h.colour_offset.toNat)
        else []).length = rows.length := by
    by_cases hc : h.colour_offset = -1
    · rcases hcol with h1 | h1
      · exact absurd hc h1
      · rw [if_pos hc, h1, ht]
    · simp [hc]
  by_cases hi : (!is_ray_cloud && decide (h.intensity_offset ≠ -1)) = true
  · rw [if_pos hi, if_pos hi, length_applyIntensities _ _ (by rw [hbase]; simp), hbase]
  · rw [if_neg hi, hbase]

/-- C12: for every file and every chunk capacity `c >= 1` (with the colour
stored in the file, or a `colourByTime` that returns one colour per time),
every chunk `readPly` hands to the callback has `starts`, `ends`, `times` and
`colours` of one common length, which is at least 1 and at most `c`; and the
call returns on every file that has a header. -/
theorem readPly_chunk_shape (colourByTime : ColourByTime) (file : List Nat)
    (is_ray_cloud : Bool) (max_intensity : F64) (c : Nat)
    (hcol : (∃ h body, parseHeader file = some (h, body) ∧ h.colour_offset ≠ -1)
      ∨ ∀ ts cs, (colourByTime ts cs).length = ts.length)
    (hc : 1 ≤ c) :
    (∀ r, readPly colourByTime file is_ray_cloud max_intensity c = some r →
        ∀ chunk ∈ r.calls, chunk.starts.length = chunk.ends.length
          ∧ chunk.times.length = chunk.ends.length
          ∧ chunk.colours.length = chunk.ends.length
          ∧ 1 ≤ chunk.ends.length ∧ chunk.ends.length ≤ c)
      ∧ ((parseHeader file).isSome = true →
        (readPly colourByTime file is_ray_cloud max_intensity c).isSome = true) := by
  cases hparse : parseHeader file with
  | none =>
    refine ⟨fun r hr => ?_, fun h => by simp at h⟩
    simp [readPly, hparse] at hr
  | some hb =>
    obtain ⟨h, body⟩ := hb
    have hread := readPly_of_parse colourByTime file is_ray_cloud max_intensity c h body hparse
    have hc0 : c ≠ 0 := by omega
    have hcol' : h.colour_offset ≠ -1 ∨ ∀ ts cs, (colourByTime ts cs).length = ts.length := by
      rcases hcol with ⟨h', body', hp, hne⟩ | hcbt
      · rw [hparse] at hp
        simp only [Option.some.injEq, Prod.mk.injEq] at hp
        rw [hp.1]; exact Or.inl hne
      · exact Or.inr hcbt
    constructor
    · intro r hr chunk hchunk
      rw [hread] at hr
      by_cases hm : mandatoryFieldsPresent is_ray_cloud h = false
      · simp only [hm, if_true, Option.some.injEq] at hr
        rw [← hr] at hchunk; simp at hchunk
      · by_cases hz : (fileRows h body).length = 0
        · simp only [hm, Bool.true_eq_false, if_false, hc0, hz, if_true, Option.some.injEq] at hr
          rw [← hr] at hchunk; simp at hchunk
        · simp only [hm, Bool.true_eq_false, if_false, hc0, hz, Option.some.injEq] at hr
          rw [← hr] at hchunk
          obtain ⟨p, hp, rfl⟩ := List.mem_map.mp hchunk
          obtain ⟨l1, l2, l3, l4⟩ := finishChunk_lengths colourByTime h is_ray_cloud
            max_intensity p.1 p.2 hcol'
          obtain ⟨b1, b2⟩ := groupRows_bounds h is_ray_cloud c (fileRows h body).length
            (fileRows h body) 0 [] (by simp; omega) p hp
          rw [l1, l2, l3, l4]
          exact ⟨rfl, rfl, rfl, b1, b2⟩
    · intro _
      rw [hread]
      by_cases hm : mandatoryFieldsPresent is_ray_cloud h = false
      · simp [hm]
      · by_cases hz : (fileRows h body).length = 0
        · simp [hm, hc0, hz]
        · simp [hm, hc0, hz]

set_option maxRecDepth 1000000 in
theorem readPly_chunk_shape_witness :
    ((∃ h body, parseHeader twoRayFile = some (h, body) ∧ h.colour_offset ≠ -1)
        ∨ ∀ ts cs, (plainColours ts cs).length = ts.length)
      ∧ 1 ≤ 1
      ∧ readPly plainColours twoRayFile true 0 1 = some twoRayResult
      ∧ ∀ chunk ∈ twoRayResult.calls, chunk.starts.length = chunk.ends.length
          ∧ chunk.times.length = chunk.ends.length
          ∧ chunk.colours.length = chunk.ends.length
          ∧ 1 ≤ chunk.ends.length ∧ chunk.ends.length ≤ 1 :=
  ⟨Or.inr (fun ts _ => by simp [plainColours]), by decide, by decide,
    (readPly_chunk_shape plainColours twoRayFile true 0 1
      (Or.inr (fun ts _ => by simp [plainColours])) (by decide)).1 twoRayResult (by decide)⟩

/-! ## Row width and field offsets of the header scan -/

theorem row_size_scanLine (h : Layout) (line : List Nat) :
    (scanLine h line).row_size = h.row_size + lineWidth line := by
  simp only [scanLine, lineWidth]
  by_cases h1 : isPositionLine line = true <;> by_cases h2 : isNormalLine line = true <;>
    by_cases h3 : found line "time" = true <;> by_cases h4 : found line "intensity" = true <;>
    by_cases h5 : found line "property uchar red" = true <;> simp [h1, h2, h3, h4, h5]

theorem time_offset_scanLine (h : Layout) (line : List Nat) :
    (scanLine h line).time_offset
      = if found line "time" then (h.row_size : Int) else h.time_offset := by
  simp only [scanLine]
  by_cases h1 : isPositionLine line = true <;> by_cases h2 : isNormalLine line = true <;>
    by_cases h3 : found line "time" = true <;> by_cases h4 : found line "intensity" = true <;>
    by_cases h5 : found line "property uchar red" = true <;> simp [h1, h2, h3, h4, h5]

theorem intensity_offset_scanLine (h : Layout) (line : List Nat) :
    (scanLine h line).intensity_offset
      = if found line "intensity" then (h.row_size : Int) else h.intensity_offset := by
  simp only [scanLine]
  by_cases h1 : isPositionLine line = true <;> by_cases h2 : isNormalLine line = true <;>
    by_cases h3 : found line "time" = true <;> by_cases h4 : found line "intensity" = true <;>
    by_cases h5 : found line "property uchar red" = true <;> simp [h1, h2, h3, h4, h5]

theorem colour_offset_scanLine (h : Layout) (line : List Nat) :
    (scanLine h line).colour_offset
      = if found line "property uchar red" then (h.row_size : Int) else h.colour_offset := by
  simp only [scanLine]
  by_cases h1 : isPositionLine line = true <;> by_cases h2 : isNormalLine line = true <;>
    by_cases h3 : found line "time" = true <;> by_cases h4 : found line "intensity" = true <;>
    by_cases h5 : found line "property uchar red" = true <;> simp [h1, h2, h3, h4, h5]

theorem row_size_foldl (lines : List (List Nat)) :
    ∀ h : Layout, (lines.foldl scanLine h).row_size = h.row_size + (lines.map lineWidth).sum := by
  induction lines with
  | nil => intro h; simp
  | cons l ls ih =>
    intro h
    rw [List.foldl_cons, ih, row_size_scanLine, List.map_cons, List.sum_cons]
    omega

theorem layoutOf_eq_foldl (lines : List (List Nat)) :
    layoutOf lines = lines.foldl scanLine Layout.init := by
  rw [layoutOf, List.foldl_append, List.foldl_cons, List.foldl_nil, scanLine_end_header]

/-- A variable the header loop sets to `row_size` on the lines that satisfy `p`
holds, after the loop, the width of the lines before the last such line. -/
theorem field_offset_foldl (f : Layout → Int) (p : List Nat → Bool)
    (hstep : ∀ h l, f (scanLine h l) = if p l then (h.row_size : Int) else f h)
    (pre post : List (List Nat)) (l : List Nat) (hl : p l = true)
    (hpost : ∀ m ∈ post, p m = false) :
    f (layoutOf (pre ++ l :: post)) = (((pre.map lineWidth).sum : Nat) : Int) := by
  have hkeep : ∀ (ms : List (List Nat)) (h : Layout), (∀ m ∈ ms, p m = false) →
      f (ms.foldl scanLine h) = f h := by
    intro ms
    induction ms with
    | nil => intro h _; rfl
    | cons m ms ih =>
      intro h hm
      rw [List.foldl_cons, ih _ (fun x hx => hm x (List.mem_cons_of_mem _ hx)), hstep,
        hm m (List.mem_cons_self _ _)]
      simp
  rw [layoutOf_eq_foldl, List.foldl_append, List.foldl_cons, hkeep post _ hpost, hstep, hl,
    if_pos rfl, row_size_foldl]
  simp [Layout.init]

/-- C14 (amended): for every header, the row size the header loop of `readPly`
computes is the sum over the header lines of the width the loop recognises
(`lineWidth`: 4 for a line with `property float`, else 8 for `property double`,
else 1 for `property uchar`, else 2 for `property ushort`, else 0), and the
offset of each recognised field (position, normal, time, intensity, colour) is
the sum of those widths over the lines before the last line that declares the
field.  A property of another type adds nothing. -/
theorem layout_row_size_and_offsets (pre post : List (List Nat)) (l : List Nat) :
    (∀ lines, (layoutOf lines).row_size = (lines.map lineWidth).sum)
      ∧ (∀ lines body, (∀ m ∈ lines, 10 ∉ m ∧ isEndHeader m = false) →
          parseHeader (headerFile lines body) = some (layoutOf lines, body))
      ∧ (isPositionLine l = true → (∀ m ∈ post, isPositionLine m = false) →
          (layoutOf (pre ++ l :: post)).offset = (((pre.map lineWidth).sum : Nat) : Int))
      ∧ (isNormalLine l = true → (∀ m ∈ post, isNormalLine m = false) →
          (layoutOf (pre ++ l :: post)).normal_offset
            = (((pre.map lineWidth).sum : Nat) : Int))
      ∧ (found l "time" = true → (∀ m ∈ post, found m "time" = false) →
          (layoutOf (pre ++ l :: post)).time_offset = (((pre.map lineWidth).sum : Nat) : Int))
      ∧ (found l "intensity" = true → (∀ m ∈ post, found m "intensity" = false) →
          (layoutOf (pre ++ l :: post)).intensity_offset
            = (((pre.map lineWidth).sum : Nat) : Int))
      ∧ (found l "property uchar red" = true →
          (∀ m ∈ post, found m "property uchar red" = false) →
          (layoutOf (pre ++ l :: post)).colour_offset
            = (((pre.map lineWidth).sum : Nat) : Int)) := by
  refine ⟨?_, ?_, ?_, ?_, ?_, ?_, ?_⟩
  · intro lines
    rw [layoutOf_eq_foldl, row_size_foldl]
    simp [Layout.init]
  · intro lines body hl
    exact parseHeader_headerFile lines body hl
  · exact field_offset_foldl (fun h => h.offset) isPositionLine offset_scanLine pre post l
  · exact field_offset_foldl (fun h => h.normal_offset) isNormalLine normal_offset_scanLine
      pre post l
  · exact field_offset_foldl (fun h => h.time_offset) (fun m => found m "time")
      time_offset_scanLine pre post l
  · exact field_offset_foldl (fun h => h.intensity_offset) (fun m => found m "intensity")
      intensity_offset_scanLine pre post l
  · exact field_offset_foldl (fun h => h.colour_offset) (fun m => found m "property uchar red")
      colour_offset_scanLine pre post l

set_option maxRecDepth 1000000 in
theorem layout_row_size_and_offsets_witness :
    found (str "property double time") "time" = true
      ∧ (∀ m ∈ [str "property float nx", str "property uchar red"], found m "time" = false)
      ∧ (layoutOf ([str "ply", str "property float x", str "property float y",
            str "property float z"] ++ str "property double time"
            :: [str "property float nx", str "property uchar red"])).time_offset = 12
      ∧ (layoutOf intIdLines).row_size = (intIdLines.map lineWidth).sum :=
  have h := layout_row_size_and_offsets
    [str "ply", str "property float x", str "property float y", str "property float z"]
    [str "property float nx", str "property uchar red"] (str "property double time")
  ⟨by decide, by decide, h.2.2.2.2.1 (by decide) (by decide), h.1 intIdLines⟩

set_option maxRecDepth 1000000 in
/-- C14 (as stated): a header with `property int id` ahead of the position.
The four-byte `int` adds nothing to the row: the loop computes a row size of 20
and puts the position at offset 0 and the time at offset 12, where the declared
widths sum to 24 and put them at 4 and 16. -/
theorem int_property_adds_no_width :
    (layoutOf intIdLines).row_size = 20
      ∧ (intIdLines.map declaredWidth).sum = 24
      ∧ (layoutOf intIdLines).offset = 0
      ∧ ((intIdLines.take 4).map declaredWidth).sum = 4
      ∧ (layoutOf intIdLines).time_offset = 12
      ∧ ((intIdLines.take 7).map declaredWidth).sum = 16
      ∧ parseHeader (headerFile intIdLines (List.replicate 24 0))
        = some (layoutOf intIdLines, List.replicate 24 0) := by
  decide

/-! ## Synthesised times, `uchar` intensity: evaluations -/

set_option maxRecDepth 1000000 in
/-- C13: `noTimeFile` (eleven rows, no time property) read with capacity 4.  The
rows are handed over in three calls of 4, 4 and 3 records, and the rows 0..10
carry the times 3, 4, 5, 6, 7, 8, 9, 10, 10, 11, 12: the index of the row at
which the chunk is flushed plus the position in the chunk, not the row index. -/
theorem readPly_synthesised_times :
    (readPly plainColours noTimeFile true 0 4).map
        (fun r => ((concatClouds r.calls).times, r.calls.map fun c => c.ends.length))
      = some ([3, 4, 5, 6, 7, 8, 9, 10, 10, 11, 12].map natToF64, [4, 4, 3]) := by
  decide

set_option maxRecDepth 1000000 in
/-- C15: a point-cloud header that declares `property uchar intensity` at
offset 20, followed by the colour.  The raw intensity of a row with intensity
byte 5 is 261 when the next byte (red) is 1 and 5 when it is 0: two bytes are
read.  With `max_intensity` 255 the alpha delivered is 255 in place of 5. -/
theorem rawIntensity_uchar_reads_two_bytes :
    (layoutOf ucharIntensityLines).intensity_type = kDTuchar
      ∧ (layoutOf ucharIntensityLines).intensity_offset = 20
      ∧ ucharIntensityRow.getD 20 0 = 5 ∧ ucharIntensityRowB.getD 20 0 = 5
      ∧ rawIntensity (layoutOf ucharIntensityLines) ucharIntensityRow = natToF64 261
      ∧ rawIntensity (layoutOf ucharIntensityLines) ucharIntensityRowB = natToF64 5
      ∧ (readPly plainColours (headerFile ucharIntensityLines ucharIntensityRow) false
            0x406FE00000000000 10).map (fun r => r.calls.map Cloud.colours)
          = some [[⟨1, 20, 30, 255⟩]]
      ∧ (readPly plainColours (headerFile ucharIntensityLines ucharIntensityRowB) false
            0x406FE00000000000 10).map (fun r => r.calls.map Cloud.colours)
          = some [[⟨0, 20, 30, 5⟩]] := by
  decide

theorem concatClouds_starts (colourByTime : ColourByTime) (h : Layout) (is_ray_cloud : Bool)
    (max_intensity : F64) (groups : List (Nat × List (List Nat))) :
    (concatClouds (groups.map fun p => finishChunk colourByTime h is_ray_cloud p.1
        (colsOf h is_ray_cloud max_intensity p.2))).starts
      = (groups.map Prod.snd).flatten.map
          (fun v => (decodeEnd h v).add (decodeNormal h is_ray_cloud v)) := by
  induction groups with
  | nil => simp [concatClouds]
  | cons g gs ih =>
    simp only [concatClouds, List.map_cons, List.flatten_cons, List.map_append] at ih ⊢
    rw [ih]
    simp [finishChunk, colsOf_eq]

/-- The reader's own test of a row (`end == end`, `normal == normal`) is the
test for a NaN coordinate. -/
theorem rowValid_eq_rowHasNoNaN (h : Layout) (is_ray_cloud : Bool) :
    rowValid h is_ray_cloud = rowHasNoNaN h is_ray_cloud := by
  funext v
  simp only [rowValid, rowHasNoNaN, Vector3d.eq, Vector3d.noNaN, eq64_self]

/-- C16: for every file with a header and the mandatory fields whose last row
has no NaN in its position (nor in its normal for a ray cloud), and every chunk
capacity `c >= 1`, `readPly` succeeds, the ends it hands to the callback are,
concatenated, the ends of the rows of the file without such a NaN, in file
order, the starts are the end plus the normal of those rows, and every call but
the last carries exactly `c` records. -/
theorem readPly_delivers_valid_rows (colourByTime : ColourByTime) (file : List Nat)
    (is_ray_cloud : Bool) (max_intensity : F64) (h : Layout) (body : List Nat) (c : Nat)
    (hparse : parseHeader file = some (h, body))
    (hmand : mandatoryFieldsPresent is_ray_cloud h = true)
    (hlast : (fileRows h body).getLast?.map (rowHasNoNaN h is_ray_cloud) = some true)
    (hc : 1 ≤ c) :
    ∃ calls, readPly colourByTime file is_ray_cloud max_intensity c = some ⟨true, calls⟩
      ∧ (concatClouds calls).ends
        = ((fileRows h body).filter (rowHasNoNaN h is_ray_cloud)).map (decodeEnd h)
      ∧ (concatClouds calls).starts
        = ((fileRows h body).filter (rowHasNoNaN h is_ray_cloud)).map
            (fun v => (decodeEnd h v).add (decodeNormal h is_ray_cloud v))
      ∧ (∀ call ∈ calls.dropLast, call.ends.length = c)
      ∧ ∀ call ∈ calls, 1 ≤ call.ends.length ∧ call.ends.length ≤ c := by
  rw [← rowValid_eq_rowHasNoNaN] at hlast ⊢
  have hlast' : ∃ v, (fileRows h body).getLast? = some v ∧ rowValid h is_ray_cloud v = true := by
    cases hg : (fileRows h body).getLast? with
    | none => simp [hg] at hlast
    | some v => exact ⟨v, rfl, by simpa [hg] using hlast⟩
  have hne : (fileRows h body).length ≠ 0 := by
    intro h0
    obtain ⟨v, hv, _⟩ := hlast'
    rw [List.length_eq_zero.mp h0] at hv
    simp at hv
  obtain ⟨g1, _⟩ := groupRows_flatten h is_ray_cloud c (fileRows h body).length hc
    (fileRows h body) 0 [] (by simp) (by simp; omega) hlast'
  rw [List.nil_append] at g1
  refine ⟨(groupRows h is_ray_cloud c (fileRows h body).length 0 (fileRows h body) []).map
    (fun p => finishChunk colourByTime h is_ray_cloud p.1
      (colsOf h is_ray_cloud max_intensity p.2)), ?_, ?_, ?_, ?_, ?_⟩
  · rw [readPly_of_parse colourByTime file is_ray_cloud max_intensity c h body hparse]
    simp only [hmand, Bool.true_eq_false, if_false, hne, Nat.ne_of_gt hc]
  · rw [concatClouds_ends, g1]
  · rw [concatClouds_starts, g1]
  · intro call hcall
    rw [← List.map_dropLast] at hcall
    obtain ⟨p, hp, rfl⟩ := List.mem_map.mp hcall
    have := groupRows_full h is_ray_cloud c (fileRows h body).length (fileRows h body) 0 []
      (by simp) p hp
    simpa [finishChunk, colsOf_eq] using this
  · intro call hcall
    obtain ⟨p, hp, rfl⟩ := List.mem_map.mp hcall
    have := groupRows_bounds h is_ray_cloud c (fileRows h body).length (fileRows h body) 0 []
      (by simp; omega) p hp
    simpa [finishChunk, colsOf_eq] using this

set_option maxRecDepth 1000000 in
theorem readPly_delivers_valid_rows_witness :
    parseHeader nanMiddleFile = some (rayCloudLayout false, nanMiddleFile.drop 332)
      ∧ mandatoryFieldsPresent true (rayCloudLayout false) = true
      ∧ (fileRows (rayCloudLayout false) (nanMiddleFile.drop 332)).getLast?.map
          (rowHasNoNaN (rayCloudLayout false) true) = some true
      ∧ 1 ≤ 1
      ∧ (fileRows (rayCloudLayout false) (nanMiddleFile.drop 332)).map
          (rowHasNoNaN (rayCloudLayout false) true) = [true, false, true]
      ∧ ∃ calls, readPly plainColours nanMiddleFile true 0 1 = some ⟨true, calls⟩
        ∧ (concatClouds calls).ends
          = ((fileRows (rayCloudLayout false) (nanMiddleFile.drop 332)).filter
              (rowHasNoNaN (rayCloudLayout false) true)).map (decodeEnd (rayCloudLayout false))
        ∧ (concatClouds calls).ends.length = 2
        ∧ ∀ call ∈ calls.dropLast, call.ends.length = 1 :=
  have h := readPly_delivers_valid_rows plainColours nanMiddleFile true 0 (rayCloudLayout false)
    (nanMiddleFile.drop 332) 1 (by decide) (by decide) (by decide) (by decide)
  ⟨by decide, by decide, by decide, by decide, by decide,
    h.elim fun calls hc => ⟨calls, hc.1, hc.2.1, by rw [hc.2.1]; decide, hc.2.2.2.1⟩⟩

end ray
